import Mathlib

/-! UART and SSI drivers of the CC2538 board-support package.

A shallow embedding of `third_party/ti/src/uart.c` and `third_party/ti/src/ssi.c`.

* The register file is a map from address to word (`Regs`); `HWREG(a)` reads it and
  `HWREG(a) = v` updates it.
* `uint32_t` values are natural numbers; every operation that can leave the 32-bit range is
  followed by an explicit `% 2 ^ 32`.
* A driver call that would spin forever on a status bit, or divide by zero, yields a `Fault`.
* The register offsets and bit masks of `hw_uart.h` / `hw_ssi.h` / `ssi.h` are not part of the
  sources at hand.  Those fixed by the register layouts of the specification are defined from it;
  the others are fields of `UartHw` / `SsiHw`, and theorems state what they need of them.
-/

namespace Cc2538

/-! ## Machine model -/

/-- Register file: address to 32-bit word. -/
abbrev Regs := Nat → Nat

/-- Ways in which a driver call fails to return a result. -/
inductive Fault where
  /-- busy-wait loop whose exit condition never becomes true -/
  | hang
  /-- unsigned division with a zero divisor -/
  | divByZero
  /-- the iteration budget given to a loop was used up -/
  | outOfFuel
  deriving DecidableEq, Repr

/-- Read access `HWREG(a)`. -/
def HWREG (r : Regs) (a : Nat) : Nat := r a

/-- Write access `HWREG(a) = v`. -/
def HWREG_set (r : Regs) (a v : Nat) : Regs := fun x => if x = a then v else r x

/-- Bitwise complement `~x` of a `uint32_t`. -/
def not32 (x : Nat) : Nat := 0xFFFFFFFF ^^^ x

/-- A register file together with the stores made to it so far, oldest first.  The registers
are volatile, so the order and the values of the stores of a driver function are part of what
it does. -/
structure Traced where
  /-- the register file -/
  regs : Regs
  /-- the stores made so far, as pairs of address and value -/
  stores : List (Nat × Nat)

/-- Write access `HWREG(a) = v` on a traced register file. -/
def Traced.store (t : Traced) (a v : Nat) : Traced :=
  ⟨HWREG_set t.regs a v, t.stores ++ [(a, v)]⟩

/-- The register file reached from `r` by a list of stores. -/
def replay (r : Regs) : List (Nat × Nat) → Regs
  | [] => r
  | (a, v) :: ws => replay (HWREG_set r a v) ws

/-! ## UART constants -/

/-- Register offsets and bit masks of `hw_uart.h` that the specification does not fix. -/
structure UartHw where
  UART_O_DR : Nat
  UART_O_RSR : Nat
  UART_O_ECR : Nat
  UART_O_FR : Nat
  UART_O_IBRD : Nat
  UART_O_FBRD : Nat
  UART_O_LCRH : Nat
  UART_O_CTL : Nat
  UART_O_IFLS : Nat
  UART_O_IM : Nat
  UART_O_RIS : Nat
  UART_O_MIS : Nat
  UART_O_ICR : Nat
  UART_O_DMACTL : Nat
  UART_O_NINEBITADDR : Nat
  UART_O_NINEBITAMASK : Nat
  UART_O_CC : Nat
  UART_CTL_UARTEN : Nat
  UART_CTL_HSE : Nat
  UART_CTL_TXE : Nat
  UART_CTL_RXE : Nat
  UART_FR_BUSY : Nat
  UART_FR_RXFE : Nat
  UART_FR_TXFF : Nat
  UART_FR_TXFE : Nat
  UART_NINEBITADDR_NINEBITEN : Nat
  UART_NINEBITADDR_ADDR_S : Nat
  UART_NINEBITAMASK_MASK_S : Nat

/-- The readable/writable registers of one UART, by offset (`UART_O_ECR` is the write side of
`UART_O_RSR` and is left out). -/
def UartHw.offsets (hw : UartHw) : List Nat :=
  [hw.UART_O_DR, hw.UART_O_RSR, hw.UART_O_FR, hw.UART_O_IBRD, hw.UART_O_FBRD, hw.UART_O_LCRH,
   hw.UART_O_CTL, hw.UART_O_IFLS, hw.UART_O_IM, hw.UART_O_RIS, hw.UART_O_MIS, hw.UART_O_ICR,
   hw.UART_O_DMACTL, hw.UART_O_NINEBITADDR, hw.UART_O_NINEBITAMASK, hw.UART_O_CC]

/-- Distinct registers live at distinct offsets. -/
def UartHw.OffsetsDistinct (hw : UartHw) : Prop := hw.offsets.Nodup

instance (hw : UartHw) : Decidable hw.OffsetsDistinct := by
  unfold UartHw.OffsetsDistinct; infer_instance

/-- Modelled from the spec: `hw_uart.h` is missing; line-control layout
`SPS=bit7, WLEN=bits6:5, FEN=bit4, STP2=bit3, EPS=bit2, PEN=bit1, BRK=bit0`. -/
def UART_LCRH_SPS : Nat := 0x80

/-- Modelled from the spec: `hw_uart.h` is missing; `WLEN=bits6:5` of the line-control register. -/
def UART_LCRH_WLEN_M : Nat := 0x60

/-- Modelled from the spec: `hw_uart.h` is missing; `FEN=bit4` of the line-control register. -/
def UART_LCRH_FEN : Nat := 0x10

/-- Modelled from the spec: `hw_uart.h` is missing; `STP2=bit3` of the line-control register. -/
def UART_LCRH_STP2 : Nat := 0x08

/-- Modelled from the spec: `hw_uart.h` is missing; `EPS=bit2` of the line-control register. -/
def UART_LCRH_EPS : Nat := 0x04

/-- Modelled from the spec: `hw_uart.h` is missing; `PEN=bit1` of the line-control register. -/
def UART_LCRH_PEN : Nat := 0x02

/-- Modelled from the spec: `hw_uart.h` is missing; `BRK=bit0` of the line-control register. -/
def UART_LCRH_BRK : Nat := 0x01

/-! `uart.h`: values for the `ui32Config` parameter. -/

def UART_CONFIG_WLEN_MASK : Nat := 0x00000060

def UART_CONFIG_WLEN_8 : Nat := 0x00000060

def UART_CONFIG_WLEN_7 : Nat := 0x00000040

def UART_CONFIG_WLEN_6 : Nat := 0x00000020

def UART_CONFIG_WLEN_5 : Nat := 0x00000000

def UART_CONFIG_STOP_MASK : Nat := 0x00000008

def UART_CONFIG_STOP_ONE : Nat := 0x00000000

def UART_CONFIG_STOP_TWO : Nat := 0x00000008

def UART_CONFIG_PAR_MASK : Nat := 0x00000086

def UART_CONFIG_PAR_NONE : Nat := 0x00000000

def UART_CONFIG_PAR_EVEN : Nat := 0x00000006

def UART_CONFIG_PAR_ODD : Nat := 0x00000002

def UART_CONFIG_PAR_ONE : Nat := 0x00000082

def UART_CONFIG_PAR_ZERO : Nat := 0x00000086

/-! `uart.h`: values returned from `UARTRxErrorGet`. -/

def UART_RXERROR_OVERRUN : Nat := 0x00000008

def UART_RXERROR_BREAK : Nat := 0x00000004

def UART_RXERROR_PARITY : Nat := 0x00000002

def UART_RXERROR_FRAMING : Nat := 0x00000001

/-- A concrete register layout (offsets and masks of the CC2538 `hw_uart.h`), used to run the
driver on explicit inputs. -/
def cc2538Uart : UartHw where
  UART_O_DR := 0x000
  UART_O_RSR := 0x004
  UART_O_ECR := 0x004
  UART_O_FR := 0x018
  UART_O_IBRD := 0x024
  UART_O_FBRD := 0x028
  UART_O_LCRH := 0x02C
  UART_O_CTL := 0x030
  UART_O_IFLS := 0x034
  UART_O_IM := 0x038
  UART_O_RIS := 0x03C
  UART_O_MIS := 0x040
  UART_O_ICR := 0x044
  UART_O_DMACTL := 0x048
  UART_O_NINEBITADDR := 0x0A4
  UART_O_NINEBITAMASK := 0x0A8
  UART_O_CC := 0xFC8
  UART_CTL_UARTEN := 0x001
  UART_CTL_HSE := 0x020
  UART_CTL_TXE := 0x100
  UART_CTL_RXE := 0x200
  UART_FR_BUSY := 0x08
  UART_FR_RXFE := 0x10
  UART_FR_TXFF := 0x20
  UART_FR_TXFE := 0x80
  UART_NINEBITADDR_NINEBITEN := 0x8000
  UART_NINEBITADDR_ADDR_S := 0
  UART_NINEBITAMASK_MASK_S := 0

/-- Base address of UART0 on the CC2538. -/
def UART0_BASE : Nat := 0x4000C000

/-- The all-zero register file. -/
def zeroRegs : Regs := fun _ => 0

/-! ## UART driver -/

/-- Driver function `UARTDisable`: wait for end of TX, disable the FIFO, disable the UART.
The wait loop has an empty body, so on a register file that nothing else changes it leaves at
its first test or never. -/
def UARTDisable (hw : UartHw) (ui32Base : Nat) (r : Regs) : Except Fault Regs :=
  if HWREG r (ui32Base + hw.UART_O_FR) &&& hw.UART_FR_BUSY ≠ 0 then
    .error .hang
  else
    let r1 := HWREG_set r (ui32Base + hw.UART_O_LCRH)
      (HWREG r (ui32Base + hw.UART_O_LCRH) &&& not32 UART_LCRH_FEN)
    let r2 := HWREG_set r1 (ui32Base + hw.UART_O_CTL)
      (HWREG r1 (ui32Base + hw.UART_O_CTL) &&&
        not32 (hw.UART_CTL_UARTEN ||| hw.UART_CTL_TXE ||| hw.UART_CTL_RXE))
    .ok r2

/-- The test `(ui32Baud * 16) > ui32UARTClk` of `UARTConfigSetExpClk`, in `uint32_t`. -/
def highSpeed (ui32UARTClk ui32Baud : Nat) : Bool :=
  decide ((ui32Baud * 16) % 2 ^ 32 > ui32UARTClk)

/-- The baud rate after the high-speed branch of `UARTConfigSetExpClk` (`ui32Baud /= 2`). -/
def effectiveBaud (ui32UARTClk ui32Baud : Nat) : Nat :=
  if highSpeed ui32UARTClk ui32Baud then ui32Baud / 2 else ui32Baud

/-- The divider `ui32Div = (((ui32UARTClk * 8) / ui32Baud) + 1) / 2`, in `uint32_t`. -/
def baudDiv (ui32UARTClk ui32Baud : Nat) : Nat :=
  (((ui32UARTClk * 8) % 2 ^ 32 / ui32Baud + 1) % 2 ^ 32) / 2

/-- Driver function `UARTConfigSetExpClk`: stop the UART, select high-speed mode or not,
program the baud-rate divider and the line control, clear the flags register. -/
def UARTConfigSetExpClk (hw : UartHw) (ui32Base ui32UARTClk ui32Baud ui32Config : Nat)
    (r : Regs) : Except Fault Regs :=
  match UARTDisable hw ui32Base r with
  | .error e => .error e
  | .ok r0 =>
    let r1 :=
      if highSpeed ui32UARTClk ui32Baud then
        HWREG_set r0 (ui32Base + hw.UART_O_CTL)
          (HWREG r0 (ui32Base + hw.UART_O_CTL) ||| hw.UART_CTL_HSE)
      else
        HWREG_set r0 (ui32Base + hw.UART_O_CTL)
          (HWREG r0 (ui32Base + hw.UART_O_CTL) &&& not32 hw.UART_CTL_HSE)
    let ui32Baud := effectiveBaud ui32UARTClk ui32Baud
    if ui32Baud = 0 then
      .error .divByZero
    else
      let ui32Div := baudDiv ui32UARTClk ui32Baud
      let r2 := HWREG_set r1 (ui32Base + hw.UART_O_IBRD) (ui32Div / 64)
      let r3 := HWREG_set r2 (ui32Base + hw.UART_O_FBRD) (ui32Div % 64)
      let r4 := HWREG_set r3 (ui32Base + hw.UART_O_LCRH) ui32Config
      let r5 := HWREG_set r4 (ui32Base + hw.UART_O_FR) 0
      .ok r5

/-- Driver function `UARTConfigGetExpClk`: returns the register file it leaves and the values
stored through `pui32Baud` and `pui32Config`. -/
def UARTConfigGetExpClk (hw : UartHw) (ui32Base ui32UARTClk : Nat) (r : Regs) :
    Except Fault (Regs × Nat × Nat) :=
  let ui32Int := HWREG r (ui32Base + hw.UART_O_IBRD)
  let ui32Frac := HWREG r (ui32Base + hw.UART_O_FBRD)
  let den := ((64 * ui32Int) % 2 ^ 32 + ui32Frac) % 2 ^ 32
  if den = 0 then
    .error .divByZero
  else
    let baud := (ui32UARTClk * 4) % 2 ^ 32 / den
    let baud :=
      if HWREG r (ui32Base + hw.UART_O_CTL) &&& hw.UART_CTL_HSE ≠ 0 then (baud * 2) % 2 ^ 32
      else baud
    let config := HWREG r (ui32Base + hw.UART_O_LCRH) &&&
      (UART_LCRH_SPS ||| UART_LCRH_WLEN_M ||| UART_LCRH_STP2 ||| UART_LCRH_EPS ||| UART_LCRH_PEN)
    .ok (r, baud, config)

/-- Driver function `UARTParityModeSet`: read-modify-write of the line-control register. -/
def UARTParityModeSet (hw : UartHw) (ui32Base ui32Parity : Nat) (r : Regs) : Regs :=
  HWREG_set r (ui32Base + hw.UART_O_LCRH)
    ((HWREG r (ui32Base + hw.UART_O_LCRH) &&&
        not32 (UART_LCRH_SPS ||| UART_LCRH_EPS ||| UART_LCRH_PEN)) ||| ui32Parity)

/-- Driver function `UARTParityModeGet`. -/
def UARTParityModeGet (hw : UartHw) (ui32Base : Nat) (r : Regs) : Nat :=
  HWREG r (ui32Base + hw.UART_O_LCRH) &&& (UART_LCRH_SPS ||| UART_LCRH_EPS ||| UART_LCRH_PEN)

/-- Driver function `UARTEnable`: enable the FIFO, then RX, TX and the UART. -/
def UARTEnable (hw : UartHw) (ui32Base : Nat) (r : Regs) : Regs :=
  let r1 := HWREG_set r (ui32Base + hw.UART_O_LCRH)
    (HWREG r (ui32Base + hw.UART_O_LCRH) ||| UART_LCRH_FEN)
  HWREG_set r1 (ui32Base + hw.UART_O_CTL)
    (HWREG r1 (ui32Base + hw.UART_O_CTL) |||
      (hw.UART_CTL_UARTEN ||| hw.UART_CTL_TXE ||| hw.UART_CTL_RXE))

/-- Driver function `UARTFIFOEnable`. -/
def UARTFIFOEnable (hw : UartHw) (ui32Base : Nat) (r : Regs) : Regs :=
  HWREG_set r (ui32Base + hw.UART_O_LCRH) (HWREG r (ui32Base + hw.UART_O_LCRH) ||| UART_LCRH_FEN)

/-- Driver function `UARTFIFODisable`. -/
def UARTFIFODisable (hw : UartHw) (ui32Base : Nat) (r : Regs) : Regs :=
  HWREG_set r (ui32Base + hw.UART_O_LCRH)
    (HWREG r (ui32Base + hw.UART_O_LCRH) &&& not32 UART_LCRH_FEN)

/-- Driver function `UARTBreakCtl`. -/
def UARTBreakCtl (hw : UartHw) (ui32Base : Nat) (bBreakState : Bool) (r : Regs) : Regs :=
  HWREG_set r (ui32Base + hw.UART_O_LCRH)
    (if bBreakState then HWREG r (ui32Base + hw.UART_O_LCRH) ||| UART_LCRH_BRK
     else HWREG r (ui32Base + hw.UART_O_LCRH) &&& not32 UART_LCRH_BRK)

/-- Driver function `UARTCharsAvail`. -/
def UARTCharsAvail (hw : UartHw) (ui32Base : Nat) (r : Regs) : Bool :=
  if HWREG r (ui32Base + hw.UART_O_FR) &&& hw.UART_FR_RXFE ≠ 0 then false else true

/-- Driver function `UARTSpaceAvail`. -/
def UARTSpaceAvail (hw : UartHw) (ui32Base : Nat) (r : Regs) : Bool :=
  if HWREG r (ui32Base + hw.UART_O_FR) &&& hw.UART_FR_TXFF ≠ 0 then false else true

/-- Conversion of a `uint32_t` value to `int32_t` (two-complement reinterpretation), as done by
`return` in a function whose result type is `int32_t`. -/
def toInt32 (v : Nat) : Int :=
  if v % 2 ^ 32 < 2 ^ 31 then ((v % 2 ^ 32 : Nat) : Int) else ((v % 2 ^ 32 : Nat) : Int) - 2 ^ 32

/-- Driver function `UARTCharGetNonBlocking`: returns the register file it leaves and its
`int32_t` result. -/
def UARTCharGetNonBlocking (hw : UartHw) (ui32Base : Nat) (r : Regs) : Regs × Int :=
  if ¬ (HWREG r (ui32Base + hw.UART_O_FR) &&& hw.UART_FR_RXFE ≠ 0) then
    (r, toInt32 (HWREG r (ui32Base + hw.UART_O_DR)))
  else
    (r, -1)

/-- Driver function `UARTCharPutNonBlocking`: returns the register file it leaves and its
`bool` result. -/
def UARTCharPutNonBlocking (hw : UartHw) (ui32Base ui8Data : Nat) (r : Regs) : Regs × Bool :=
  if ¬ (HWREG r (ui32Base + hw.UART_O_FR) &&& hw.UART_FR_TXFF ≠ 0) then
    (HWREG_set r (ui32Base + hw.UART_O_DR) ui8Data, true)
  else
    (r, false)

/-- Driver function `UARTRxErrorGet`. -/
def UARTRxErrorGet (hw : UartHw) (ui32Base : Nat) (r : Regs) : Nat :=
  HWREG r (ui32Base + hw.UART_O_RSR) &&& 0x0000000F

/-- Driver function `UARTRxErrorClear`. -/
def UARTRxErrorClear (hw : UartHw) (ui32Base : Nat) (r : Regs) : Regs :=
  HWREG_set r (ui32Base + hw.UART_O_ECR) 0

/-- Driver function `UART9BitAddrSend`: wait until the FIFO is empty and the UART is not busy,
force the address/data bit to 1, send the address, wait again, restore the line control.  Both
wait loops have an empty body, so on a register file that nothing else changes each leaves at
its first test or never. -/
def UART9BitAddrSend (hw : UartHw) (ui32Base ui8Addr : Nat) (r : Regs) : Except Fault Regs :=
  if HWREG r (ui32Base + hw.UART_O_FR) &&& (hw.UART_FR_TXFE ||| hw.UART_FR_BUSY)
      ≠ hw.UART_FR_TXFE then
    .error .hang
  else
    let ui32LCRH := HWREG r (ui32Base + hw.UART_O_LCRH)
    let r1 := HWREG_set r (ui32Base + hw.UART_O_LCRH)
      ((ui32LCRH &&& not32 UART_LCRH_EPS) ||| UART_LCRH_SPS ||| UART_LCRH_PEN)
    let r2 := HWREG_set r1 (ui32Base + hw.UART_O_DR) ui8Addr
    if HWREG r2 (ui32Base + hw.UART_O_FR) &&& (hw.UART_FR_TXFE ||| hw.UART_FR_BUSY)
        ≠ hw.UART_FR_TXFE then
      .error .hang
    else
      .ok (HWREG_set r2 (ui32Base + hw.UART_O_LCRH) ui32LCRH)

/-- Driver function `UART9BitAddrSend` on a traced register file: the same statements as
`UART9BitAddrSend`, each store recorded in program order. -/
def UART9BitAddrSendTraced (hw : UartHw) (ui32Base ui8Addr : Nat) (t : Traced) :
    Except Fault Traced :=
  if HWREG t.regs (ui32Base + hw.UART_O_FR) &&& (hw.UART_FR_TXFE ||| hw.UART_FR_BUSY)
      ≠ hw.UART_FR_TXFE then
    .error .hang
  else
    let ui32LCRH := HWREG t.regs (ui32Base + hw.UART_O_LCRH)
    let t1 := t.store (ui32Base + hw.UART_O_LCRH)
      ((ui32LCRH &&& not32 UART_LCRH_EPS) ||| UART_LCRH_SPS ||| UART_LCRH_PEN)
    let t2 := t1.store (ui32Base + hw.UART_O_DR) ui8Addr
    if HWREG t2.regs (ui32Base + hw.UART_O_FR) &&& (hw.UART_FR_TXFE ||| hw.UART_FR_BUSY)
        ≠ hw.UART_FR_TXFE then
      .error .hang
    else
      .ok (t2.store (ui32Base + hw.UART_O_LCRH) ui32LCRH)

/-- Driver function `UART9BitEnable`: read-modify-write of the 9-bit address register. -/
def UART9BitEnable (hw : UartHw) (ui32Base : Nat) (r : Regs) : Regs :=
  HWREG_set r (ui32Base + hw.UART_O_NINEBITADDR)
    (HWREG r (ui32Base + hw.UART_O_NINEBITADDR) ||| hw.UART_NINEBITADDR_NINEBITEN)

/-- Driver function `UART9BitAddrSet`: overwrite the 9-bit address and mask registers. -/
def UART9BitAddrSet (hw : UartHw) (ui32Base ui8Addr ui8Mask : Nat) (r : Regs) : Regs :=
  let r1 := HWREG_set r (ui32Base + hw.UART_O_NINEBITADDR)
    ((ui8Addr <<< hw.UART_NINEBITADDR_ADDR_S) % 2 ^ 32)
  HWREG_set r1 (ui32Base + hw.UART_O_NINEBITAMASK)
    ((ui8Mask <<< hw.UART_NINEBITAMASK_MASK_S) % 2 ^ 32)

/-! ## SSI constants -/

/-- Register offsets, status masks and API constants of `hw_ssi.h` / `ssi.h` that the
specification does not fix. -/
structure SsiHw where
  SSI_O_CR0 : Nat
  SSI_O_CR1 : Nat
  SSI_O_DR : Nat
  SSI_O_SR : Nat
  SSI_O_CPSR : Nat
  SSI_O_IM : Nat
  SSI_O_RIS : Nat
  SSI_O_MIS : Nat
  SSI_O_ICR : Nat
  SSI_O_DMACTL : Nat
  SSI_O_CC : Nat
  SSI_SR_TNF : Nat
  SSI_SR_RNE : Nat
  SSI_SR_BSY : Nat
  SSI_MODE_MASTER : Nat
  SSI_MODE_SLAVE : Nat
  SSI_MODE_SLAVE_OD : Nat
  SSI_FRF_MOTO_MODE_0 : Nat
  SSI_FRF_MOTO_MODE_1 : Nat
  SSI_FRF_MOTO_MODE_2 : Nat
  SSI_FRF_MOTO_MODE_3 : Nat
  SSI_FRF_TI : Nat
  SSI_FRF_NMW : Nat

/-- The registers of one SSI module, by offset. -/
def SsiHw.offsets (hw : SsiHw) : List Nat :=
  [hw.SSI_O_CR0, hw.SSI_O_CR1, hw.SSI_O_DR, hw.SSI_O_SR, hw.SSI_O_CPSR, hw.SSI_O_IM,
   hw.SSI_O_RIS, hw.SSI_O_MIS, hw.SSI_O_ICR, hw.SSI_O_DMACTL, hw.SSI_O_CC]

/-- Distinct registers live at distinct offsets. -/
def SsiHw.OffsetsDistinct (hw : SsiHw) : Prop := hw.offsets.Nodup

instance (hw : SsiHw) : Decidable hw.OffsetsDistinct := by
  unfold SsiHw.OffsetsDistinct; infer_instance

/-- Modelled from the spec: `hw_ssi.h` is missing; CR1 layout `SOD=bit3, MS=bit2, SSE=bit1`. -/
def SSI_CR1_SOD : Nat := 0x8

/-- Modelled from the spec: `hw_ssi.h` is missing; `MS=bit2` of CR1. -/
def SSI_CR1_MS : Nat := 0x4

/-- Modelled from the spec: `hw_ssi.h` is missing; `SSE=bit1` of CR1. -/
def SSI_CR1_SSE : Nat := 0x2

/-- Modelled from the spec: `hw_ssi.h` is missing; `FRF=bits5:4` of CR0. -/
def SSI_CR0_FRF_M : Nat := 0x30

/-- Modelled from the spec: `hw_ssi.h` is missing; `DSS=bits3:0` of CR0. -/
def SSI_CR0_DSS_M : Nat := 0xF

/-- A concrete register layout (offsets and constants of the CC2538 `hw_ssi.h` and `ssi.h`),
used to run the driver on explicit inputs. -/
def cc2538Ssi : SsiHw where
  SSI_O_CR0 := 0x000
  SSI_O_CR1 := 0x004
  SSI_O_DR := 0x008
  SSI_O_SR := 0x00C
  SSI_O_CPSR := 0x010
  SSI_O_IM := 0x014
  SSI_O_RIS := 0x018
  SSI_O_MIS := 0x01C
  SSI_O_ICR := 0x020
  SSI_O_DMACTL := 0x024
  SSI_O_CC := 0xFC8
  SSI_SR_TNF := 0x02
  SSI_SR_RNE := 0x04
  SSI_SR_BSY := 0x10
  SSI_MODE_MASTER := 0
  SSI_MODE_SLAVE := 1
  SSI_MODE_SLAVE_OD := 2
  SSI_FRF_MOTO_MODE_0 := 0x00
  SSI_FRF_MOTO_MODE_1 := 0x02
  SSI_FRF_MOTO_MODE_2 := 0x01
  SSI_FRF_MOTO_MODE_3 := 0x03
  SSI_FRF_TI := 0x10
  SSI_FRF_NMW := 0x20

/-- Base address of SSI0 on the CC2538. -/
def SSI0_BASE : Nat := 0x40008000

/-! ## SSI driver -/

/-- The `do { ui32PreDiv += 2; ui32SCR = (ui32MaxBitRate / ui32PreDiv) - 1; }
while(ui32SCR > 255);` loop of `SSIConfigSetExpClk`, entered with the given `ui32PreDiv`, in
`uint32_t` arithmetic.  `fuel` bounds the number of iterations. -/
def preDivLoop : Nat → Nat → Nat → Except Fault (Nat × Nat)
  | 0, _, _ => .error .outOfFuel
  | fuel + 1, ui32MaxBitRate, ui32PreDiv =>
    let ui32PreDiv := (ui32PreDiv + 2) % 2 ^ 32
    if ui32PreDiv = 0 then
      .error .divByZero
    else
      let ui32SCR := (ui32MaxBitRate / ui32PreDiv + (2 ^ 32 - 1)) % 2 ^ 32
      if ui32SCR > 255 then preDivLoop fuel ui32MaxBitRate ui32PreDiv
      else .ok (ui32PreDiv, ui32SCR)

/-- Iteration budget for the prescaler loop: starting from 0 and stepping by 2, `ui32PreDiv`
wraps to 0 (a zero divisor) in the iteration number `2^31`, so the budget is never used up. -/
@[irreducible]
def preDivFuel : Nat := 2 ^ 31

/-- Driver function `SSIConfigSetExpClk`: set the mode (CR1), search the clock predivider
(CPSR), set protocol and clock rate (CR0).  The argument checks are `ASSERT`s and appear as
hypotheses of the theorems. -/
def SSIConfigSetExpClk (hw : SsiHw)
    (ui32Base ui32SSIClk ui32Protocol ui32Mode ui32BitRate ui32DataWidth : Nat) (r : Regs) :
    Except Fault Regs :=
  let ui32RegVal := if ui32Mode = hw.SSI_MODE_SLAVE_OD then SSI_CR1_SOD else 0
  let ui32RegVal := ui32RegVal ||| (if ui32Mode = hw.SSI_MODE_MASTER then 0 else SSI_CR1_MS)
  let r1 := HWREG_set r (ui32Base + hw.SSI_O_CR1) ui32RegVal
  if ui32BitRate = 0 then
    .error .divByZero
  else
    let ui32MaxBitRate := ui32SSIClk / ui32BitRate
    match preDivLoop preDivFuel ui32MaxBitRate 0 with
    | .error e => .error e
    | .ok (ui32PreDiv, ui32SCR) =>
      let r2 := HWREG_set r1 (ui32Base + hw.SSI_O_CPSR) ui32PreDiv
      let ui32SPH_SPO := ((ui32Protocol &&& 3) <<< 6) % 2 ^ 32
      let ui32Protocol := ui32Protocol &&& SSI_CR0_FRF_M
      let ui32RegVal := ((ui32SCR <<< 8) % 2 ^ 32) ||| ui32SPH_SPO ||| ui32Protocol |||
        ((ui32DataWidth + (2 ^ 32 - 1)) % 2 ^ 32)
      .ok (HWREG_set r2 (ui32Base + hw.SSI_O_CR0) ui32RegVal)

/-- Driver function `SSIEnable`: read-modify-write of the enable bit. -/
def SSIEnable (hw : SsiHw) (ui32Base : Nat) (r : Regs) : Regs :=
  HWREG_set r (ui32Base + hw.SSI_O_CR1) (HWREG r (ui32Base + hw.SSI_O_CR1) ||| SSI_CR1_SSE)

/-- Driver function `SSIDataPutNonBlocking`: returns the register file it leaves and its
`int32_t` result. -/
def SSIDataPutNonBlocking (hw : SsiHw) (ui32Base ui32Data : Nat) (r : Regs) : Regs × Int :=
  if HWREG r (ui32Base + hw.SSI_O_SR) &&& hw.SSI_SR_TNF ≠ 0 then
    (HWREG_set r (ui32Base + hw.SSI_O_DR) ui32Data, 1)
  else
    (r, 0)

/-- Driver function `SSIDataGetNonBlocking`: `out` is the content of `*pui32Data` on entry; the
function returns the register file it leaves, the content of `*pui32Data` on exit and its
`int32_t` result. -/
def SSIDataGetNonBlocking (hw : SsiHw) (ui32Base : Nat) (r : Regs) (out : Nat) :
    Regs × Nat × Int :=
  if HWREG r (ui32Base + hw.SSI_O_SR) &&& hw.SSI_SR_RNE ≠ 0 then
    (r, HWREG r (ui32Base + hw.SSI_O_DR), 1)
  else
    (r, out, 0)

/-- The argument check of `SSIDataPut` and `SSIDataPutNonBlocking`:
`(ui32Data & (0xfffffffe << (HWREG(ui32Base + SSI_O_CR0) & SSI_CR0_DSS_M))) == 0`, in
`uint32_t`. -/
def SSIDataPutAssert (hw : SsiHw) (ui32Base ui32Data : Nat) (r : Regs) : Bool :=
  decide (ui32Data &&&
    ((0xfffffffe <<< (HWREG r (ui32Base + hw.SSI_O_CR0) &&& SSI_CR0_DSS_M)) % 2 ^ 32) = 0)

/-! ## AES current-operation tag -/

/-- Values of `g_ui8CurrentAESOp`: the current-operation enumeration of `aes.h`. -/
inductive AESOp where
  | AES_NONE
  | AES_KEYL0AD
  | AES_ECB
  | AES_CCM
  | AES_SHA256
  | AES_RNG
  deriving DecidableEq, Repr

def AES_SUCCESS : Nat := 0

def AES_KEYSTORE_READ_ERROR : Nat := 1

def AES_KEYSTORE_WRITE_ERROR : Nat := 2

def AES_DMA_BUS_ERROR : Nat := 3

/-- What the hardware reports to an AES entry point that waits for it. -/
inductive AesStatus where
  /-- the operation completed without error -/
  | done
  /-- the keystore rejected the request -/
  | keystoreError
  /-- the DMA reported a bus fault -/
  | dmaBusError
  deriving DecidableEq, Repr

/-- Result of an AES entry point. -/
inductive AesResult where
  /-- the entry point ran and returned this code of `aes.h` -/
  | returned (code : Nat)
  /-- the entry point refused the call because an operation is active; the specification names
  no return code for this -/
  | failedFast
  deriving DecidableEq, Repr

/-- Effect of one AES entry point on the tag: the values it assigns to `g_ui8CurrentAESOp`, in
order, and its result. -/
structure AesEffect where
  writes : List AESOp
  result : AesResult

/-- The tag after a sequence of assignments. -/
def tagAfter (tag : AESOp) (writes : List AESOp) : AESOp :=
  writes.getLast?.getD tag

/-- Modelled from the spec: `aes.c` is missing (only `aes.h` is at hand).  Section 4.4: every
entry point observes the tag; a new operation is accepted only when the tag is none, otherwise
the entry point fails fast; key loading does `tag := key-load`, waits for completion and on
failure (DMA bus error or keystore-write error) sets the return code and clears the tag;
section 3: the tag goes back to none on completion as well. -/
def AESLoadKey (st : AesStatus) (tag : AESOp) : AesEffect :=
  if tag ≠ .AES_NONE then ⟨[], .failedFast⟩
  else
    match st with
    | .done => ⟨[.AES_KEYL0AD, .AES_NONE], .returned AES_SUCCESS⟩
    | .keystoreError => ⟨[.AES_KEYL0AD, .AES_NONE], .returned AES_KEYSTORE_WRITE_ERROR⟩
    | .dmaBusError => ⟨[.AES_KEYL0AD, .AES_NONE], .returned AES_DMA_BUS_ERROR⟩

/-- Modelled from the spec: `aes.c` is missing.  Section 4.4: fail if the tag is not none;
`tag := ECB`; select the key and check that the area is populated; program the DMA and start.
Failure modes are keystore-read-error and DMA-bus-error, and any error path goes directly to
idle with the tag cleared; on success the operation stays active. -/
def AESECBStart (st : AesStatus) (tag : AESOp) : AesEffect :=
  if tag ≠ .AES_NONE then ⟨[], .failedFast⟩
  else
    match st with
    | .done => ⟨[.AES_ECB], .returned AES_SUCCESS⟩
    | .keystoreError => ⟨[.AES_ECB, .AES_NONE], .returned AES_KEYSTORE_READ_ERROR⟩
    | .dmaBusError => ⟨[.AES_ECB, .AES_NONE], .returned AES_DMA_BUS_ERROR⟩

/-- Modelled from the spec: `aes.c` is missing.  Section 4.4: completion is signalled by a
result-available bit; checking it is given no effect on the tag.  The result says whether the
bit was set. -/
def AESECBCheckResult (avail : Bool) (_tag : AESOp) : AesEffect :=
  ⟨[], .returned (if avail then 1 else 0)⟩

/-- Modelled from the spec: `aes.c` is missing.  Section 4.4: result collection resets the AES
block, clears the tag and returns SUCCESS; the tag is cleared by the result-collection function
of whichever operation is active, and any error path goes to idle with the tag cleared. -/
def AESECBGetResult (st : AesStatus) (_tag : AESOp) : AesEffect :=
  match st with
  | .done => ⟨[.AES_NONE], .returned AES_SUCCESS⟩
  | .keystoreError => ⟨[.AES_NONE], .returned AES_KEYSTORE_READ_ERROR⟩
  | .dmaBusError => ⟨[.AES_NONE], .returned AES_DMA_BUS_ERROR⟩

/-- One call of an AES entry point, with what the hardware reports to it. -/
inductive AesCall where
  | loadKey (st : AesStatus)
  | ecbStart (st : AesStatus)
  | ecbCheckResult (avail : Bool)
  | ecbGetResult (st : AesStatus)
  deriving DecidableEq, Repr

/-- Run one AES call from the given tag. -/
def AesCall.effect : AesCall → AESOp → AesEffect
  | .loadKey st, tag => AESLoadKey st tag
  | .ecbStart st, tag => AESECBStart st tag
  | .ecbCheckResult avail, tag => AESECBCheckResult avail tag
  | .ecbGetResult st, tag => AESECBGetResult st tag

/-- The successive values the tag takes along a sequence of AES calls started at `tag` (the
starting value itself is not listed). -/
def aesTrace : AESOp → List AesCall → List AESOp
  | _, [] => []
  | tag, c :: cs =>
    (c.effect tag).writes ++ aesTrace (tagAfter tag (c.effect tag).writes) cs

/-- The tag at the end of a sequence of AES calls started at `tag`. -/
def aesFinalTag : AESOp → List AesCall → AESOp
  | tag, [] => tag
  | tag, c :: cs => aesFinalTag (tagAfter tag (c.effect tag).writes) cs

/-- Whether a call starts a new operation. -/
def AesCall.startsOperation : AesCall → Bool
  | .loadKey _ => true
  | .ecbStart _ => true
  | _ => false

/-! ## Auxiliary definitions used in the statements -/

/-- The driver calls that edit line-control fields other than the parity field. -/
inductive LcrhEdit where
  | fifoEnable
  | fifoDisable
  | breakCtl (bBreakState : Bool)
  | enable
  | disable
  deriving DecidableEq, Repr

/-- Run one line-control edit: the driver function named by the edit. -/
def LcrhEdit.run (hw : UartHw) (base : Nat) : LcrhEdit → Regs → Except Fault Regs
  | .fifoEnable, r => .ok (UARTFIFOEnable hw base r)
  | .fifoDisable, r => .ok (UARTFIFODisable hw base r)
  | .breakCtl b, r => .ok (UARTBreakCtl hw base b r)
  | .enable, r => .ok (UARTEnable hw base r)
  | .disable, r => UARTDisable hw base r

/-- Run a sequence of line-control edits, first to last. -/
def runEdits (hw : UartHw) (base : Nat) : List LcrhEdit → Regs → Except Fault Regs
  | [], r => .ok r
  | e :: es, r =>
    match e.run hw base r with
    | .error f => .error f
    | .ok r1 => runEdits hw base es r1

/-- The register file of `UART9BitAddrSend` right after the address byte has been written to
DR: the line control forces the ninth bit to 1. -/
def addrSendForced (hw : UartHw) (base ui8Addr : Nat) (r : Regs) : Regs :=
  HWREG_set
    (HWREG_set r (base + hw.UART_O_LCRH)
      ((HWREG r (base + hw.UART_O_LCRH) &&& not32 UART_LCRH_EPS) ||| UART_LCRH_SPS
        ||| UART_LCRH_PEN))
    (base + hw.UART_O_DR) ui8Addr

/-- The five parity constants of `uart.h`. -/
def parityModes : List Nat :=
  [UART_CONFIG_PAR_NONE, UART_CONFIG_PAR_EVEN, UART_CONFIG_PAR_ODD, UART_CONFIG_PAR_ONE,
   UART_CONFIG_PAR_ZERO]

/-- The register file left by `UARTDisable` when the transmitter is not busy. -/
def afterDisable (hw : UartHw) (ui32Base : Nat) (r : Regs) : Regs :=
  HWREG_set
    (HWREG_set r (ui32Base + hw.UART_O_LCRH)
      (HWREG r (ui32Base + hw.UART_O_LCRH) &&& not32 UART_LCRH_FEN))
    (ui32Base + hw.UART_O_CTL)
    (HWREG (HWREG_set r (ui32Base + hw.UART_O_LCRH)
        (HWREG r (ui32Base + hw.UART_O_LCRH) &&& not32 UART_LCRH_FEN))
      (ui32Base + hw.UART_O_CTL) &&&
      not32 (hw.UART_CTL_UARTEN ||| hw.UART_CTL_TXE ||| hw.UART_CTL_RXE))

/-- The control-register value written by the high-speed branch of `UARTConfigSetExpClk`. -/
def ctlAfterConfig (hw : UartHw) (base f b : Nat) (r : Regs) : Nat :=
  if highSpeed f b then afterDisable hw base r (base + hw.UART_O_CTL) ||| hw.UART_CTL_HSE
  else afterDisable hw base r (base + hw.UART_O_CTL) &&& not32 hw.UART_CTL_HSE

/-- The register file left by `UARTConfigSetExpClk` when it returns. -/
def afterConfig (hw : UartHw) (base f b cfg : Nat) (r : Regs) : Regs :=
  HWREG_set
    (HWREG_set
      (HWREG_set
        (HWREG_set
          (HWREG_set (afterDisable hw base r) (base + hw.UART_O_CTL) (ctlAfterConfig hw base f b r))
          (base + hw.UART_O_IBRD) (baudDiv f (effectiveBaud f b) / 64))
        (base + hw.UART_O_FBRD) (baudDiv f (effectiveBaud f b) % 64))
      (base + hw.UART_O_LCRH) cfg)
    (base + hw.UART_O_FR) 0

/-- The data-format bits read back by `UARTConfigGetExpClk`. -/
def formatMask : Nat :=
  UART_LCRH_SPS ||| UART_LCRH_WLEN_M ||| UART_LCRH_STP2 ||| UART_LCRH_EPS ||| UART_LCRH_PEN

/-- A register file with the high-speed bit set and the smallest non-zero divider
(`IBRD = 0`, `FBRD = 1`). -/
def hseUnitDivRegs : Regs :=
  HWREG_set (HWREG_set zeroRegs (UART0_BASE + cc2538Uart.UART_O_CTL) cc2538Uart.UART_CTL_HSE)
    (UART0_BASE + cc2538Uart.UART_O_FBRD) 1

/-- A register file whose `IBRD` word is `2^26`, so that `64 * IBRD` wraps to 0, with
`FBRD = 1` and the high-speed bit clear. -/
def wideIbrdRegs : Regs :=
  HWREG_set (HWREG_set zeroRegs (UART0_BASE + cc2538Uart.UART_O_IBRD) 67108864)
    (UART0_BASE + cc2538Uart.UART_O_FBRD) 1

/-! ## Facts about the UART model -/

theorem HWREG_set_same (r : Regs) (a v : Nat) : HWREG_set r a v a = v := by
  simp [HWREG_set]

theorem HWREG_set_other (r : Regs) (a v x : Nat) (h : x ≠ a) : HWREG_set r a v x = r x := by
  simp [HWREG_set, h]

/-- Two different positions of the offset list hold different offsets. -/
theorem UartHw.OffsetsDistinct.uart_ne {hw : UartHw} (h : hw.OffsetsDistinct)
    (i j : Nat) (hi : i < 16) (hj : j < 16) (hij : i ≠ j) :
    hw.offsets.getD i 0 ≠ hw.offsets.getD j 0 := by
  have li : i < hw.offsets.length := by simpa [UartHw.offsets] using hi
  have lj : j < hw.offsets.length := by simpa [UartHw.offsets] using hj
  rw [List.getD_eq_getElem _ _ li, List.getD_eq_getElem _ _ lj]
  intro e
  exact hij ((List.Nodup.getElem_inj_iff h).mp e)

/-- The offsets of the five registers touched by the configuration functions are pairwise
different. -/
theorem UartHw.OffsetsDistinct.uart_config_regs {hw : UartHw} (h : hw.OffsetsDistinct) :
    hw.UART_O_FR ≠ hw.UART_O_IBRD ∧ hw.UART_O_FR ≠ hw.UART_O_FBRD ∧
    hw.UART_O_FR ≠ hw.UART_O_LCRH ∧ hw.UART_O_FR ≠ hw.UART_O_CTL ∧
    hw.UART_O_IBRD ≠ hw.UART_O_FBRD ∧ hw.UART_O_IBRD ≠ hw.UART_O_LCRH ∧
    hw.UART_O_IBRD ≠ hw.UART_O_CTL ∧ hw.UART_O_FBRD ≠ hw.UART_O_LCRH ∧
    hw.UART_O_FBRD ≠ hw.UART_O_CTL ∧ hw.UART_O_LCRH ≠ hw.UART_O_CTL :=
  ⟨h.uart_ne 2 3 (by decide) (by decide) (by decide),
   h.uart_ne 2 4 (by decide) (by decide) (by decide),
   h.uart_ne 2 5 (by decide) (by decide) (by decide),
   h.uart_ne 2 6 (by decide) (by decide) (by decide),
   h.uart_ne 3 4 (by decide) (by decide) (by decide),
   h.uart_ne 3 5 (by decide) (by decide) (by decide),
   h.uart_ne 3 6 (by decide) (by decide) (by decide),
   h.uart_ne 4 5 (by decide) (by decide) (by decide),
   h.uart_ne 4 6 (by decide) (by decide) (by decide),
   h.uart_ne 5 6 (by decide) (by decide) (by decide)⟩

theorem cc2538Uart_offsetsDistinct : cc2538Uart.OffsetsDistinct := by decide

/-- Clearing the bits of a 32-bit mask leaves none of them set. -/
theorem and_not32_and (x m : Nat) (hm : m < 2 ^ 32) : (x &&& not32 m) &&& m = 0 := by
  apply Nat.eq_of_testBit_eq
  intro i
  simp only [Nat.testBit_and, not32, Nat.testBit_xor, Nat.zero_testBit]
  by_cases hi : i < 32
  · have h1 : Nat.testBit 0xFFFFFFFF i = true := by
      have : (0xFFFFFFFF : Nat) = 2 ^ 32 - 1 := by norm_num
      rw [this, Nat.testBit_two_pow_sub_one]; simp [hi]
    rw [h1]; cases Nat.testBit m i <;> simp
  · have h2 : Nat.testBit m i = false := by
      apply Nat.testBit_lt_two_pow
      exact lt_of_lt_of_le hm (Nat.pow_le_pow_right (by norm_num) (by omega))
    simp [h2]

/-- Setting the bits of a mask leaves all of them set. -/
theorem or_and_self (x m : Nat) : (x ||| m) &&& m = m := by
  apply Nat.eq_of_testBit_eq
  intro i
  simp only [Nat.testBit_and, Nat.testBit_or]
  cases Nat.testBit x i <;> cases Nat.testBit m i <;> rfl

theorem UARTDisable_idle (hw : UartHw) (base : Nat) (r : Regs)
    (hbusy : r (base + hw.UART_O_FR) &&& hw.UART_FR_BUSY = 0) :
    UARTDisable hw base r = .ok (afterDisable hw base r) := by
  simp [UARTDisable, afterDisable, HWREG, hbusy]

/-- Function `UARTConfigSetExpClk` returns whenever the transmitter is idle and the (possibly halved)
baud rate is not zero. -/
theorem UARTConfigSetExpClk_returns (hw : UartHw) (base f b cfg : Nat) (r : Regs)
    (hbusy : r (base + hw.UART_O_FR) &&& hw.UART_FR_BUSY = 0)
    (hb : effectiveBaud f b ≠ 0) :
    UARTConfigSetExpClk hw base f b cfg r = .ok (afterConfig hw base f b cfg r) := by
  simp only [UARTConfigSetExpClk, UARTDisable_idle hw base r hbusy, if_neg hb, afterConfig,
    ctlAfterConfig, HWREG]
  split_ifs <;> rfl

/-- The registers left by `UARTConfigSetExpClk`. -/
theorem afterConfig_regs (hw : UartHw) (hd : hw.OffsetsDistinct) (base f b cfg : Nat)
    (r : Regs) :
    afterConfig hw base f b cfg r (base + hw.UART_O_IBRD) = baudDiv f (effectiveBaud f b) / 64 ∧
    afterConfig hw base f b cfg r (base + hw.UART_O_FBRD) = baudDiv f (effectiveBaud f b) % 64 ∧
    afterConfig hw base f b cfg r (base + hw.UART_O_LCRH) = cfg ∧
    afterConfig hw base f b cfg r (base + hw.UART_O_FR) = 0 ∧
    afterConfig hw base f b cfg r (base + hw.UART_O_CTL) = ctlAfterConfig hw base f b r := by
  obtain ⟨h1, h2, h3, h4, h5, h6, h7, h8, h9, h10⟩ := hd.uart_config_regs
  refine ⟨?_, ?_, ?_, ?_, ?_⟩
  all_goals
    simp only [afterConfig, HWREG_set]
    split_ifs <;> first | rfl | omega

/-- In normal-speed mode nothing wraps: the high-speed test fails and the baud rate is kept. -/
theorem normal_speed_facts (f b : Nat) (hf : f < 2 ^ 29) (hb16 : 16 * b ≤ f) :
    highSpeed f b = false ∧ effectiveBaud f b = b := by
  have h : highSpeed f b = false := by
    simp only [highSpeed, decide_eq_false_iff_not, not_lt, gt_iff_lt]
    have : b * 16 < 2 ^ 32 := by omega
    rw [Nat.mod_eq_of_lt this]; omega
  exact ⟨h, by simp [effectiveBaud, h]⟩

/-- For a clock below `2 ^ 29` the divider computation does not wrap. -/
theorem baudDiv_eq (f b : Nat) (hf : f < 2 ^ 29) : baudDiv f b = ((f * 8) / b + 1) / 2 := by
  have h8 : f * 8 < 2 ^ 32 := by omega
  have hq : f * 8 / b ≤ f * 8 := Nat.div_le_self _ _
  have h1 : f * 8 / b + 1 < 2 ^ 32 := by omega
  simp only [baudDiv, Nat.mod_eq_of_lt h8, Nat.mod_eq_of_lt h1]

/-- Function `UARTConfigGetExpClk` returns whenever the 32-bit denominator is not zero. -/
theorem UARTConfigGetExpClk_returns (hw : UartHw) (base f : Nat) (r : Regs)
    (hden : ((64 * r (base + hw.UART_O_IBRD)) % 2 ^ 32 + r (base + hw.UART_O_FBRD)) % 2 ^ 32
      ≠ 0) :
    UARTConfigGetExpClk hw base f r = .ok (r,
      (if r (base + hw.UART_O_CTL) &&& hw.UART_CTL_HSE ≠ 0 then
        ((f * 4) % 2 ^ 32 /
          (((64 * r (base + hw.UART_O_IBRD)) % 2 ^ 32 + r (base + hw.UART_O_FBRD)) % 2 ^ 32)
          * 2) % 2 ^ 32
       else
        (f * 4) % 2 ^ 32 /
          (((64 * r (base + hw.UART_O_IBRD)) % 2 ^ 32 + r (base + hw.UART_O_FBRD)) % 2 ^ 32)),
      r (base + hw.UART_O_LCRH) &&& formatMask) := by
  simp only [UARTConfigGetExpClk, HWREG, if_neg hden, formatMask]

/-- The divider always fits 31 bits. -/
theorem baudDiv_lt (f b : Nat) : baudDiv f b < 2 ^ 31 := by
  have h : ((f * 8) % 2 ^ 32 / b + 1) % 2 ^ 32 < 2 ^ 32 := Nat.mod_lt _ (by norm_num)
  simp only [baudDiv]; omega

/-- The high-speed bit of the control register after `UARTConfigSetExpClk`. -/
theorem ctlAfterConfig_hse (hw : UartHw) (hHSE0 : hw.UART_CTL_HSE ≠ 0)
    (hHSE : hw.UART_CTL_HSE < 2 ^ 32) (base f b : Nat) (r : Regs) :
    (ctlAfterConfig hw base f b r &&& hw.UART_CTL_HSE ≠ 0) ↔ highSpeed f b = true := by
  cases hs : highSpeed f b
  · simp only [ctlAfterConfig, hs, Bool.false_eq_true, if_false, and_not32_and _ _ hHSE,
      ne_eq, not_true_eq_false]
  · simp only [ctlAfterConfig, hs, if_true, or_and_self, iff_true]
    exact hHSE0

/-- Reading the configuration back after `UARTConfigSetExpClk`, when the programmed divider
is not zero. -/
theorem UARTConfigGetExpClk_afterConfig (hw : UartHw) (hd : hw.OffsetsDistinct)
    (hHSE0 : hw.UART_CTL_HSE ≠ 0) (hHSE : hw.UART_CTL_HSE < 2 ^ 32)
    (base f b cfg : Nat) (r : Regs) (hD : baudDiv f (effectiveBaud f b) ≠ 0) :
    UARTConfigGetExpClk hw base f (afterConfig hw base f b cfg r) =
      .ok (afterConfig hw base f b cfg r,
        (if highSpeed f b = true then
          ((f * 4) % 2 ^ 32 / baudDiv f (effectiveBaud f b) * 2) % 2 ^ 32
         else (f * 4) % 2 ^ 32 / baudDiv f (effectiveBaud f b)),
        cfg &&& formatMask) := by
  obtain ⟨hI, hF, hL, -, hC⟩ := afterConfig_regs hw hd base f b cfg r
  have hlt := baudDiv_lt f (effectiveBaud f b)
  have hden : ((64 * afterConfig hw base f b cfg r (base + hw.UART_O_IBRD)) % 2 ^ 32 +
      afterConfig hw base f b cfg r (base + hw.UART_O_FBRD)) % 2 ^ 32
      = baudDiv f (effectiveBaud f b) := by
    rw [hI, hF]; omega
  rw [UARTConfigGetExpClk_returns hw base f _ (by rw [hden]; exact hD), hden, hL, hC]
  by_cases hs : highSpeed f b = true
  · rw [if_pos ((ctlAfterConfig_hse hw hHSE0 hHSE base f b r).mpr hs), if_pos hs]
  · rw [if_neg (fun h => hs ((ctlAfterConfig_hse hw hHSE0 hHSE base f b r).mp h)), if_neg hs]

/-- Arithmetic core of the baud-rate round trip: with a clock of at least 16 MHz and a baud
between 300 and 600 000, reconstructing the baud from the rounded divider is off by at most
one part in 200. -/
theorem round_trip_core (f b : Nat) (hf : 16000000 ≤ f) (hb : 300 ≤ b) (hb2 : b ≤ 600000) :
    ((f * 8) / b + 1) / 2 ≠ 0 ∧
    200 * (f * 4 / (((f * 8) / b + 1) / 2) - b) ≤ b ∧
    200 * (b - f * 4 / (((f * 8) / b + 1) / 2)) ≤ b := by
  have hbpos : 0 < b := by omega
  have hq213 : 213 ≤ f * 8 / b := by
    rw [Nat.le_div_iff_mul_le hbpos]; omega
  generalize hq : f * 8 / b = q at hq213 ⊢
  have ha : q * b ≤ f * 8 := by rw [← hq]; exact Nat.div_mul_le_self _ _
  have hb' : f * 8 < (q + 1) * b := by
    rw [← hq]; exact (Nat.div_lt_iff_lt_mul hbpos).mp (Nat.lt_succ_self _)
  have hD1 : q ≤ 2 * ((q + 1) / 2) := by omega
  have hD2 : 2 * ((q + 1) / 2) ≤ q + 1 := by omega
  have hD107 : 107 ≤ (q + 1) / 2 := by omega
  generalize (q + 1) / 2 = D at hD1 hD2 hD107 ⊢
  have hDpos : 0 < D := by omega
  have hg1 : f * 4 / D * D ≤ f * 4 := Nat.div_mul_le_self _ _
  have hg2 : f * 4 < (f * 4 / D + 1) * D :=
    (Nat.div_lt_iff_lt_mul hDpos).mp (Nat.lt_succ_self _)
  generalize f * 4 / D = g at hg1 hg2 ⊢
  have hP1 : q * b ≤ 2 * D * b := Nat.mul_le_mul_right b hD1
  have hP2 : 2 * D * b ≤ (q + 1) * b := Nat.mul_le_mul_right b hD2
  refine ⟨by omega, ?_, ?_⟩
  · rcases Nat.le_total g b with hgb | hgb
    · rw [Nat.sub_eq_zero_of_le hgb]; omega
    · obtain ⟨e, rfl⟩ := Nat.exists_eq_add_of_le hgb
      have he : 107 * e ≤ D * e := Nat.mul_le_mul_right e hD107
      have h2 : 2 * (D * e) < b := by nlinarith
      rw [Nat.add_sub_cancel_left]; omega
  · rcases Nat.le_total b g with hgb | hgb
    · rw [Nat.sub_eq_zero_of_le hgb]; omega
    · obtain ⟨e, rfl⟩ := Nat.exists_eq_add_of_le hgb
      rw [Nat.add_sub_cancel_left]
      rcases Nat.eq_zero_or_pos e with he0 | hepos
      · omega
      · obtain ⟨e1, rfl⟩ := Nat.exists_eq_add_of_le hepos
        have h2 : 2 * (D * e1) < g + (1 + e1) := by nlinarith
        rcases Nat.le_total (g + (1 + e1)) 200000 with hsmall | hlarge
        · have hq640 : 640 ≤ q := by
            rw [← hq, Nat.le_div_iff_mul_le hbpos]; omega
          have hD320 : 320 ≤ D := by omega
          have he : 320 * e1 ≤ D * e1 := Nat.mul_le_mul_right e1 hD320
          omega
        · have he : 107 * e1 ≤ D * e1 := Nat.mul_le_mul_right e1 hD107
          omega

/-- The data register is none of the flag, line-control and control registers, and not the
receive-status register. -/
theorem UartHw.OffsetsDistinct.uart_data_reg {hw : UartHw} (h : hw.OffsetsDistinct) :
    hw.UART_O_DR ≠ hw.UART_O_RSR ∧ hw.UART_O_DR ≠ hw.UART_O_FR ∧
    hw.UART_O_DR ≠ hw.UART_O_LCRH ∧ hw.UART_O_DR ≠ hw.UART_O_CTL :=
  ⟨h.uart_ne 0 1 (by decide) (by decide) (by decide),
   h.uart_ne 0 2 (by decide) (by decide) (by decide),
   h.uart_ne 0 5 (by decide) (by decide) (by decide),
   h.uart_ne 0 6 (by decide) (by decide) (by decide)⟩

/-- The bits of a complemented 32-bit mask. -/
theorem testBit_not32 (m i : Nat) (hm : m < 2 ^ 32) :
    (not32 m).testBit i = (decide (i < 32) && !m.testBit i) := by
  simp only [not32, Nat.testBit_xor]
  by_cases hi : i < 32
  · have h1 : Nat.testBit 0xFFFFFFFF i = true := by
      have : (0xFFFFFFFF : Nat) = 2 ^ 32 - 1 := by norm_num
      rw [this, Nat.testBit_two_pow_sub_one]; simp [hi]
    rw [h1]; simp [hi]
  · have h1 : Nat.testBit 0xFFFFFFFF i = false := by
      have : (0xFFFFFFFF : Nat) = 2 ^ 32 - 1 := by norm_num
      rw [this, Nat.testBit_two_pow_sub_one]; simp [hi]
    have h2 : Nat.testBit m i = false := by
      apply Nat.testBit_lt_two_pow
      exact lt_of_lt_of_le hm (Nat.pow_le_pow_right (by norm_num) (by omega))
    rw [h1, h2]; simp [hi]

/-- A set bit of a number below `2 ^ 32` sits below position 32. -/
theorem testBit_lt_32 (k i : Nat) (hk : k < 2 ^ 32) (h : k.testBit i = true) : i < 32 := by
  by_contra hi
  have h2 : Nat.testBit k i = false := by
    apply Nat.testBit_lt_two_pow
    exact lt_of_lt_of_le hk (Nat.pow_le_pow_right (by norm_num) (by omega))
  rw [h2] at h; exact Bool.false_ne_true h

/-- A set bit of a number below `2 ^ n` sits below position `n`. -/
theorem testBit_lt_of_lt (k i n : Nat) (hk : k < 2 ^ n) (h : k.testBit i = true) : i < n := by
  by_contra hi
  have h2 : Nat.testBit k i = false := by
    apply Nat.testBit_lt_two_pow
    exact lt_of_lt_of_le hk (Nat.pow_le_pow_right (by norm_num) (by omega))
  rw [h2] at h; exact Bool.false_ne_true h

/-- Setting bits outside a mask does not change the bits under the mask. -/
theorem or_and_of_disjoint (x m k : Nat) (h : m &&& k = 0) : (x ||| m) &&& k = x &&& k := by
  apply Nat.eq_of_testBit_eq
  intro i
  have hi := congrArg (fun n => n.testBit i) h
  simp only [Nat.testBit_and, Nat.zero_testBit] at hi
  simp only [Nat.testBit_and, Nat.testBit_or]
  cases hx : x.testBit i <;> cases hm : m.testBit i <;> cases hk : k.testBit i <;>
    simp_all

/-- Clearing bits outside a 32-bit mask does not change the bits under the mask. -/
theorem and_not32_and_of_disjoint (x m k : Nat) (hm : m < 2 ^ 32) (hk : k < 2 ^ 32)
    (h : m &&& k = 0) : (x &&& not32 m) &&& k = x &&& k := by
  apply Nat.eq_of_testBit_eq
  intro i
  have hi := congrArg (fun n => n.testBit i) h
  simp only [Nat.testBit_and, Nat.zero_testBit] at hi
  simp only [Nat.testBit_and, testBit_not32 m i hm]
  cases hkb : k.testBit i
  · simp
  · have h32 := testBit_lt_32 k i hk hkb
    cases hx : x.testBit i <;> cases hmb : m.testBit i <;> simp_all

/-- Setting the bits of a 32-bit mask does not change the bits outside it. -/
theorem or_and_not32 (x m : Nat) (hm : m < 2 ^ 32) :
    (x ||| m) &&& not32 m = x &&& not32 m := by
  apply Nat.eq_of_testBit_eq
  intro i
  simp only [Nat.testBit_and, Nat.testBit_or, testBit_not32 m i hm]
  cases hx : x.testBit i <;> cases hmb : m.testBit i <;> simp

/-- Clearing the bits of a mask twice is clearing them once. -/
theorem and_not32_idem (x m : Nat) : (x &&& not32 m) &&& not32 m = x &&& not32 m := by
  rw [Nat.land_assoc, Nat.and_self]

/-- Setting the bits of a mask twice is setting them once. -/
theorem or_idem (x m : Nat) : (x ||| m) ||| m = x ||| m := by
  rw [Nat.lor_assoc, Nat.or_self]

/-- A part of a cleared 32-bit mask is clear. -/
theorem and_not32_and_part (x m k : Nat) (hm : m < 2 ^ 32) (h : k &&& m = k) :
    (x &&& not32 m) &&& k = 0 := by
  apply Nat.eq_of_testBit_eq
  intro i
  have hi := congrArg (fun n => n.testBit i) h
  simp only [Nat.testBit_and] at hi
  simp only [Nat.testBit_and, testBit_not32 m i hm, Nat.zero_testBit]
  cases hx : x.testBit i <;> cases hmb : m.testBit i <;> cases hk : k.testBit i <;>
    simp_all

/-- A part of a set mask is set. -/
theorem or_and_part (x m k : Nat) (h : k &&& m = k) : (x ||| m) &&& k = k := by
  apply Nat.eq_of_testBit_eq
  intro i
  have hi := congrArg (fun n => n.testBit i) h
  simp only [Nat.testBit_and] at hi
  simp only [Nat.testBit_and, Nat.testBit_or]
  cases hx : x.testBit i <;> cases hm : m.testBit i <;> cases hk : k.testBit i <;>
    simp_all

/-- The register file left by `UARTEnable`, read register by register. -/
theorem UARTEnable_regs (hw : UartHw) (hd : hw.OffsetsDistinct) (base : Nat) (r : Regs) :
    UARTEnable hw base r (base + hw.UART_O_LCRH) = r (base + hw.UART_O_LCRH) ||| UART_LCRH_FEN ∧
    UARTEnable hw base r (base + hw.UART_O_CTL) = r (base + hw.UART_O_CTL) |||
      (hw.UART_CTL_UARTEN ||| hw.UART_CTL_TXE ||| hw.UART_CTL_RXE) ∧
    ∀ a, a ≠ base + hw.UART_O_LCRH → a ≠ base + hw.UART_O_CTL → UARTEnable hw base r a = r a := by
  obtain ⟨-, -, -, -, -, -, -, -, -, h10⟩ := hd.uart_config_regs
  refine ⟨?_, ?_, ?_⟩
  · simp only [UARTEnable, HWREG_set, HWREG]
    split_ifs <;> first | rfl | omega
  · simp only [UARTEnable, HWREG_set, HWREG]
    split_ifs <;> first | rfl | omega
  · intro a h1 h2
    simp only [UARTEnable, HWREG_set, HWREG, if_neg h1, if_neg h2]

/-- The register file left by `UARTDisable`, read register by register. -/
theorem afterDisable_regs (hw : UartHw) (hd : hw.OffsetsDistinct) (base : Nat) (r : Regs) :
    afterDisable hw base r (base + hw.UART_O_LCRH)
      = r (base + hw.UART_O_LCRH) &&& not32 UART_LCRH_FEN ∧
    afterDisable hw base r (base + hw.UART_O_CTL) = r (base + hw.UART_O_CTL) &&&
      not32 (hw.UART_CTL_UARTEN ||| hw.UART_CTL_TXE ||| hw.UART_CTL_RXE) ∧
    ∀ a, a ≠ base + hw.UART_O_LCRH → a ≠ base + hw.UART_O_CTL →
      afterDisable hw base r a = r a := by
  obtain ⟨-, -, -, -, -, -, -, -, -, h10⟩ := hd.uart_config_regs
  refine ⟨?_, ?_, ?_⟩
  · simp only [afterDisable, HWREG_set, HWREG]
    split_ifs <;> first | rfl | omega
  · simp only [afterDisable, HWREG_set, HWREG]
    split_ifs <;> first | rfl | omega
  · intro a h1 h2
    simp only [afterDisable, HWREG_set, HWREG, if_neg h1, if_neg h2]

/-- Every line-control edit returns (a disable needs an idle transmitter), keeps the parity
field and keeps the flags register. -/
theorem LcrhEdit.run_keeps_parity (hw : UartHw) (hd : hw.OffsetsDistinct) (base : Nat)
    (e : LcrhEdit) (r : Regs)
    (hbusy : e = .disable → r (base + hw.UART_O_FR) &&& hw.UART_FR_BUSY = 0) :
    ∃ r1, e.run hw base r = .ok r1 ∧
      UARTParityModeGet hw base r1 = UARTParityModeGet hw base r ∧
      r1 (base + hw.UART_O_FR) = r (base + hw.UART_O_FR) := by
  obtain ⟨-, -, h3, h4, -, -, -, -, -, h10⟩ := hd.uart_config_regs
  have hfl : base + hw.UART_O_FR ≠ base + hw.UART_O_LCRH := by omega
  have hfc : base + hw.UART_O_FR ≠ base + hw.UART_O_CTL := by omega
  cases e with
  | fifoEnable =>
    refine ⟨_, rfl, ?_, ?_⟩
    · simp only [UARTParityModeGet, UARTFIFOEnable, HWREG, HWREG_set_same]
      exact or_and_of_disjoint _ _ _ (by decide)
    · simp only [UARTFIFOEnable, HWREG_set, if_neg hfl]
  | fifoDisable =>
    refine ⟨_, rfl, ?_, ?_⟩
    · simp only [UARTParityModeGet, UARTFIFODisable, HWREG, HWREG_set_same]
      exact and_not32_and_of_disjoint _ _ _ (by decide) (by decide) (by decide)
    · simp only [UARTFIFODisable, HWREG_set, if_neg hfl]
  | breakCtl b =>
    refine ⟨_, rfl, ?_, ?_⟩
    · simp only [UARTParityModeGet, UARTBreakCtl, HWREG, HWREG_set_same]
      cases b
      · simp only [Bool.false_eq_true, if_false]
        exact and_not32_and_of_disjoint _ _ _ (by decide) (by decide) (by decide)
      · simp only [if_true]
        exact or_and_of_disjoint _ _ _ (by decide)
    · simp only [UARTBreakCtl, HWREG_set, if_neg hfl]
  | enable =>
    obtain ⟨hL, -, hO⟩ := UARTEnable_regs hw hd base r
    refine ⟨_, rfl, ?_, hO _ hfl hfc⟩
    simp only [UARTParityModeGet, HWREG, hL]
    exact or_and_of_disjoint _ _ _ (by decide)
  | disable =>
    obtain ⟨hL, -, hO⟩ := afterDisable_regs hw hd base r
    refine ⟨_, UARTDisable_idle hw base r (hbusy rfl), ?_, hO _ hfl hfc⟩
    simp only [UARTParityModeGet, HWREG, hL]
    exact and_not32_and_of_disjoint _ _ _ (by decide) (by decide) (by decide)

/-- A sequence of line-control edits returns (when every disable in it finds an idle
transmitter) and keeps the parity field. -/
theorem runEdits_keeps_parity (hw : UartHw) (hd : hw.OffsetsDistinct) (base : Nat) :
    ∀ (ops : List LcrhEdit) (r : Regs),
      (LcrhEdit.disable ∈ ops → r (base + hw.UART_O_FR) &&& hw.UART_FR_BUSY = 0) →
      ∃ r1, runEdits hw base ops r = .ok r1 ∧
        UARTParityModeGet hw base r1 = UARTParityModeGet hw base r := by
  intro ops
  induction ops with
  | nil => intro r _; exact ⟨r, rfl, rfl⟩
  | cons e es ih =>
    intro r hbusy
    obtain ⟨r1, hrun, hpar, hfr⟩ := LcrhEdit.run_keeps_parity hw hd base e r
      (fun he => hbusy (by rw [he]; exact List.mem_cons_self _ _))
    obtain ⟨r2, hrest, hpar2⟩ := ih r1
      (fun hmem => by rw [hfr]; exact hbusy (List.mem_cons_of_mem _ hmem))
    refine ⟨r2, ?_, by rw [hpar2, hpar]⟩
    simp only [runEdits, hrun, hrest]

/-- Reading the parity right after `UARTParityModeSet` with one of the five parity constants
returns that constant. -/
theorem UARTParityModeGet_set (hw : UartHw) (base p : Nat) (r : Regs) (hp : p ∈ parityModes) :
    UARTParityModeGet hw base (UARTParityModeSet hw base p r) = p := by
  simp only [UARTParityModeGet, UARTParityModeSet, HWREG, HWREG_set_same]
  have hclr := and_not32_and (r (base + hw.UART_O_LCRH))
    (UART_LCRH_SPS ||| UART_LCRH_EPS ||| UART_LCRH_PEN) (by decide)
  have hpsub : p &&& (UART_LCRH_SPS ||| UART_LCRH_EPS ||| UART_LCRH_PEN) = p := by
    simp only [parityModes, List.mem_cons, List.mem_singleton, List.not_mem_nil, or_false] at hp
    rcases hp with rfl | rfl | rfl | rfl | rfl <;> decide
  apply Nat.eq_of_testBit_eq
  intro i
  have h1 := congrArg (fun n => n.testBit i) hclr
  have h2 := congrArg (fun n => n.testBit i) hpsub
  simp only [Nat.testBit_and, Nat.zero_testBit] at h1 h2
  simp only [Nat.testBit_and, Nat.testBit_or]
  cases hx : (r (base + hw.UART_O_LCRH) &&&
      not32 (UART_LCRH_SPS ||| UART_LCRH_EPS ||| UART_LCRH_PEN)).testBit i <;>
    cases hpb : p.testBit i <;>
    cases hk : (UART_LCRH_SPS ||| UART_LCRH_EPS ||| UART_LCRH_PEN).testBit i <;>
    simp_all

/-- A `uint32_t` value below `2 ^ 31` converts to the same number. -/
theorem toInt32_of_lt (v : Nat) (hv : v < 2 ^ 31) : toInt32 v = (v : Int) := by
  have h1 : v % 2 ^ 32 = v := Nat.mod_eq_of_lt (by omega)
  simp only [toInt32, h1, if_pos hv]

/-- Clearing the bits of a 32-bit mask leaves the other bits of a 32-bit word as they were. -/
theorem and_not32_testBit (x m i : Nat) (hm : m < 2 ^ 32) (hi : i < 32)
    (hbit : m.testBit i = false) : (x &&& not32 m).testBit i = x.testBit i := by
  simp [Nat.testBit_and, testBit_not32 m i hm, hi, hbit]

/-- Setting the bits of a mask leaves the other bits as they were. -/
theorem or_testBit (x m i : Nat) (hbit : m.testBit i = false) :
    (x ||| m).testBit i = x.testBit i := by
  simp [Nat.testBit_or, hbit]

/-- Each of three masks is part of their union. -/
theorem or3_parts (a b c : Nat) :
    a &&& (a ||| b ||| c) = a ∧ b &&& (a ||| b ||| c) = b ∧ c &&& (a ||| b ||| c) = c := by
  refine ⟨?_, ?_, ?_⟩ <;>
  · apply Nat.eq_of_testBit_eq
    intro i
    simp only [Nat.testBit_and, Nat.testBit_or]
    cases a.testBit i <;> cases b.testBit i <;> cases c.testBit i <;> rfl

/-- Function `UARTEnable` run on its own result changes nothing more. -/
theorem UARTEnable_idem (hw : UartHw) (hd : hw.OffsetsDistinct) (base : Nat) (r : Regs) :
    UARTEnable hw base (UARTEnable hw base r) = UARTEnable hw base r := by
  obtain ⟨hL, hC, hO⟩ := UARTEnable_regs hw hd base r
  obtain ⟨hL2, hC2, hO2⟩ := UARTEnable_regs hw hd base (UARTEnable hw base r)
  funext a
  by_cases h1 : a = base + hw.UART_O_LCRH
  · rw [h1, hL2, hL, or_idem]
  · by_cases h2 : a = base + hw.UART_O_CTL
    · rw [h2, hC2, hC, or_idem]
    · rw [hO2 a h1 h2]

/-- The register file left by `UARTDisable` is left unchanged by a second `UARTDisable`. -/
theorem afterDisable_idem (hw : UartHw) (hd : hw.OffsetsDistinct) (base : Nat) (r : Regs) :
    afterDisable hw base (afterDisable hw base r) = afterDisable hw base r := by
  obtain ⟨hL, hC, hO⟩ := afterDisable_regs hw hd base r
  obtain ⟨hL2, hC2, hO2⟩ := afterDisable_regs hw hd base (afterDisable hw base r)
  funext a
  by_cases h1 : a = base + hw.UART_O_LCRH
  · rw [h1, hL2, hL, and_not32_idem]
  · by_cases h2 : a = base + hw.UART_O_CTL
    · rw [h2, hC2, hC, and_not32_idem]
    · rw [hO2 a h1 h2]

/-- Neither `UARTEnable` nor `UARTDisable` writes the flags register. -/
theorem enable_disable_keep_FR (hw : UartHw) (hd : hw.OffsetsDistinct) (base : Nat)
    (r : Regs) :
    UARTEnable hw base r (base + hw.UART_O_FR) = r (base + hw.UART_O_FR) ∧
    afterDisable hw base r (base + hw.UART_O_FR) = r (base + hw.UART_O_FR) := by
  obtain ⟨-, -, h3, h4, -, -, -, -, -, -⟩ := hd.uart_config_regs
  exact ⟨(UARTEnable_regs hw hd base r).2.2 _ (by omega) (by omega),
    (afterDisable_regs hw hd base r).2.2 _ (by omega) (by omega)⟩

/-- The bits of a numeral below `2 ^ 8` at position 8 and above are clear. -/
theorem testBit_byte_high (k i : Nat) (hk : k < 2 ^ 8) (hi : 8 ≤ i) : k.testBit i = false :=
  Nat.testBit_lt_two_pow (lt_of_lt_of_le hk (Nat.pow_le_pow_right (by norm_num) hi))

/-- The line-control word with stick parity forced to one: the parity field reads
`UART_CONFIG_PAR_ONE`, the rest of the word is as before. -/
theorem forced_parity_word (L : Nat) :
    ((L &&& not32 UART_LCRH_EPS) ||| UART_LCRH_SPS ||| UART_LCRH_PEN) &&&
        (UART_LCRH_SPS ||| UART_LCRH_EPS ||| UART_LCRH_PEN) = UART_CONFIG_PAR_ONE ∧
    ((L &&& not32 UART_LCRH_EPS) ||| UART_LCRH_SPS ||| UART_LCRH_PEN) &&&
        not32 (UART_LCRH_SPS ||| UART_LCRH_EPS ||| UART_LCRH_PEN)
      = L &&& not32 (UART_LCRH_SPS ||| UART_LCRH_EPS ||| UART_LCRH_PEN) := by
  have hm : UART_LCRH_SPS ||| UART_LCRH_EPS ||| UART_LCRH_PEN = 0x86 := by decide
  rw [hm]
  simp only [UART_LCRH_EPS, UART_LCRH_SPS, UART_LCRH_PEN, UART_CONFIG_PAR_ONE]
  constructor
  · apply Nat.eq_of_testBit_eq
    intro i
    simp only [Nat.testBit_and, Nat.testBit_or, testBit_not32 4 i (by norm_num)]
    by_cases hi : i < 8
    · interval_cases i <;> cases L.testBit _ <;> decide
    · rw [testBit_byte_high 0x80 i (by norm_num) (by omega),
        testBit_byte_high 2 i (by norm_num) (by omega),
        testBit_byte_high 0x86 i (by norm_num) (by omega),
        testBit_byte_high 0x82 i (by norm_num) (by omega)]
      simp
  · apply Nat.eq_of_testBit_eq
    intro i
    simp only [Nat.testBit_and, Nat.testBit_or, testBit_not32 4 i (by norm_num),
      testBit_not32 0x86 i (by norm_num)]
    by_cases hi : i < 8
    · interval_cases i <;> cases L.testBit _ <;> decide
    · rw [testBit_byte_high 0x80 i (by norm_num) (by omega),
        testBit_byte_high 2 i (by norm_num) (by omega),
        testBit_byte_high 0x86 i (by norm_num) (by omega),
        testBit_byte_high 4 i (by norm_num) (by omega)]
      cases L.testBit i <;> simp

/-- Function `UARTConfigSetExpClk` divides by zero when the possibly halved baud rate is 0. -/
theorem UARTConfigSetExpClk_faults (hw : UartHw) (base f b cfg : Nat) (r : Regs)
    (hbusy : r (base + hw.UART_O_FR) &&& hw.UART_FR_BUSY = 0)
    (hb : effectiveBaud f b = 0) :
    UARTConfigSetExpClk hw base f b cfg r = .error .divByZero := by
  simp only [UARTConfigSetExpClk, UARTDisable_idle hw base r hbusy, if_pos hb]

/-- The possibly halved baud rate of a non-zero request is zero exactly when the request is 1
and the high-speed test succeeds. -/
theorem effectiveBaud_ne_zero_iff (f b : Nat) (hb0 : b ≠ 0) :
    effectiveBaud f b ≠ 0 ↔ (2 ≤ b ∨ (b * 16) % 2 ^ 32 ≤ f) := by
  by_cases h : (b * 16) % 2 ^ 32 > f
  · have hs : highSpeed f b = true := by
      simp only [highSpeed, decide_eq_true_eq]; exact h
    simp only [effectiveBaud, hs, if_true]
    omega
  · have hs : highSpeed f b = false := by
      simp only [highSpeed, decide_eq_false_iff_not]; exact h
    simp only [effectiveBaud, hs, Bool.false_eq_true, if_false]
    omega

/-- For a clock below `2 ^ 29` the divider is zero exactly when the baud rate exceeds eight
times the clock. -/
theorem baudDiv_eq_zero_iff (f c : Nat) (hf : f < 2 ^ 29) (hc : 1 ≤ c) :
    baudDiv f c = 0 ↔ 8 * f < c := by
  rw [baudDiv_eq f c hf]
  have h := Nat.div_lt_iff_lt_mul (x := f * 8) (y := 1) (k := c) (by omega)
  constructor
  · intro h0
    have : f * 8 / c < 1 := by omega
    have := h.1 this
    omega
  · intro h0
    rw [Nat.div_eq_of_lt (by omega : f * 8 < c)]

/-- A byte shifted into a field stays within the field: if the whole field misses a mask, so
does every byte placed in it. -/
theorem shifted_byte_disjoint (s en a : Nat) (ha : a < 256)
    (h : ((0xFF <<< s) % 2 ^ 32) &&& en = 0) : ((a <<< s) % 2 ^ 32) &&& en = 0 := by
  apply Nat.eq_of_testBit_eq
  intro i
  have hi := congrArg (fun n => n.testBit i) h
  simp only [Nat.testBit_and, Nat.testBit_mod_two_pow, Nat.testBit_shiftLeft,
    Nat.zero_testBit] at hi ⊢
  cases hab : a.testBit (i - s)
  · simp
  · have h8 : i - s < 8 := testBit_lt_of_lt a (i - s) 8 (by simpa using ha) hab
    have hff : Nat.testBit 0xFF (i - s) = true := by
      have : (0xFF : Nat) = 2 ^ 8 - 1 := by norm_num
      rw [this, Nat.testBit_two_pow_sub_one]; simp [h8]
    rw [hff] at hi
    exact hi

/-- The 9-bit registers after `UART9BitEnable` followed by `UART9BitAddrSet`, and after the
two calls in the other order. -/
theorem nineBit_orders (hw : UartHw) (hd : hw.OffsetsDistinct) (base a m : Nat) (r : Regs) :
    UART9BitAddrSet hw base a m (UART9BitEnable hw base r) (base + hw.UART_O_NINEBITADDR)
      = (a <<< hw.UART_NINEBITADDR_ADDR_S) % 2 ^ 32 ∧
    UART9BitAddrSet hw base a m (UART9BitEnable hw base r) (base + hw.UART_O_NINEBITAMASK)
      = (m <<< hw.UART_NINEBITAMASK_MASK_S) % 2 ^ 32 ∧
    UART9BitEnable hw base (UART9BitAddrSet hw base a m r) (base + hw.UART_O_NINEBITADDR)
      = ((a <<< hw.UART_NINEBITADDR_ADDR_S) % 2 ^ 32) ||| hw.UART_NINEBITADDR_NINEBITEN ∧
    UART9BitEnable hw base (UART9BitAddrSet hw base a m r) (base + hw.UART_O_NINEBITAMASK)
      = (m <<< hw.UART_NINEBITAMASK_MASK_S) % 2 ^ 32 := by
  have hne : hw.UART_O_NINEBITADDR ≠ hw.UART_O_NINEBITAMASK :=
    hd.uart_ne 13 14 (by decide) (by decide) (by decide)
  have h1 : base + hw.UART_O_NINEBITADDR ≠ base + hw.UART_O_NINEBITAMASK := by omega
  have h2 : base + hw.UART_O_NINEBITAMASK ≠ base + hw.UART_O_NINEBITADDR := by omega
  refine ⟨?_, ?_, ?_, ?_⟩
  · simp only [UART9BitAddrSet, HWREG_set, if_neg h1, if_true]
  · simp only [UART9BitAddrSet, HWREG_set, if_true]
  · simp only [UART9BitEnable, UART9BitAddrSet, HWREG, HWREG_set, if_neg h1, if_true]
  · simp only [UART9BitEnable, UART9BitAddrSet, HWREG, HWREG_set, if_neg h2, if_true]

/-- After the bits of a 32-bit mask `M` are cleared, neither setting nor clearing bits `H`
outside `M` brings back a part `k` of `M`. -/
theorem cleared_part_stays_clear (x M H k : Nat) (hM : M < 2 ^ 32) (hk : k &&& M = k)
    (hdis : H &&& M = 0) :
    ((x &&& not32 M) ||| H) &&& k = 0 ∧ ((x &&& not32 M) &&& not32 H) &&& k = 0 := by
  constructor
  · apply Nat.eq_of_testBit_eq
    intro i
    have hki := congrArg (fun n => n.testBit i) hk
    have hdi := congrArg (fun n => n.testBit i) hdis
    simp only [Nat.testBit_and, Nat.zero_testBit] at hki hdi
    simp only [Nat.testBit_and, Nat.testBit_or, testBit_not32 M i hM, Nat.zero_testBit]
    cases hx : x.testBit i <;> cases hmb : M.testBit i <;> cases hkb : k.testBit i <;>
      cases hh : H.testBit i <;> simp_all
  · apply Nat.eq_of_testBit_eq
    intro i
    have hki := congrArg (fun n => n.testBit i) hk
    simp only [Nat.testBit_and] at hki
    simp only [Nat.testBit_and, testBit_not32 M i hM, Nat.zero_testBit]
    cases hx : x.testBit i <;> cases hmb : M.testBit i <;> cases hkb : k.testBit i <;>
      cases hh : (not32 H).testBit i <;> simp_all

/-- After the bits of a 32-bit mask `M` are cleared and bits `H` set or cleared, every bit of
the 32-bit word outside `M` and `H` is as before. -/
theorem other_bits_kept (x M H i : Nat) (hM : M < 2 ^ 32) (hH : H < 2 ^ 32) (hi : i < 32)
    (hMi : M.testBit i = false) (hHi : H.testBit i = false) :
    (((x &&& not32 M) ||| H).testBit i = x.testBit i) ∧
    (((x &&& not32 M) &&& not32 H).testBit i = x.testBit i) := by
  constructor
  · simp [Nat.testBit_and, Nat.testBit_or, testBit_not32 M i hM, hi, hMi, hHi]
  · simp [Nat.testBit_and, testBit_not32 M i hM, testBit_not32 H i hH, hi, hMi, hHi]

/-- The traced `UART9BitAddrSend` computes the register file of `UART9BitAddrSend`, on every
input: the two fail together and return the same registers. -/
theorem UART9BitAddrSendTraced_regs (hw : UartHw) (base x : Nat) (t : Traced) :
    (UART9BitAddrSendTraced hw base x t).map Traced.regs = UART9BitAddrSend hw base x t.regs := by
  simp only [UART9BitAddrSendTraced, UART9BitAddrSend, Traced.store]
  split_ifs <;> rfl

/-- The stores recorded by the traced `UART9BitAddrSend` extend the stores made before, and
replaying the new ones from the register file at entry gives the register file at exit. -/
theorem UART9BitAddrSendTraced_stores (hw : UartHw) (base x : Nat) (t t2 : Traced)
    (h : UART9BitAddrSendTraced hw base x t = .ok t2) :
    t2.stores = t.stores ++
      [(base + hw.UART_O_LCRH,
          (t.regs (base + hw.UART_O_LCRH) &&& not32 UART_LCRH_EPS) ||| UART_LCRH_SPS |||
            UART_LCRH_PEN),
       (base + hw.UART_O_DR, x),
       (base + hw.UART_O_LCRH, t.regs (base + hw.UART_O_LCRH))] ∧
    t2.regs = replay t.regs
      [(base + hw.UART_O_LCRH,
          (t.regs (base + hw.UART_O_LCRH) &&& not32 UART_LCRH_EPS) ||| UART_LCRH_SPS |||
            UART_LCRH_PEN),
       (base + hw.UART_O_DR, x),
       (base + hw.UART_O_LCRH, t.regs (base + hw.UART_O_LCRH))] := by
  simp only [UART9BitAddrSendTraced, Traced.store, HWREG] at h
  split_ifs at h
  cases h
  simp [replay]

/-! ## Facts about the SSI model -/

theorem preDivFuel_eq : preDivFuel = 2 ^ 31 := by
  unfold preDivFuel; rfl

/-- One more iteration of the prescaler loop when the quotient is still above 256. -/
theorem preDivLoop_continue (fuel M p : Nat) (hp : p + 2 < 2 ^ 32) (hq : 257 ≤ M / (p + 2))
    (hM : M < 2 ^ 32) :
    preDivLoop (fuel + 1) M p = preDivLoop fuel M (p + 2) := by
  have hq2 : M / (p + 2) ≤ M := Nat.div_le_self _ _
  have hscr : (M / (p + 2) + (2 ^ 32 - 1)) % 2 ^ 32 = M / (p + 2) - 1 := by omega
  have hgt : M / (p + 2) - 1 > 255 := by omega
  simp only [preDivLoop, Nat.mod_eq_of_lt hp, hscr, if_pos hgt]
  rw [if_neg (by omega)]

/-- The prescaler loop leaves as soon as the quotient is between 1 and 256. -/
theorem preDivLoop_stop (fuel M p : Nat) (hp : p + 2 < 2 ^ 32) (hq1 : 1 ≤ M / (p + 2))
    (hq : M / (p + 2) ≤ 256) :
    preDivLoop (fuel + 1) M p = .ok (p + 2, M / (p + 2) - 1) := by
  have hscr : (M / (p + 2) + (2 ^ 32 - 1)) % 2 ^ 32 = M / (p + 2) - 1 := by omega
  have hgt : ¬ M / (p + 2) - 1 > 255 := by omega
  simp only [preDivLoop, Nat.mod_eq_of_lt hp, hscr, if_neg hgt]
  rw [if_neg (by omega)]

/-- A quotient of at least 257 bounds the divisor. -/
theorem quot_ge_257 (M p : Nat) (h : 257 ≤ M / p) : 0 < p ∧ 257 * p ≤ M := by
  rcases Nat.eq_zero_or_pos p with rfl | hp
  · simp at h
  · exact ⟨hp, (Nat.le_div_iff_mul_le hp).mp h⟩

/-- The prescaler search for `2 ≤ M ≤ 254 * 256`, entered with an even `p` all of whose
predecessors were rejected: it stops at the next even `q` with `M / q ≤ 256`, after
`(q - p) / 2` iterations. -/
theorem preDivLoop_spec (M : Nat) (hM2 : 2 ≤ M) (hM : M ≤ 254 * 256) :
    ∀ n p, p % 2 = 0 → 254 ≤ p + 2 * n → (p = 0 ∨ 257 ≤ M / p) →
      ∃ q scr, q % 2 = 0 ∧ p < q ∧ q ≤ 254 ∧ scr + 1 = M / q ∧ scr ≤ 255 ∧
        (∀ k, p < k → k < q → k % 2 = 0 → 257 ≤ M / k) ∧
        ∀ fuel, (q - p) / 2 ≤ fuel → preDivLoop fuel M p = .ok (q, scr) := by
  intro n
  induction n with
  | zero =>
    intro p hpe hn hp
    exfalso
    rcases hp with rfl | hp
    · omega
    · have := quot_ge_257 M p hp
      omega
  | succ n ih =>
    intro p hpe hn hp
    have hp252 : p ≤ 252 := by
      rcases hp with rfl | hp
      · omega
      · have := quot_ge_257 M p hp
        omega
    have hq1 : 1 ≤ M / (p + 2) := by
      rw [Nat.le_div_iff_mul_le (by omega)]
      rcases hp with rfl | hp
      · omega
      · have := quot_ge_257 M p hp
        omega
    by_cases hq : M / (p + 2) ≤ 256
    · refine ⟨p + 2, M / (p + 2) - 1, by omega, by omega, by omega, by omega, by omega, ?_, ?_⟩
      · intro k h1 h2 h3; omega
      · intro fuel hfuel
        obtain ⟨fuel0, rfl⟩ : ∃ m, fuel = m + 1 := ⟨fuel - 1, by omega⟩
        exact preDivLoop_stop fuel0 M p (by omega) hq1 hq
    · have hq257 : 257 ≤ M / (p + 2) := by omega
      obtain ⟨q, scr, h1, h2, h3, h4, h5, h6, h7⟩ :=
        ih (p + 2) (by omega) (by omega) (Or.inr hq257)
      refine ⟨q, scr, h1, by omega, h3, h4, h5, ?_, ?_⟩
      · intro k hk1 hk2 hk3
        by_cases hk : k = p + 2
        · rw [hk]; exact hq257
        · exact h6 k (by omega) hk2 hk3
      · intro fuel hfuel
        obtain ⟨fuel0, rfl⟩ : ∃ m, fuel = m + 1 := ⟨fuel - 1, by omega⟩
        rw [preDivLoop_continue fuel0 M p (by omega) hq257 (by omega)]
        exact h7 fuel0 (by omega)

/-- The prescaler search of `SSIConfigSetExpClk` for `2 ≤ M ≤ 254 * 256`. -/
theorem preDivLoop_result (M : Nat) (hM2 : 2 ≤ M) (hM : M ≤ 254 * 256) :
    ∃ q scr, q % 2 = 0 ∧ 2 ≤ q ∧ q ≤ 254 ∧ scr + 1 = M / q ∧ scr ≤ 255 ∧
      (∀ k, 0 < k → k < q → k % 2 = 0 → 257 ≤ M / k) ∧
      (∀ fuel, q / 2 ≤ fuel → preDivLoop fuel M 0 = .ok (q, scr)) ∧
      preDivLoop preDivFuel M 0 = .ok (q, scr) := by
  obtain ⟨q, scr, h1, h2, h3, h4, h5, h6, h7⟩ :=
    preDivLoop_spec M hM2 hM 127 0 (by decide) (by decide) (Or.inl rfl)
  refine ⟨q, scr, h1, by omega, h3, h4, h5, h6, fun fuel hf => h7 fuel (by omega), ?_⟩
  exact h7 preDivFuel (by rw [preDivFuel_eq]; omega)

/-- For `M < 2` the quotient is 0 in every iteration, `ui32SCR` wraps to `0xFFFFFFFF`, and the
loop runs until `ui32PreDiv` itself wraps to 0 and is used as a divisor. -/
theorem preDivLoop_small (M : Nat) (hM : M < 2) :
    ∀ fuel p, p % 2 = 0 → p < 2 ^ 32 → 2 ^ 32 ≤ p + 2 * fuel →
      preDivLoop fuel M p = .error .divByZero := by
  intro fuel
  induction fuel with
  | zero => intro p _ h1 h2; omega
  | succ n ih =>
    intro p hpe hp hn
    by_cases hw : p + 2 = 2 ^ 32
    · simp only [preDivLoop, hw, Nat.mod_self, if_true]
    · have hlt : p + 2 < 2 ^ 32 := by omega
      have hq : M / (p + 2) = 0 := Nat.div_eq_of_lt (by omega)
      simp only [preDivLoop, Nat.mod_eq_of_lt hlt, hq]
      rw [if_neg (by omega), if_pos (by norm_num)]
      exact ih (p + 2) (by omega) hlt (by omega)

/-- Two different positions of the SSI offset list hold different offsets. -/
theorem SsiHw.OffsetsDistinct.ssi_ne {hw : SsiHw} (h : hw.OffsetsDistinct)
    (i j : Nat) (hi : i < 11) (hj : j < 11) (hij : i ≠ j) :
    hw.offsets.getD i 0 ≠ hw.offsets.getD j 0 := by
  have li : i < hw.offsets.length := by simpa [SsiHw.offsets] using hi
  have lj : j < hw.offsets.length := by simpa [SsiHw.offsets] using hj
  rw [List.getD_eq_getElem _ _ li, List.getD_eq_getElem _ _ lj]
  intro e
  exact hij ((List.Nodup.getElem_inj_iff h).mp e)

theorem SsiHw.OffsetsDistinct.ssi_config_regs {hw : SsiHw} (h : hw.OffsetsDistinct) :
    hw.SSI_O_CR0 ≠ hw.SSI_O_CR1 ∧ hw.SSI_O_CR0 ≠ hw.SSI_O_CPSR ∧
    hw.SSI_O_CR1 ≠ hw.SSI_O_CPSR :=
  ⟨h.ssi_ne 0 1 (by decide) (by decide) (by decide),
   h.ssi_ne 0 4 (by decide) (by decide) (by decide),
   h.ssi_ne 1 4 (by decide) (by decide) (by decide)⟩

/-- Bits 15:8 of a word assembled from a byte shifted left by 8 and a low byte. -/
theorem shl8_or_field (scr low : Nat) (hscr : scr ≤ 255) (hlow : low < 256) :
    (((scr <<< 8) ||| low) >>> 8) &&& 0xFF = scr := by
  have h1 : ((scr <<< 8) ||| low) >>> 8 = scr := by
    apply Nat.eq_of_testBit_eq
    intro i
    have hpow : (256 : Nat) ≤ 2 ^ (8 + i) := by
      rw [(by norm_num : (256 : Nat) = 2 ^ 8)]
      exact Nat.pow_le_pow_right (by norm_num) (by omega)
    have hl : low.testBit (8 + i) = false :=
      Nat.testBit_lt_two_pow (lt_of_lt_of_le hlow hpow)
    simp [Nat.testBit_shiftRight, Nat.testBit_or, Nat.testBit_shiftLeft, hl]
  rw [h1, (by norm_num : (0xFF : Nat) = 2 ^ 8 - 1), Nat.and_pow_two_sub_one_eq_mod]
  exact Nat.mod_eq_of_lt (by omega)

/-- The low byte of CR0 assembled by `SSIConfigSetExpClk` for a data width between 4 and 16. -/
theorem cr0_low_lt (proto w : Nat) (hw4 : 4 ≤ w) (hw16 : w ≤ 16) :
    (((proto &&& 3) <<< 6) % 2 ^ 32 ||| (proto &&& SSI_CR0_FRF_M) |||
      ((w + (2 ^ 32 - 1)) % 2 ^ 32)) < 256 := by
  have h3 : proto &&& 3 < 2 ^ 2 := Nat.and_lt_two_pow _ (by norm_num)
  have hsh : ((proto &&& 3) <<< 6) % 2 ^ 32 < 2 ^ 8 := by
    rw [Nat.shiftLeft_eq]; omega
  have hf : proto &&& SSI_CR0_FRF_M < 2 ^ 8 :=
    Nat.and_lt_two_pow _ (by simp only [SSI_CR0_FRF_M]; norm_num)
  have hwd : (w + (2 ^ 32 - 1)) % 2 ^ 32 < 2 ^ 8 := by omega
  exact Nat.or_lt_two_pow (Nat.or_lt_two_pow hsh hf) hwd

/-- Function `SSIConfigSetExpClk` returns whenever the bit rate is not zero and the prescaler
search stops; then the prescaler is in CPSR and the assembled word in CR0. -/
theorem SSIConfigSetExpClk_returns (hw : SsiHw) (hd : hw.OffsetsDistinct)
    (base f proto mode b w : Nat) (r : Regs) (p scr : Nat) (hb : b ≠ 0)
    (hloop : preDivLoop preDivFuel (f / b) 0 = .ok (p, scr)) :
    ∃ r2, SSIConfigSetExpClk hw base f proto mode b w r = .ok r2 ∧
      r2 (base + hw.SSI_O_CPSR) = p ∧
      r2 (base + hw.SSI_O_CR0) =
        ((scr <<< 8) % 2 ^ 32) ||| ((proto &&& 3) <<< 6) % 2 ^ 32 ||| (proto &&& SSI_CR0_FRF_M)
          ||| ((w + (2 ^ 32 - 1)) % 2 ^ 32) := by
  obtain ⟨h1, h2, h3⟩ := hd.ssi_config_regs
  simp only [SSIConfigSetExpClk, if_neg hb, hloop]
  refine ⟨_, rfl, ?_, ?_⟩
  · simp only [HWREG_set]
    split_ifs <;> first | rfl | omega
  · simp only [HWREG_set, if_true]

/-- What `SSIConfigSetExpClk` emits for a data width between 4 and 16: the prescaler is in
CPSR and the serial clock rate in CR0 bits 15:8. -/
theorem SSIConfigSetExpClk_emits (hw : SsiHw) (hd : hw.OffsetsDistinct)
    (base f proto mode b w : Nat) (r : Regs) (p scr : Nat) (hb : b ≠ 0)
    (hloop : preDivLoop preDivFuel (f / b) 0 = .ok (p, scr)) (hscr : scr ≤ 255)
    (hw4 : 4 ≤ w) (hw16 : w ≤ 16) :
    ∃ r2, SSIConfigSetExpClk hw base f proto mode b w r = .ok r2 ∧
      r2 (base + hw.SSI_O_CPSR) = p ∧
      (r2 (base + hw.SSI_O_CR0) >>> 8) &&& 0xFF = scr := by
  obtain ⟨r2, hr, hp, hc⟩ := SSIConfigSetExpClk_returns hw hd base f proto mode b w r p scr hb
    hloop
  refine ⟨r2, hr, hp, ?_⟩
  have hs : (scr <<< 8) % 2 ^ 32 = scr <<< 8 := by
    rw [Nat.shiftLeft_eq]; omega
  rw [hc, hs, Nat.lor_assoc, Nat.lor_assoc]
  rw [← Nat.lor_assoc (((proto &&& 3) <<< 6) % 2 ^ 32)]
  exact shl8_or_field scr _ hscr (cr0_low_lt proto w hw4 hw16)

/-- The mode register written by `SSIConfigSetExpClk`. -/
theorem SSIConfigSetExpClk_cr1 (hw : SsiHw) (hd : hw.OffsetsDistinct)
    (base f proto mode b w : Nat) (r : Regs) (p scr : Nat) (hb : b ≠ 0)
    (hloop : preDivLoop preDivFuel (f / b) 0 = .ok (p, scr)) :
    ∃ r2, SSIConfigSetExpClk hw base f proto mode b w r = .ok r2 ∧
      r2 (base + hw.SSI_O_CR1) =
        (if mode = hw.SSI_MODE_SLAVE_OD then SSI_CR1_SOD else 0) |||
          (if mode = hw.SSI_MODE_MASTER then 0 else SSI_CR1_MS) := by
  obtain ⟨h1, h2, h3⟩ := hd.ssi_config_regs
  simp only [SSIConfigSetExpClk, if_neg hb, hloop]
  refine ⟨_, rfl, ?_⟩
  simp only [HWREG_set]
  rw [if_neg (by omega), if_neg (by omega)]
  simp only [if_true]

/-- Masking the low byte of a word assembled from a byte shifted left by 8 and a low part. -/
theorem shl8_or_low (scr low k : Nat) (hk : k < 256) :
    ((scr <<< 8) ||| low) &&& k = low &&& k := by
  apply Nat.eq_of_testBit_eq
  intro i
  simp only [Nat.testBit_and, Nat.testBit_or, Nat.testBit_shiftLeft]
  cases hkb : k.testBit i
  · simp
  · have h8 : i < 8 := testBit_lt_of_lt k i 8 (by simpa using hk) hkb
    have : ¬ i ≥ 8 := by omega
    simp [this]

/-- Bits 7:6 of a word assembled from a byte shifted left by 8 and a low part. -/
theorem shl8_or_shr6 (scr low : Nat) :
    (((scr <<< 8) ||| low) >>> 6) &&& 3 = (low >>> 6) &&& 3 := by
  apply Nat.eq_of_testBit_eq
  intro i
  simp only [Nat.testBit_and, Nat.testBit_or, Nat.testBit_shiftLeft, Nat.testBit_shiftRight]
  cases hkb : Nat.testBit 3 i
  · simp
  · have h2 : i < 2 := testBit_lt_of_lt 3 i 2 (by norm_num) hkb
    have : ¬ 6 + i ≥ 8 := by omega
    simp [this]

/-- The frame-format field of a protocol word is one of four values. -/
theorem frf_values (proto : Nat) :
    proto &&& SSI_CR0_FRF_M = 0 ∨ proto &&& SSI_CR0_FRF_M = 16 ∨
    proto &&& SSI_CR0_FRF_M = 32 ∨ proto &&& SSI_CR0_FRF_M = 48 := by
  have hle : proto &&& SSI_CR0_FRF_M ≤ 48 := Nat.and_le_right
  have hidem : (proto &&& SSI_CR0_FRF_M) &&& SSI_CR0_FRF_M = proto &&& SSI_CR0_FRF_M := by
    rw [Nat.land_assoc, Nat.and_self]
  generalize proto &&& SSI_CR0_FRF_M = c at hle hidem
  interval_cases c <;> first | omega | (exfalso; revert hidem; decide)

/-- The low byte of CR0 assembled by `SSIConfigSetExpClk` holds the phase/polarity bits, the
frame format and the data size in separate fields. -/
theorem cr0_low_fields (proto w : Nat) (hw4 : 4 ≤ w) (hw16 : w ≤ 16) :
    ((((proto &&& 3) <<< 6) ||| (proto &&& SSI_CR0_FRF_M) ||| (w - 1)) >>> 6) &&& 3
      = proto &&& 3 ∧
    (((proto &&& 3) <<< 6) ||| (proto &&& SSI_CR0_FRF_M) ||| (w - 1)) &&& SSI_CR0_FRF_M
      = proto &&& SSI_CR0_FRF_M ∧
    (((proto &&& 3) <<< 6) ||| (proto &&& SSI_CR0_FRF_M) ||| (w - 1)) &&& SSI_CR0_DSS_M
      = w - 1 ∧
    (((proto &&& 3) <<< 6) ||| (proto &&& SSI_CR0_FRF_M) ||| (w - 1)) < 256 := by
  have h3 : proto &&& 3 < 4 := Nat.and_lt_two_pow _ (by norm_num : 3 < 2 ^ 2)
  have hc := frf_values proto
  have hd1 : 3 ≤ w - 1 := by omega
  have hd2 : w - 1 ≤ 15 := by omega
  generalize proto &&& 3 = s at h3
  generalize proto &&& SSI_CR0_FRF_M = c at hc
  generalize w - 1 = d at hd1 hd2
  rcases hc with rfl | rfl | rfl | rfl <;> interval_cases s <;> interval_cases d <;> decide

/-- For `2 ≤ M ≤ 513` the search stops in its first iteration with `p = 2`. -/
theorem preDivLoop_first (M : Nat) (hM2 : 2 ≤ M) (hM : M ≤ 513) :
    preDivLoop preDivFuel M 0 = .ok (2, M / 2 - 1) := by
  have hfuel : preDivFuel = (2 ^ 31 - 1) + 1 := by rw [preDivFuel_eq]; rfl
  rw [hfuel]
  exact preDivLoop_stop (2 ^ 31 - 1) M 0 (by norm_num) (by omega) (by omega)

/-- Along every sequence of AES calls the tag never goes from one operation directly to a
different one. -/
theorem aesTrace_chain (t : AESOp) (cs : List AesCall) :
    List.Chain (fun a b => a = AESOp.AES_NONE ∨ b = AESOp.AES_NONE ∨ a = b) t
      (aesTrace t cs) := by
  induction cs generalizing t with
  | nil => exact List.Chain.nil
  | cons c cs ih =>
    rcases c with st | st | av | st <;> cases t <;> (try cases st) <;>
      simp [aesTrace, AesCall.effect, AESLoadKey, AESECBStart, AESECBCheckResult,
        AESECBGetResult, tagAfter, ih]

/-- Checking for the result any number of times leaves the tag as it is. -/
theorem aesFinalTag_checks (t : AESOp) (avails : List Bool) (cs : List AesCall) :
    aesFinalTag t (avails.map AesCall.ecbCheckResult ++ cs) = aesFinalTag t cs := by
  induction avails with
  | nil => rfl
  | cons a as ih =>
    simp only [List.map_cons, List.cons_append, aesFinalTag, AesCall.effect, AESECBCheckResult,
      tagAfter, List.getLast?_nil, Option.getD_none]
    exact ih

/-- The quotient bounds of a truncating division: `M - q < q * (M / q) ≤ M` when the quotient
is not zero. -/
theorem mul_div_window (M q : Nat) (hq : 0 < q) (h1 : 1 ≤ M / q) :
    M - q < q * (M / q) ∧ q * (M / q) ≤ M := by
  have h2 : q * (M / q) ≤ M := Nat.mul_div_le M q
  have h3 : M < q * (M / q + 1) := Nat.lt_mul_div_succ M hq
  have h4 : q * (M / q + 1) = q * (M / q) + q := by ring
  have h5 : q ≤ q * (M / q) := Nat.le_mul_of_pos_right q h1
  omega

/-- The bits of the 32-bit word `0xfffffffe << d`: positions `d + 1` to 31. -/
theorem dataMask_testBit (d i : Nat) :
    ((0xfffffffe <<< d) % 2 ^ 32).testBit i = (decide (i < 32) && decide (d + 1 ≤ i)) := by
  have h : (0xfffffffe : Nat) = (2 ^ 31 - 1) <<< 1 := by decide
  rw [h]
  simp only [Nat.testBit_mod_two_pow, Nat.testBit_shiftLeft, Nat.testBit_two_pow_sub_one]
  by_cases h1 : i < 32 <;> by_cases h2 : d + 1 ≤ i
  · have a1 : i ≥ d := by omega
    have a2 : i - d ≥ 1 := by omega
    have a3 : i - d - 1 < 31 := by omega
    simp [h1, h2, a1, a2, a3]
  · have a : ¬ (i ≥ d ∧ i - d ≥ 1) := by omega
    by_cases a1 : i ≥ d
    · have a2 : ¬ i - d ≥ 1 := by omega
      simp [h1, h2, a1, a2]
    · simp [h1, h2, a1]
  · simp [h1, h2]
  · simp [h1, h2]

/-- A 32-bit word has no bit in common with `0xfffffffe << d` exactly when it is below
`2 ^ (d + 1)`. -/
theorem dataMask_and_eq_zero_iff (data d : Nat) (hdata : data < 2 ^ 32) :
    data &&& ((0xfffffffe <<< d) % 2 ^ 32) = 0 ↔ data < 2 ^ (d + 1) := by
  constructor
  · intro h
    apply Nat.lt_pow_two_of_testBit
    intro i hi
    by_cases h32 : i < 32
    · have hb := congrArg (fun n => n.testBit i) h
      simp only [Nat.testBit_and, dataMask_testBit, Nat.zero_testBit] at hb
      have hi2 : d + 1 ≤ i := hi
      simpa [h32, hi2] using hb
    · apply Nat.testBit_lt_two_pow
      exact lt_of_lt_of_le hdata (Nat.pow_le_pow_right (by norm_num) (by omega))
  · intro h
    apply Nat.eq_of_testBit_eq
    intro i
    simp only [Nat.testBit_and, dataMask_testBit, Nat.zero_testBit]
    cases hb : data.testBit i
    · simp
    · have hlt : i < d + 1 := testBit_lt_of_lt data i (d + 1) h hb
      have : ¬ d + 1 ≤ i := by omega
      simp [this]

/-- The data-size field of CR0 after `SSIConfigSetExpClk` with a data width from 4 to 16. -/
theorem SSIConfigSetExpClk_dss (hw : SsiHw) (hd : hw.OffsetsDistinct)
    (base f proto mode b w : Nat) (r : Regs) (p scr : Nat) (hb : b ≠ 0)
    (hloop : preDivLoop preDivFuel (f / b) 0 = .ok (p, scr)) (hscr : scr ≤ 255)
    (hw4 : 4 ≤ w) (hw16 : w ≤ 16) :
    ∃ r2, SSIConfigSetExpClk hw base f proto mode b w r = .ok r2 ∧
      r2 (base + hw.SSI_O_CR0) &&& SSI_CR0_DSS_M = w - 1 := by
  obtain ⟨r2, hr, -, hc⟩ := SSIConfigSetExpClk_returns hw hd base f proto mode b w r p scr hb
    hloop
  obtain ⟨-, -, hf3, -⟩ := cr0_low_fields proto w hw4 hw16
  have hs : (scr <<< 8) % 2 ^ 32 = scr <<< 8 := by
    rw [Nat.shiftLeft_eq]; omega
  have h3 : proto &&& 3 < 4 := Nat.and_lt_two_pow _ (by norm_num : 3 < 2 ^ 2)
  have hsp : ((proto &&& 3) <<< 6) % 2 ^ 32 = (proto &&& 3) <<< 6 := by
    rw [Nat.shiftLeft_eq]; omega
  have hwd : (w + (2 ^ 32 - 1)) % 2 ^ 32 = w - 1 := by omega
  rw [hs, hsp, hwd] at hc
  have hassoc : r2 (base + hw.SSI_O_CR0) =
      (scr <<< 8) ||| (((proto &&& 3) <<< 6) ||| (proto &&& SSI_CR0_FRF_M) ||| (w - 1)) := by
    rw [hc, Nat.lor_assoc, Nat.lor_assoc, ← Nat.lor_assoc ((proto &&& 3) <<< 6)]
  refine ⟨r2, hr, ?_⟩
  rw [hassoc, shl8_or_low _ _ _ (by decide)]; exact hf3

/-! ## Claims -/

/-- C1: with `FR.BUSY` clear, a clock `f < 2^29` and a baud `b` with `1 ≤ b` and `16*b ≤ f`
(normal-speed mode), `UARTConfigSetExpClk` returns, leaves the high-speed bit clear and writes
`IBRD = D / 64` and `FBRD = D mod 64` for `D = ((f*8)/b + 1)/2`, so that
`64*IBRD + FBRD = D`. -/
theorem UARTConfigSetExpClk_normal_speed (hw : UartHw) (hd : hw.OffsetsDistinct)
    (hHSE : hw.UART_CTL_HSE < 2 ^ 32) (base f b cfg : Nat) (r : Regs)
    (hbusy : r (base + hw.UART_O_FR) &&& hw.UART_FR_BUSY = 0)
    (hf : f < 2 ^ 29) (hb1 : 1 ≤ b) (hb16 : 16 * b ≤ f) :
    ∃ r2, UARTConfigSetExpClk hw base f b cfg r = .ok r2 ∧
      r2 (base + hw.UART_O_CTL) &&& hw.UART_CTL_HSE = 0 ∧
      r2 (base + hw.UART_O_IBRD) = ((f * 8) / b + 1) / 2 / 64 ∧
      r2 (base + hw.UART_O_FBRD) = ((f * 8) / b + 1) / 2 % 64 ∧
      64 * r2 (base + hw.UART_O_IBRD) + r2 (base + hw.UART_O_FBRD) = ((f * 8) / b + 1) / 2 := by
  obtain ⟨hhs, heb⟩ := normal_speed_facts f b hf hb16
  have hne : effectiveBaud f b ≠ 0 := by omega
  obtain ⟨hI, hF, -, -, hC⟩ := afterConfig_regs hw hd base f b cfg r
  rw [heb, baudDiv_eq f b hf] at hI hF
  refine ⟨_, UARTConfigSetExpClk_returns hw base f b cfg r hbusy hne, ?_, hI, hF, ?_⟩
  · rw [hC]
    simp only [ctlAfterConfig, hhs, Bool.false_eq_true, if_false]
    exact and_not32_and _ _ hHSE
  · rw [hI, hF]; omega

/-- C1, scenario E1: `f = 32_000_000`, `b = 115200`, 8N1 gives high-speed off, `IBRD = 17`,
`FBRD = 23`. -/
theorem UARTConfigSetExpClk_normal_speed_witness :
    ∃ r2, UARTConfigSetExpClk cc2538Uart UART0_BASE 32000000 115200 0x60 zeroRegs = .ok r2 ∧
      r2 (UART0_BASE + cc2538Uart.UART_O_CTL) &&& cc2538Uart.UART_CTL_HSE = 0 ∧
      r2 (UART0_BASE + cc2538Uart.UART_O_IBRD) = 17 ∧
      r2 (UART0_BASE + cc2538Uart.UART_O_FBRD) = 23 ∧
      64 * r2 (UART0_BASE + cc2538Uart.UART_O_IBRD) + r2 (UART0_BASE + cc2538Uart.UART_O_FBRD)
        = 1111 :=
  UARTConfigSetExpClk_normal_speed cc2538Uart (by decide) (by decide) UART0_BASE 32000000 115200
    0x60 zeroRegs (by decide) (by decide) (by decide) (by decide)

/-- C2 (as amended): for every 32-bit clock `f` and non-zero 32-bit baud `b` whose possibly
halved value is not zero (`2 ≤ b`, or the high-speed test fails), with `FR.BUSY` clear,
`UARTConfigSetExpClk` returns; the high-speed bit of the control register is set exactly when
`16*b`, reduced modulo `2^32`, exceeds `f`; and `IBRD`/`FBRD` are `D / 64` and `D mod 64` for
`D = (((f*8) mod 2^32) / b' + 1) / 2`, where `b'` is `b/2` in high-speed mode and `b`
otherwise. -/
theorem UARTConfigSetExpClk_high_speed (hw : UartHw) (hd : hw.OffsetsDistinct)
    (hHSE0 : hw.UART_CTL_HSE ≠ 0) (hHSE : hw.UART_CTL_HSE < 2 ^ 32)
    (base f b cfg : Nat) (r : Regs)
    (hbusy : r (base + hw.UART_O_FR) &&& hw.UART_FR_BUSY = 0)
    (hb0 : b ≠ 0) (hb2 : 2 ≤ b ∨ (b * 16) % 2 ^ 32 ≤ f) :
    ∃ r2, UARTConfigSetExpClk hw base f b cfg r = .ok r2 ∧
      (r2 (base + hw.UART_O_CTL) &&& hw.UART_CTL_HSE ≠ 0 ↔ (b * 16) % 2 ^ 32 > f) ∧
      r2 (base + hw.UART_O_IBRD) =
        ((f * 8) % 2 ^ 32 / (if (b * 16) % 2 ^ 32 > f then b / 2 else b) + 1) / 2 / 64 ∧
      r2 (base + hw.UART_O_FBRD) =
        ((f * 8) % 2 ^ 32 / (if (b * 16) % 2 ^ 32 > f then b / 2 else b) + 1) / 2 % 64 := by
  have heb : effectiveBaud f b = if (b * 16) % 2 ^ 32 > f then b / 2 else b := by
    simp only [effectiveBaud, highSpeed, decide_eq_true_eq]
  have hne : effectiveBaud f b ≠ 0 := by
    rw [heb]; split_ifs with h <;> omega
  have hdiv : ∀ c, baudDiv f c = ((f * 8) % 2 ^ 32 / c + 1) / 2 := by
    intro c
    have hq : f * 8 % 2 ^ 32 / c ≤ f * 8 % 2 ^ 32 := Nat.div_le_self _ _
    have h1 : f * 8 % 2 ^ 32 / c + 1 < 2 ^ 32 := by omega
    simp only [baudDiv, Nat.mod_eq_of_lt h1]
  obtain ⟨hI, hF, -, -, hC⟩ := afterConfig_regs hw hd base f b cfg r
  rw [hdiv, heb] at hI hF
  refine ⟨_, UARTConfigSetExpClk_returns hw base f b cfg r hbusy hne, ?_, hI, hF⟩
  rw [hC]
  by_cases h : (b * 16) % 2 ^ 32 > f
  · have hs : highSpeed f b = true := by
      simp only [highSpeed, decide_eq_true_eq]; exact h
    simp only [ctlAfterConfig, hs, if_true, or_and_self, h, iff_true]
    exact hHSE0
  · have hs : highSpeed f b = false := by
      simp only [highSpeed, decide_eq_false_iff_not]; exact h
    simp only [ctlAfterConfig, hs, Bool.false_eq_true, if_false, and_not32_and _ _ hHSE, h,
      ne_eq, not_true_eq_false]

/-- C2, scenario E2: `f = 16_000_000`, `b = 3_000_000` gives high-speed on (the divider is
computed from the halved baud 1_500_000), `IBRD = 0`, `FBRD = 43`. -/
theorem UARTConfigSetExpClk_high_speed_witness :
    ∃ r2, UARTConfigSetExpClk cc2538Uart UART0_BASE 16000000 3000000 0x60 zeroRegs = .ok r2 ∧
      r2 (UART0_BASE + cc2538Uart.UART_O_CTL) &&& cc2538Uart.UART_CTL_HSE ≠ 0 ∧
      r2 (UART0_BASE + cc2538Uart.UART_O_IBRD) = 0 ∧
      r2 (UART0_BASE + cc2538Uart.UART_O_FBRD) = 43 := by
  obtain ⟨r2, h, hiff, hI, hF⟩ :=
    UARTConfigSetExpClk_high_speed cc2538Uart (by decide) (by decide) (by decide) UART0_BASE
      16000000 3000000 0x60 zeroRegs (by decide) (by decide) (by decide)
  exact ⟨r2, h, hiff.mpr (by decide), hI, hF⟩

/-- C2 fails as stated: for `f = 32_000_000` and the non-zero 32-bit baud `b = 2^28` we have
`16*b > f`, yet the call returns with the high-speed bit clear, because `b * 16` wraps to 0. -/
theorem UARTConfigSetExpClk_high_speed_wraps :
    16 * 268435456 > 32000000 ∧
    ∃ r2, UARTConfigSetExpClk cc2538Uart UART0_BASE 32000000 268435456 0x60 zeroRegs = .ok r2 ∧
      r2 (UART0_BASE + cc2538Uart.UART_O_CTL) &&& cc2538Uart.UART_CTL_HSE = 0 := by
  refine ⟨by decide, _, UARTConfigSetExpClk_returns cc2538Uart UART0_BASE 32000000 268435456
    0x60 zeroRegs (by decide) (by decide), ?_⟩
  rw [(afterConfig_regs cc2538Uart (by decide) UART0_BASE 32000000 268435456 0x60
    zeroRegs).2.2.2.2]
  decide

/-- C3 (as amended): for `f` in {16 MHz, 32 MHz} and every baud `b` with `300 ≤ b ≤ 600_000`
(so for the named members 300 and 1200), and for the named member `b = 3_000_000` at
`f = 32 MHz`, the baud returned by `UARTConfigGetExpClk` after `UARTConfigSetExpClk` differs from
`b` by at most 0.5 %: `200 * |returned - b| ≤ b`. -/
theorem baud_round_trip (hw : UartHw) (hd : hw.OffsetsDistinct)
    (hHSE0 : hw.UART_CTL_HSE ≠ 0) (hHSE : hw.UART_CTL_HSE < 2 ^ 32)
    (base f b cfg : Nat) (r : Regs)
    (hbusy : r (base + hw.UART_O_FR) &&& hw.UART_FR_BUSY = 0)
    (hf : f = 16000000 ∨ f = 32000000)
    (hb : (300 ≤ b ∧ b ≤ 600000) ∨ (f = 32000000 ∧ b = 3000000)) :
    ∃ r2 g c, UARTConfigSetExpClk hw base f b cfg r = .ok r2 ∧
      UARTConfigGetExpClk hw base f r2 = .ok (r2, g, c) ∧
      200 * ((g : Int) - (b : Int)).natAbs ≤ b := by
  rcases hb with ⟨hb1, hb2⟩ | ⟨rfl, rfl⟩
  · have hf29 : f < 2 ^ 29 := by rcases hf with rfl | rfl <;> norm_num
    have hf16 : 16000000 ≤ f := by rcases hf with rfl | rfl <;> norm_num
    obtain ⟨hhs, heb⟩ := normal_speed_facts f b hf29 (by omega)
    obtain ⟨hD, hup, hdown⟩ := round_trip_core f b hf16 hb1 hb2
    have hdiv : baudDiv f (effectiveBaud f b) = ((f * 8) / b + 1) / 2 := by
      rw [heb, baudDiv_eq f b hf29]
    have h4 : (f * 4) % 2 ^ 32 = f * 4 := Nat.mod_eq_of_lt (by omega)
    have hget := UARTConfigGetExpClk_afterConfig hw hd hHSE0 hHSE base f b cfg r
      (by rw [hdiv]; exact hD)
    rw [hhs, hdiv, h4] at hget
    refine ⟨_, _, _, UARTConfigSetExpClk_returns hw base f b cfg r hbusy (by omega), hget, ?_⟩
    simp only [Bool.false_eq_true, if_false]
    omega
  · have hget := UARTConfigGetExpClk_afterConfig hw hd hHSE0 hHSE base 32000000 3000000 cfg r
      (by decide)
    refine ⟨_, _, _, UARTConfigSetExpClk_returns hw base 32000000 3000000 cfg r hbusy
      (by decide), hget, ?_⟩
    decide

/-- C3 at the standard rate 115 200 baud with a 16 MHz clock. -/
theorem baud_round_trip_witness :
    ∃ r2 g c, UARTConfigSetExpClk cc2538Uart UART0_BASE 16000000 115200 0x60 zeroRegs = .ok r2 ∧
      UARTConfigGetExpClk cc2538Uart UART0_BASE 16000000 r2 = .ok (r2, g, c) ∧
      200 * ((g : Int) - (115200 : Int)).natAbs ≤ 115200 :=
  baud_round_trip cc2538Uart (by decide) (by decide) (by decide) UART0_BASE 16000000 115200 0x60
    zeroRegs (by decide) (by decide) (by decide)

/-- C3 fails as stated at the named member `b = 3_000_000` with `f = 16_000_000`: the divider is
43 in high-speed mode, the baud read back is 2 976 744, and `200 * 23 256 > 3 000 000`
(an error of 0.78 %). -/
theorem baud_round_trip_fails_16MHz_3Mbaud :
    ∃ r2 c, UARTConfigSetExpClk cc2538Uart UART0_BASE 16000000 3000000 0x60 zeroRegs = .ok r2 ∧
      UARTConfigGetExpClk cc2538Uart UART0_BASE 16000000 r2 = .ok (r2, 2976744, c) ∧
      ¬ 200 * ((2976744 : Int) - (3000000 : Int)).natAbs ≤ 3000000 :=
  ⟨_, _, UARTConfigSetExpClk_returns cc2538Uart UART0_BASE 16000000 3000000 0x60 zeroRegs
      (by decide) (by decide),
    UARTConfigGetExpClk_afterConfig cc2538Uart (by decide) (by decide) (by decide) UART0_BASE
      16000000 3000000 0x60 zeroRegs (by decide),
    by decide⟩

/-- C4: the divider computed by `UARTConfigSetExpClk` rounds to nearest, ties up: for every
`f < 2^29` and effective baud `b' ≥ 1`, `D = ((f*8)/b' + 1)/2` satisfies
`2*D*b' - b' ≤ 8*f < 2*D*b' + b'`, that is `D = floor(4*f/b' + 1/2) = (8*f + b') / (2*b')`. -/
theorem baudDiv_round_nearest (f b' : Nat) (hf : f < 2 ^ 29) (hb : 1 ≤ b') :
    baudDiv f b' = ((f * 8) / b' + 1) / 2 ∧
    2 * baudDiv f b' * b' - b' ≤ 8 * f ∧
    8 * f < 2 * baudDiv f b' * b' + b' ∧
    baudDiv f b' = (8 * f + b') / (2 * b') := by
  have hpos : 0 < b' := hb
  rw [baudDiv_eq f b' hf]
  have hfl : (8 * f + b') / (2 * b') = ((f * 8) / b' + 1) / 2 := by
    rw [Nat.mul_comm 2 b', ← Nat.div_div_eq_div_mul, Nat.add_div_right _ hpos,
      Nat.mul_comm 8 f]
  have ha : f * 8 / b' * b' ≤ f * 8 := Nat.div_mul_le_self _ _
  have hb2 : f * 8 < (f * 8 / b' + 1) * b' :=
    (Nat.div_lt_iff_lt_mul hpos).mp (Nat.lt_succ_self _)
  generalize f * 8 / b' = q at ha hb2 hfl ⊢
  have hD1 : q ≤ 2 * ((q + 1) / 2) := by omega
  have hD2 : 2 * ((q + 1) / 2) ≤ q + 1 := by omega
  have hP1 : q * b' ≤ 2 * ((q + 1) / 2) * b' := Nat.mul_le_mul_right b' hD1
  have hP2 : 2 * ((q + 1) / 2) * b' ≤ (q + 1) * b' := Nat.mul_le_mul_right b' hD2
  generalize (q + 1) / 2 = D at hP1 hP2 hfl ⊢
  have hexp : (q + 1) * b' = q * b' + b' := by ring
  refine ⟨rfl, ?_, ?_, hfl.symm⟩ <;> omega

/-- C4 at `f = 32_000_000`, `b' = 115200`: the exact quotient is 1111.1 and `D = 1111`. -/
theorem baudDiv_round_nearest_witness :
    baudDiv 32000000 115200 = ((32000000 * 8) / 115200 + 1) / 2 ∧
    2 * baudDiv 32000000 115200 * 115200 - 115200 ≤ 8 * 32000000 ∧
    8 * 32000000 < 2 * baudDiv 32000000 115200 * 115200 + 115200 ∧
    baudDiv 32000000 115200 = (8 * 32000000 + 115200) / (2 * 115200) :=
  baudDiv_round_nearest 32000000 115200 (by decide) (by decide)

/-- C5 (as amended): for every register state with `0 < 64*IBRD + FBRD < 2^32` and every clock
`f < 2^30`, `UARTConfigGetExpClk` returns, changes no register, and the baud it returns is
`(f*4) / (64*IBRD + FBRD)` when the high-speed bit is clear and twice that quotient modulo
`2^32` when it is set, which is exactly twice the quotient whenever the quotient is below
`2^31` (in particular whenever `f < 2^29`). -/
theorem UARTConfigGetExpClk_baud (hw : UartHw) (base f : Nat) (r : Regs)
    (hden0 : 64 * r (base + hw.UART_O_IBRD) + r (base + hw.UART_O_FBRD) ≠ 0)
    (hden : 64 * r (base + hw.UART_O_IBRD) + r (base + hw.UART_O_FBRD) < 2 ^ 32)
    (hf : f < 2 ^ 30) :
    ∃ g c, UARTConfigGetExpClk hw base f r = .ok (r, g, c) ∧
      (r (base + hw.UART_O_CTL) &&& hw.UART_CTL_HSE = 0 →
        g = (f * 4) / (64 * r (base + hw.UART_O_IBRD) + r (base + hw.UART_O_FBRD))) ∧
      (r (base + hw.UART_O_CTL) &&& hw.UART_CTL_HSE ≠ 0 →
        g = (2 * ((f * 4) / (64 * r (base + hw.UART_O_IBRD) + r (base + hw.UART_O_FBRD))))
              % 2 ^ 32 ∧
        ((f * 4) / (64 * r (base + hw.UART_O_IBRD) + r (base + hw.UART_O_FBRD)) < 2 ^ 31 →
          g = 2 * ((f * 4) / (64 * r (base + hw.UART_O_IBRD) + r (base + hw.UART_O_FBRD)))) ∧
        (f < 2 ^ 29 →
          g = 2 * ((f * 4) / (64 * r (base + hw.UART_O_IBRD) + r (base + hw.UART_O_FBRD))))) := by
  have hd32 : ((64 * r (base + hw.UART_O_IBRD)) % 2 ^ 32 + r (base + hw.UART_O_FBRD)) % 2 ^ 32
      = 64 * r (base + hw.UART_O_IBRD) + r (base + hw.UART_O_FBRD) := by omega
  have h4 : (f * 4) % 2 ^ 32 = f * 4 := Nat.mod_eq_of_lt (by omega)
  have hret := UARTConfigGetExpClk_returns hw base f r (by rw [hd32]; exact hden0)
  rw [hd32, h4] at hret
  have hq : f * 4 / (64 * r (base + hw.UART_O_IBRD) + r (base + hw.UART_O_FBRD)) ≤ f * 4 :=
    Nat.div_le_self _ _
  refine ⟨_, _, hret, ?_, ?_⟩
  · intro h0
    rw [if_neg (by rw [h0]; exact fun h => h rfl)]
  · intro h1
    rw [if_pos h1, Nat.mul_comm _ 2]
    refine ⟨rfl, fun hlt => Nat.mod_eq_of_lt (by omega), fun hf29 => Nat.mod_eq_of_lt (by omega)⟩

/-- C5 at the registers programmed for 115 200 baud from 32 MHz (`IBRD = 17`, `FBRD = 23`):
the getter returns `128_000_000 / 1111 = 115211`. -/
theorem UARTConfigGetExpClk_baud_witness :
    ∃ g c, UARTConfigGetExpClk cc2538Uart UART0_BASE 32000000
        (afterConfig cc2538Uart UART0_BASE 32000000 115200 0x60 zeroRegs)
        = .ok (afterConfig cc2538Uart UART0_BASE 32000000 115200 0x60 zeroRegs, g, c) ∧
      g = 115211 := by
  obtain ⟨g, c, h, h0, -⟩ := UARTConfigGetExpClk_baud cc2538Uart UART0_BASE 32000000
    (afterConfig cc2538Uart UART0_BASE 32000000 115200 0x60 zeroRegs)
    (by decide) (by decide) (by decide)
  exact ⟨g, c, h, h0 (by decide)⟩

/-- C5 fails as stated.  (a) With the high-speed bit set, `IBRD = 0`, `FBRD = 1` and
`f = 2^30 - 1` the quotient is `2^32 - 4`; the getter returns `2^32 - 8`, not twice the
quotient.  (b) With `IBRD = 2^26`, `FBRD = 1`, high speed off and `f = 16_000_000`, the
denominator `64*IBRD + FBRD = 2^32 + 1` is not zero and the claimed quotient is 0, but
`64 * IBRD` wraps and the getter returns `64_000_000`. -/
theorem UARTConfigGetExpClk_baud_wraps :
    (hseUnitDivRegs (UART0_BASE + cc2538Uart.UART_O_CTL) &&& cc2538Uart.UART_CTL_HSE ≠ 0 ∧
      64 * hseUnitDivRegs (UART0_BASE + cc2538Uart.UART_O_IBRD) +
        hseUnitDivRegs (UART0_BASE + cc2538Uart.UART_O_FBRD) = 1 ∧
      UARTConfigGetExpClk cc2538Uart UART0_BASE 1073741823 hseUnitDivRegs
        = .ok (hseUnitDivRegs, 4294967288, 0) ∧
      4294967288 ≠ 2 * ((1073741823 * 4) / 1)) ∧
    (wideIbrdRegs (UART0_BASE + cc2538Uart.UART_O_CTL) &&& cc2538Uart.UART_CTL_HSE = 0 ∧
      64 * wideIbrdRegs (UART0_BASE + cc2538Uart.UART_O_IBRD) +
        wideIbrdRegs (UART0_BASE + cc2538Uart.UART_O_FBRD) = 4294967297 ∧
      UARTConfigGetExpClk cc2538Uart UART0_BASE 16000000 wideIbrdRegs
        = .ok (wideIbrdRegs, 64000000, 0) ∧
      64000000 ≠ (16000000 * 4) / 4294967297) := by
  refine ⟨⟨by decide, by decide, ?_, by decide⟩, ⟨by decide, by decide, ?_, by decide⟩⟩
  · rw [UARTConfigGetExpClk_returns cc2538Uart UART0_BASE 1073741823 hseUnitDivRegs (by decide)]
    rfl
  · rw [UARTConfigGetExpClk_returns cc2538Uart UART0_BASE 16000000 wideIbrdRegs (by decide)]
    rfl

/-- C6: for every `config` that is the OR of one word-length, one stop-bit and one parity
constant, `UARTConfigSetExpClk` (entered with `FR.BUSY` clear and a baud whose effective value
and divider are not zero) writes `LCRH = config`, and a following `UARTConfigGetExpClk` returns
exactly `config` as the data format; 8N1 is `0x60`. -/
theorem config_round_trip (hw : UartHw) (hd : hw.OffsetsDistinct)
    (hHSE0 : hw.UART_CTL_HSE ≠ 0) (hHSE : hw.UART_CTL_HSE < 2 ^ 32)
    (base f b : Nat) (r : Regs) (wlen stop par : Nat)
    (hbusy : r (base + hw.UART_O_FR) &&& hw.UART_FR_BUSY = 0)
    (hb : effectiveBaud f b ≠ 0) (hD : baudDiv f (effectiveBaud f b) ≠ 0)
    (hwlen : wlen ∈ [UART_CONFIG_WLEN_5, UART_CONFIG_WLEN_6, UART_CONFIG_WLEN_7,
      UART_CONFIG_WLEN_8])
    (hstop : stop ∈ [UART_CONFIG_STOP_ONE, UART_CONFIG_STOP_TWO])
    (hpar : par ∈ [UART_CONFIG_PAR_NONE, UART_CONFIG_PAR_EVEN, UART_CONFIG_PAR_ODD,
      UART_CONFIG_PAR_ONE, UART_CONFIG_PAR_ZERO]) :
    ∃ r2 g, UARTConfigSetExpClk hw base f b (wlen ||| stop ||| par) r = .ok r2 ∧
      r2 (base + hw.UART_O_LCRH) = wlen ||| stop ||| par ∧
      UARTConfigGetExpClk hw base f r2 = .ok (r2, g, wlen ||| stop ||| par) ∧
      UART_CONFIG_WLEN_8 ||| UART_CONFIG_STOP_ONE ||| UART_CONFIG_PAR_NONE = 0x60 := by
  have hmask : (wlen ||| stop ||| par) &&& formatMask = wlen ||| stop ||| par := by
    simp only [List.mem_cons, List.mem_singleton, List.not_mem_nil, or_false] at hwlen hstop hpar
    rcases hwlen with rfl | rfl | rfl | rfl <;> rcases hstop with rfl | rfl <;>
      rcases hpar with rfl | rfl | rfl | rfl | rfl <;> decide
  have hget := UARTConfigGetExpClk_afterConfig hw hd hHSE0 hHSE base f b
    (wlen ||| stop ||| par) r hD
  rw [hmask] at hget
  exact ⟨_, _, UARTConfigSetExpClk_returns hw base f b _ r hbusy hb,
    (afterConfig_regs hw hd base f b _ r).2.2.1, hget, by decide⟩

/-- C6 for 7 data bits, two stop bits, even parity (`0x4E`) at 9600 baud from 16 MHz. -/
theorem config_round_trip_witness :
    ∃ r2 g, UARTConfigSetExpClk cc2538Uart UART0_BASE 16000000 9600
        (UART_CONFIG_WLEN_7 ||| UART_CONFIG_STOP_TWO ||| UART_CONFIG_PAR_EVEN) zeroRegs = .ok r2 ∧
      r2 (UART0_BASE + cc2538Uart.UART_O_LCRH)
        = UART_CONFIG_WLEN_7 ||| UART_CONFIG_STOP_TWO ||| UART_CONFIG_PAR_EVEN ∧
      UARTConfigGetExpClk cc2538Uart UART0_BASE 16000000 r2
        = .ok (r2, g, UART_CONFIG_WLEN_7 ||| UART_CONFIG_STOP_TWO ||| UART_CONFIG_PAR_EVEN) ∧
      UART_CONFIG_WLEN_8 ||| UART_CONFIG_STOP_ONE ||| UART_CONFIG_PAR_NONE = 0x60 :=
  config_round_trip cc2538Uart (by decide) (by decide) (by decide) UART0_BASE 16000000 9600
    zeroRegs UART_CONFIG_WLEN_7 UART_CONFIG_STOP_TWO UART_CONFIG_PAR_EVEN
    (by decide) (by decide) (by decide) (by decide) (by decide) (by decide)

/-- C7 (as amended): for every SSI clock `f` and bit rate `b ≥ 1` with `2 ≤ f/b ≤ 254*256`
(and a data width between 4 and 16), `SSIConfigSetExpClk` returns and the pair `(p, SCR)` found
by its search, with `p` written to CPSR and `SCR` to CR0 bits 15:8, has `p` even,
`2 ≤ p ≤ 254` and `SCR ≤ 255`. -/
theorem SSI_prescaler_invariants (hw : SsiHw) (hd : hw.OffsetsDistinct)
    (base f proto mode b w : Nat) (r : Regs)
    (hb : 1 ≤ b) (hM2 : 2 ≤ f / b) (hM : f / b ≤ 254 * 256) (hw4 : 4 ≤ w) (hw16 : w ≤ 16) :
    ∃ r2 p scr, SSIConfigSetExpClk hw base f proto mode b w r = .ok r2 ∧
      preDivLoop preDivFuel (f / b) 0 = .ok (p, scr) ∧
      r2 (base + hw.SSI_O_CPSR) = p ∧
      (r2 (base + hw.SSI_O_CR0) >>> 8) &&& 0xFF = scr ∧
      p % 2 = 0 ∧ 2 ≤ p ∧ p ≤ 254 ∧ 0 ≤ scr ∧ scr ≤ 255 := by
  obtain ⟨p, scr, h1, h2, h3, -, h5, -, -, h8⟩ := preDivLoop_result (f / b) hM2 hM
  obtain ⟨r2, hr, hp, hs⟩ := SSIConfigSetExpClk_emits hw hd base f proto mode b w r p scr
    (by omega) h8 h5 hw4 hw16
  exact ⟨r2, p, scr, hr, h8, hp, hs, h1, h2, h3, Nat.zero_le _, h5⟩

/-- C7 at `f = 32_000_000`, `b = 1000` (`M = 32_000`). -/
theorem SSI_prescaler_invariants_witness :
    ∃ r2 p scr, SSIConfigSetExpClk cc2538Ssi SSI0_BASE 32000000 0 0 1000 8 zeroRegs = .ok r2 ∧
      preDivLoop preDivFuel (32000000 / 1000) 0 = .ok (p, scr) ∧
      r2 (SSI0_BASE + cc2538Ssi.SSI_O_CPSR) = p ∧
      (r2 (SSI0_BASE + cc2538Ssi.SSI_O_CR0) >>> 8) &&& 0xFF = scr ∧
      p % 2 = 0 ∧ 2 ≤ p ∧ p ≤ 254 ∧ 0 ≤ scr ∧ scr ≤ 255 :=
  SSI_prescaler_invariants cc2538Ssi (by decide) SSI0_BASE 32000000 0 0 1000 8 zeroRegs
    (by decide) (by decide) (by decide) (by decide) (by decide)

/-- C7 fails as stated: `f = 16_000_000`, `b = 10_000_000` has `b ≥ 1` and
`f/b = 1 ≤ 254*256`, but the search emits no pair: the quotient `1 / p` is 0 in every
iteration, `SCR` wraps to `0xFFFFFFFF`, and the loop ends only when `ui32PreDiv` has wrapped to
0 and is used as a divisor. -/
theorem SSI_prescaler_no_pair :
    1 ≤ 10000000 ∧ 16000000 / 10000000 ≤ 254 * 256 ∧
    preDivLoop preDivFuel (16000000 / 10000000) 0 = .error .divByZero ∧
    SSIConfigSetExpClk cc2538Ssi SSI0_BASE 16000000 0 0 10000000 8 zeroRegs
      = .error .divByZero := by
  have hloop : preDivLoop preDivFuel (16000000 / 10000000) 0 = .error .divByZero :=
    preDivLoop_small _ (by decide) preDivFuel 0 (by decide) (by decide)
      (by rw [preDivFuel_eq]; decide)
  refine ⟨by decide, by decide, hloop, ?_⟩
  simp only [SSIConfigSetExpClk, hloop]
  rfl

/-- C8: under the caller preconditions (`b ≥ 1`; `b ≤ f/2` in master mode, `b ≤ f/12` in the
slave modes; `M = f/b ≤ 254*256`) the prescaler loop of `SSIConfigSetExpClk` stops after `p/2`,
hence at most 127, iterations with `p ≤ 254`; in every iteration (every even `k` from 2 to `p`)
the quotient `M/k` is at least 1, so `SCR = M/k - 1` does not wrap and `k` is a non-zero
divisor below `2^32`; and the function returns. -/
theorem SSI_search_terminates (hw : SsiHw) (hd : hw.OffsetsDistinct)
    (base f proto mode b w : Nat) (r : Regs)
    (hb : 1 ≤ b)
    (hrate : (mode = hw.SSI_MODE_MASTER ∧ b ≤ f / 2) ∨
      (mode ≠ hw.SSI_MODE_MASTER ∧ b ≤ f / 12))
    (hM : f / b ≤ 254 * 256) :
    ∃ p scr, preDivLoop 127 (f / b) 0 = .ok (p, scr) ∧
      preDivLoop (p / 2) (f / b) 0 = .ok (p, scr) ∧ p / 2 ≤ 127 ∧ p ≤ 254 ∧
      (∀ k, 2 ≤ k → k ≤ p → k % 2 = 0 →
        1 ≤ (f / b) / k ∧ k ≠ 0 ∧ k < 2 ^ 32 ∧
        ((f / b) / k + (2 ^ 32 - 1)) % 2 ^ 32 = (f / b) / k - 1) ∧
      ∃ r2, SSIConfigSetExpClk hw base f proto mode b w r = .ok r2 ∧
        r2 (base + hw.SSI_O_CPSR) = p := by
  have h2b : 2 * b ≤ f := by
    rcases hrate with ⟨-, h⟩ | ⟨-, h⟩ <;> omega
  have hM2 : 2 ≤ f / b := (Nat.le_div_iff_mul_le (by omega)).mpr h2b
  obtain ⟨p, scr, h1, h2, h3, h4, h5, h6, h7, h8⟩ := preDivLoop_result (f / b) hM2 hM
  obtain ⟨r2, hr, hp, -⟩ := SSIConfigSetExpClk_returns hw hd base f proto mode b w r p scr
    (by omega) h8
  refine ⟨p, scr, h7 127 (by omega), h7 (p / 2) (le_refl _), by omega, h3, ?_, r2, hr, hp⟩
  intro k hk2 hkp hke
  have hq : 1 ≤ f / b / k := by
    rcases Nat.lt_or_ge k p with hlt | hge
    · have := h6 k (by omega) hlt hke; omega
    · have hkeq : k = p := by omega
      rw [hkeq]; omega
  have hqle : f / b / k ≤ f / b := Nat.div_le_self _ _
  exact ⟨hq, by omega, by omega, by omega⟩

/-- C8 in master mode at `f = 32_000_000`, `b = 1000` (`M = 32_000`, `p = 126`). -/
theorem SSI_search_terminates_witness :
    ∃ p scr, preDivLoop 127 (32000000 / 1000) 0 = .ok (p, scr) ∧
      preDivLoop (p / 2) (32000000 / 1000) 0 = .ok (p, scr) ∧ p / 2 ≤ 127 ∧ p ≤ 254 ∧
      (∀ k, 2 ≤ k → k ≤ p → k % 2 = 0 →
        1 ≤ (32000000 / 1000) / k ∧ k ≠ 0 ∧ k < 2 ^ 32 ∧
        ((32000000 / 1000) / k + (2 ^ 32 - 1)) % 2 ^ 32 = (32000000 / 1000) / k - 1) ∧
      ∃ r2, SSIConfigSetExpClk cc2538Ssi SSI0_BASE 32000000 0 0 1000 8 zeroRegs = .ok r2 ∧
        r2 (SSI0_BASE + cc2538Ssi.SSI_O_CPSR) = p :=
  SSI_search_terminates cc2538Ssi (by decide) SSI0_BASE 32000000 0 0 1000 8 zeroRegs
    (by decide) (by decide) (by decide)

/-- C9: when `b ≥ 1` divides `f` and `M = f/b` is even with `2 ≤ M ≤ 512`,
`SSIConfigSetExpClk` emits `p = 2` (in CPSR) and `SCR = M/2 - 1` (in CR0 bits 15:8), and the
effective bit rate `f / (p * (SCR + 1))` equals `b` exactly. -/
theorem SSI_exact_rate (hw : SsiHw) (hd : hw.OffsetsDistinct)
    (base f proto mode b w : Nat) (r : Regs)
    (hb : 1 ≤ b) (hdvd : b ∣ f) (heven : (f / b) % 2 = 0) (hM2 : 2 ≤ f / b)
    (hM : f / b ≤ 512) (hw4 : 4 ≤ w) (hw16 : w ≤ 16) :
    ∃ r2, SSIConfigSetExpClk hw base f proto mode b w r = .ok r2 ∧
      preDivLoop preDivFuel (f / b) 0 = .ok (2, (f / b) / 2 - 1) ∧
      r2 (base + hw.SSI_O_CPSR) = 2 ∧
      (r2 (base + hw.SSI_O_CR0) >>> 8) &&& 0xFF = (f / b) / 2 - 1 ∧
      f / (2 * (((f / b) / 2 - 1) + 1)) = b := by
  have hloop := preDivLoop_first (f / b) hM2 (by omega)
  obtain ⟨r2, hr, hp, hs⟩ := SSIConfigSetExpClk_emits hw hd base f proto mode b w r 2
    ((f / b) / 2 - 1) (by omega) hloop (by omega) hw4 hw16
  refine ⟨r2, hr, hloop, hp, hs, ?_⟩
  have hdiv : 2 * (((f / b) / 2 - 1) + 1) = f / b := by omega
  rw [hdiv]
  have hfpos : f ≠ 0 := by
    rintro rfl
    simp at hM2
  exact Nat.div_div_self hdvd hfpos

/-- C9, scenarios E3 and E4: `f = 16_000_000`, `b = 1_000_000` gives `p = 2`, `SCR = 7`, rate
1_000_000; `f = 32_000_000`, `b = 100_000` gives `p = 2`, `SCR = 159`, rate 100_000. -/
theorem SSI_exact_rate_witness :
    (∃ r2, SSIConfigSetExpClk cc2538Ssi SSI0_BASE 16000000 0 0 1000000 8 zeroRegs = .ok r2 ∧
      preDivLoop preDivFuel (16000000 / 1000000) 0 = .ok (2, 7) ∧
      r2 (SSI0_BASE + cc2538Ssi.SSI_O_CPSR) = 2 ∧
      (r2 (SSI0_BASE + cc2538Ssi.SSI_O_CR0) >>> 8) &&& 0xFF = 7 ∧
      16000000 / (2 * (7 + 1)) = 1000000) ∧
    (∃ r2, SSIConfigSetExpClk cc2538Ssi SSI0_BASE 32000000 0 0 100000 8 zeroRegs = .ok r2 ∧
      preDivLoop preDivFuel (32000000 / 100000) 0 = .ok (2, 159) ∧
      r2 (SSI0_BASE + cc2538Ssi.SSI_O_CPSR) = 2 ∧
      (r2 (SSI0_BASE + cc2538Ssi.SSI_O_CR0) >>> 8) &&& 0xFF = 159 ∧
      32000000 / (2 * (159 + 1)) = 100000) :=
  ⟨SSI_exact_rate cc2538Ssi (by decide) SSI0_BASE 16000000 0 0 1000000 8 zeroRegs
      (by decide) (by decide) (by decide) (by decide) (by decide) (by decide) (by decide),
   SSI_exact_rate cc2538Ssi (by decide) SSI0_BASE 32000000 0 0 100000 8 zeroRegs
      (by decide) (by decide) (by decide) (by decide) (by decide) (by decide) (by decide)⟩

/-- C10 (as amended): under the caller preconditions (`b ≥ 1`, `b ≤ f/2`, `f/b ≤ 254*256`),
with `p` the prescaler chosen by `SSIConfigSetExpClk`, the emitted `SCR` gives an effective rate
`f/(p*(SCR+1))` not below `b`, and it minimises the relative error `|f/(p*(s+1)) - b| / b`
over all candidates `s` in `[0, 255]` whose effective rate is not below `b`
(`p*(s+1)*b ≤ f`). -/
theorem SSI_error_minimal_from_above (hw : SsiHw) (hd : hw.OffsetsDistinct)
    (base f proto mode b w : Nat) (r : Regs)
    (hb : 1 ≤ b) (hrate : b ≤ f / 2) (hM : f / b ≤ 254 * 256) (hw4 : 4 ≤ w) (hw16 : w ≤ 16) :
    ∃ r2 p scr, SSIConfigSetExpClk hw base f proto mode b w r = .ok r2 ∧
      r2 (base + hw.SSI_O_CPSR) = p ∧
      (r2 (base + hw.SSI_O_CR0) >>> 8) &&& 0xFF = scr ∧
      p * (scr + 1) * b ≤ f ∧
      ∀ s : Nat, s ≤ 255 → p * (s + 1) * b ≤ f →
        |(f : ℚ) / ((p : ℚ) * ((scr : ℚ) + 1)) - (b : ℚ)| / (b : ℚ) ≤
        |(f : ℚ) / ((p : ℚ) * ((s : ℚ) + 1)) - (b : ℚ)| / (b : ℚ) := by
  have hbpos : 0 < b := hb
  have hM2 : 2 ≤ f / b := (Nat.le_div_iff_mul_le hbpos).mpr (by omega)
  obtain ⟨p, scr, -, h2, -, h4, h5, -, -, h8⟩ := preDivLoop_result (f / b) hM2 hM
  obtain ⟨r2, hr, hp, hs⟩ := SSIConfigSetExpClk_emits hw hd base f proto mode b w r p scr
    (by omega) h8 h5 hw4 hw16
  have hppos : 0 < p := by omega
  have hAM : p * (scr + 1) ≤ f / b := by
    rw [h4, Nat.mul_comm]; exact Nat.div_mul_le_self _ _
  have hAf : p * (scr + 1) * b ≤ f := (Nat.le_div_iff_mul_le hbpos).mp hAM
  refine ⟨r2, p, scr, hr, hp, hs, hAf, ?_⟩
  intro s _ hsf
  have hsM : p * (s + 1) ≤ f / b := (Nat.le_div_iff_mul_le hbpos).mpr hsf
  have hs1 : s + 1 ≤ scr + 1 := by
    rw [h4, Nat.le_div_iff_mul_le hppos, Nat.mul_comm]; exact hsM
  have hbQ : (0 : ℚ) < (b : ℚ) := by exact_mod_cast hbpos
  have hpQ : (0 : ℚ) < (p : ℚ) := by exact_mod_cast hppos
  have hA'pos : (0 : ℚ) < (p : ℚ) * ((s : ℚ) + 1) := by positivity
  have hApos : (0 : ℚ) < (p : ℚ) * ((scr : ℚ) + 1) := by positivity
  have hle : (p : ℚ) * ((s : ℚ) + 1) ≤ (p : ℚ) * ((scr : ℚ) + 1) := by
    have : ((s + 1 : ℕ) : ℚ) ≤ ((scr + 1 : ℕ) : ℚ) := by exact_mod_cast hs1
    push_cast at this
    exact mul_le_mul_of_nonneg_left this hpQ.le
  have hfA : (b : ℚ) ≤ (f : ℚ) / ((p : ℚ) * ((scr : ℚ) + 1)) := by
    rw [le_div_iff₀ hApos]
    have : ((p * (scr + 1) * b : ℕ) : ℚ) ≤ (f : ℚ) := by exact_mod_cast hAf
    push_cast at this
    linarith
  have hmono : (f : ℚ) / ((p : ℚ) * ((scr : ℚ) + 1)) ≤ (f : ℚ) / ((p : ℚ) * ((s : ℚ) + 1)) :=
    div_le_div_of_nonneg_left (by positivity) hA'pos hle
  rw [abs_of_nonneg (by linarith), abs_of_nonneg (by linarith)]
  exact div_le_div_of_nonneg_right (by linarith) hbQ.le

/-- C10 (amended) at `f = 16_000_000`, `b = 3_000_000`. -/
theorem SSI_error_minimal_from_above_witness :
    ∃ r2 p scr, SSIConfigSetExpClk cc2538Ssi SSI0_BASE 16000000 0 0 3000000 8 zeroRegs
        = .ok r2 ∧
      r2 (SSI0_BASE + cc2538Ssi.SSI_O_CPSR) = p ∧
      (r2 (SSI0_BASE + cc2538Ssi.SSI_O_CR0) >>> 8) &&& 0xFF = scr ∧
      p * (scr + 1) * 3000000 ≤ 16000000 ∧
      ∀ s : Nat, s ≤ 255 → p * (s + 1) * 3000000 ≤ 16000000 →
        |((16000000 : ℕ) : ℚ) / ((p : ℚ) * ((scr : ℚ) + 1)) - ((3000000 : ℕ) : ℚ)|
            / ((3000000 : ℕ) : ℚ) ≤
        |((16000000 : ℕ) : ℚ) / ((p : ℚ) * ((s : ℚ) + 1)) - ((3000000 : ℕ) : ℚ)|
            / ((3000000 : ℕ) : ℚ) :=
  SSI_error_minimal_from_above cc2538Ssi (by decide) SSI0_BASE 16000000 0 0 3000000 8 zeroRegs
    (by decide) (by decide) (by decide) (by decide) (by decide)

/-- C10 fails as stated: `f = 16_000_000`, `b = 3_000_000` meets the preconditions
(`b ≤ f/2`, `f/b = 5`); the search emits `p = 2`, `SCR = 1` (rate 4 MHz, relative error 1/3),
while the candidate 2 gives 2.67 MHz, relative error 1/9. -/
theorem SSI_error_not_minimal :
    1 ≤ 3000000 ∧ 3000000 ≤ 16000000 / 2 ∧ 16000000 / 3000000 ≤ 254 * 256 ∧
    preDivLoop preDivFuel (16000000 / 3000000) 0 = .ok (2, 1) ∧
    (∃ r2, SSIConfigSetExpClk cc2538Ssi SSI0_BASE 16000000 0 0 3000000 8 zeroRegs = .ok r2 ∧
      r2 (SSI0_BASE + cc2538Ssi.SSI_O_CPSR) = 2 ∧
      (r2 (SSI0_BASE + cc2538Ssi.SSI_O_CR0) >>> 8) &&& 0xFF = 1) ∧
    (2 : ℕ) ≤ 255 ∧
    |(16000000 : ℚ) / (2 * (2 + 1)) - 3000000| / 3000000 <
      |(16000000 : ℚ) / (2 * (1 + 1)) - 3000000| / 3000000 := by
  have hloop : preDivLoop preDivFuel (16000000 / 3000000) 0 = .ok (2, 1) :=
    preDivLoop_first (16000000 / 3000000) (by decide) (by decide)
  refine ⟨by decide, by decide, by decide, hloop, ?_, by decide, ?_⟩
  · exact SSIConfigSetExpClk_emits cc2538Ssi (by decide) SSI0_BASE 16000000 0 0 3000000 8
      zeroRegs 2 1 (by decide) hloop (by decide) (by decide) (by decide)
  · norm_num [abs_of_nonneg, abs_of_nonpos]

/-- C11: for every initial register file (so every initial LCRH value) and each of the five
parity constants `p`, after `UARTParityModeSet(p)` followed by any sequence of the calls that
edit other LCRH fields (`UARTFIFOEnable`, `UARTFIFODisable`, `UARTBreakCtl(true/false)`,
`UARTEnable`, and `UARTDisable` entered with `FR.BUSY` clear) the sequence returns and
`UARTParityModeGet` returns `p`. -/
theorem parity_survives_lcrh_edits (hw : UartHw) (hd : hw.OffsetsDistinct) (base p : Nat)
    (r : Regs) (ops : List LcrhEdit) (hp : p ∈ parityModes)
    (hbusy : LcrhEdit.disable ∈ ops → r (base + hw.UART_O_FR) &&& hw.UART_FR_BUSY = 0) :
    ∃ r1, runEdits hw base ops (UARTParityModeSet hw base p r) = .ok r1 ∧
      UARTParityModeGet hw base r1 = p := by
  obtain ⟨-, -, h3, -, -, -, -, -, -, -⟩ := hd.uart_config_regs
  have hfr : UARTParityModeSet hw base p r (base + hw.UART_O_FR) = r (base + hw.UART_O_FR) := by
    simp only [UARTParityModeSet, HWREG_set]
    rw [if_neg (by omega)]
  obtain ⟨r1, hrun, hpar⟩ := runEdits_keeps_parity hw hd base ops
    (UARTParityModeSet hw base p r) (fun hmem => by rw [hfr]; exact hbusy hmem)
  exact ⟨r1, hrun, by rw [hpar, UARTParityModeGet_set hw base p r hp]⟩

/-- C11 from an LCRH of `0x7F` with stick-one parity and all six edits in a row. -/
theorem parity_survives_lcrh_edits_witness :
    ∃ r1, runEdits cc2538Uart UART0_BASE
        [.fifoEnable, .breakCtl true, .disable, .enable, .fifoDisable, .breakCtl false]
        (UARTParityModeSet cc2538Uart UART0_BASE UART_CONFIG_PAR_ONE
          (HWREG_set zeroRegs (UART0_BASE + cc2538Uart.UART_O_LCRH) 0x7F)) = .ok r1 ∧
      UARTParityModeGet cc2538Uart UART0_BASE r1 = UART_CONFIG_PAR_ONE :=
  parity_survives_lcrh_edits cc2538Uart (by decide) UART0_BASE UART_CONFIG_PAR_ONE
    (HWREG_set zeroRegs (UART0_BASE + cc2538Uart.UART_O_LCRH) 0x7F)
    [.fifoEnable, .breakCtl true, .disable, .enable, .fifoDisable, .breakCtl false]
    (by decide) (fun _ => by decide)

/-- C12: `UARTParityModeSet` is a read-modify-write that touches only the parity bits: for
every initial LCRH value `L` and each of the five parity constants `p` the new LCRH is
`(L with bits 7, 2, 1 cleared) OR p`; bit by bit, positions 7, 2 and 1 hold the bits of `p` and
every other position holds the bit of `L`, so the word-length bits 6:5, the FIFO-enable bit 4,
the stop bit 3 and the break bit 0 are unchanged; and no register other than LCRH changes. -/
theorem UARTParityModeSet_frame (hw : UartHw) (base p : Nat) (r : Regs)
    (hp : p ∈ parityModes) :
    UARTParityModeSet hw base p r (base + hw.UART_O_LCRH) =
      (r (base + hw.UART_O_LCRH) &&& not32 (UART_LCRH_SPS ||| UART_LCRH_EPS ||| UART_LCRH_PEN))
        ||| p ∧
    (∀ i, i < 32 →
      (UARTParityModeSet hw base p r (base + hw.UART_O_LCRH)).testBit i =
        if i = 7 ∨ i = 2 ∨ i = 1 then p.testBit i
        else (r (base + hw.UART_O_LCRH)).testBit i) ∧
    UARTParityModeSet hw base p r (base + hw.UART_O_LCRH) &&& UART_LCRH_WLEN_M
      = r (base + hw.UART_O_LCRH) &&& UART_LCRH_WLEN_M ∧
    UARTParityModeSet hw base p r (base + hw.UART_O_LCRH) &&& UART_LCRH_FEN
      = r (base + hw.UART_O_LCRH) &&& UART_LCRH_FEN ∧
    UARTParityModeSet hw base p r (base + hw.UART_O_LCRH) &&& UART_LCRH_STP2
      = r (base + hw.UART_O_LCRH) &&& UART_LCRH_STP2 ∧
    UARTParityModeSet hw base p r (base + hw.UART_O_LCRH) &&& UART_LCRH_BRK
      = r (base + hw.UART_O_LCRH) &&& UART_LCRH_BRK ∧
    ∀ a, a ≠ base + hw.UART_O_LCRH → UARTParityModeSet hw base p r a = r a := by
  have hnew : UARTParityModeSet hw base p r (base + hw.UART_O_LCRH) =
      (r (base + hw.UART_O_LCRH) &&& not32 (UART_LCRH_SPS ||| UART_LCRH_EPS ||| UART_LCRH_PEN))
        ||| p := by
    simp only [UARTParityModeSet, HWREG, HWREG_set_same]
  simp only [parityModes, List.mem_cons, List.mem_singleton, List.not_mem_nil, or_false] at hp
  have hfield : ∀ k, k < 2 ^ 32 → p &&& k = 0 →
      (UART_LCRH_SPS ||| UART_LCRH_EPS ||| UART_LCRH_PEN) &&& k = 0 →
      UARTParityModeSet hw base p r (base + hw.UART_O_LCRH) &&& k
        = r (base + hw.UART_O_LCRH) &&& k := by
    intro k hk hpk hmk
    rw [hnew, or_and_of_disjoint _ _ _ hpk]
    exact and_not32_and_of_disjoint _ _ _ (by decide) hk hmk
  refine ⟨hnew, ?_, ?_, ?_, ?_, ?_, ?_⟩
  · intro i hi
    rw [hnew]
    simp only [Nat.testBit_or, Nat.testBit_and,
      testBit_not32 (UART_LCRH_SPS ||| UART_LCRH_EPS ||| UART_LCRH_PEN) i (by decide), hi,
      decide_True, Bool.true_and]
    generalize (r (base + hw.UART_O_LCRH)).testBit i = t
    rcases hp with rfl | rfl | rfl | rfl | rfl <;> interval_cases i <;> cases t <;> decide
  · exact hfield _ (by decide) (by rcases hp with rfl | rfl | rfl | rfl | rfl <;> decide)
      (by decide)
  · exact hfield _ (by decide) (by rcases hp with rfl | rfl | rfl | rfl | rfl <;> decide)
      (by decide)
  · exact hfield _ (by decide) (by rcases hp with rfl | rfl | rfl | rfl | rfl <;> decide)
      (by decide)
  · exact hfield _ (by decide) (by rcases hp with rfl | rfl | rfl | rfl | rfl <;> decide)
      (by decide)
  · intro a ha
    simp only [UARTParityModeSet, HWREG_set, if_neg ha]

/-- C12 from `LCRH = 0xFF` with odd parity: the new value is `0x7B`. -/
theorem UARTParityModeSet_frame_witness :
    UARTParityModeSet cc2538Uart UART0_BASE UART_CONFIG_PAR_ODD
        (HWREG_set zeroRegs (UART0_BASE + cc2538Uart.UART_O_LCRH) 0xFF)
        (UART0_BASE + cc2538Uart.UART_O_LCRH) = 0x7B :=
  (UARTParityModeSet_frame cc2538Uart UART0_BASE UART_CONFIG_PAR_ODD
    (HWREG_set zeroRegs (UART0_BASE + cc2538Uart.UART_O_LCRH) 0xFF) (by decide)).1

/-- C13: on a register file whose flags register reports transmit-FIFO-empty and not busy (so
that both wait loops exit), `UART9BitAddrSend(base, x)` returns and the LCRH register equals its
value before the call; the address byte is in DR and no other register has changed. -/
theorem UART9BitAddrSend_restores_LCRH (hw : UartHw) (hd : hw.OffsetsDistinct)
    (base x : Nat) (r : Regs)
    (hidle : r (base + hw.UART_O_FR) &&& (hw.UART_FR_TXFE ||| hw.UART_FR_BUSY)
      = hw.UART_FR_TXFE) :
    ∃ r1, UART9BitAddrSend hw base x r = .ok r1 ∧
      r1 (base + hw.UART_O_LCRH) = r (base + hw.UART_O_LCRH) ∧
      r1 (base + hw.UART_O_DR) = x ∧
      ∀ a, a ≠ base + hw.UART_O_DR → r1 a = r a := by
  obtain ⟨-, -, h3, -, -, -, -, -, -, -⟩ := hd.uart_config_regs
  obtain ⟨-, hdf, hdl, -⟩ := hd.uart_data_reg
  have hfl : base + hw.UART_O_FR ≠ base + hw.UART_O_LCRH := by omega
  have hfd : base + hw.UART_O_FR ≠ base + hw.UART_O_DR := by omega
  have hdl2 : base + hw.UART_O_DR ≠ base + hw.UART_O_LCRH := by omega
  have hsecond : HWREG (addrSendForced hw base x r) (base + hw.UART_O_FR)
      = r (base + hw.UART_O_FR) := by
    simp only [addrSendForced, HWREG, HWREG_set, if_neg hfl, if_neg hfd]
  have hret : UART9BitAddrSend hw base x r = .ok (HWREG_set (addrSendForced hw base x r)
      (base + hw.UART_O_LCRH) (r (base + hw.UART_O_LCRH))) := by
    have hunf : UART9BitAddrSend hw base x r =
        if HWREG r (base + hw.UART_O_FR) &&& (hw.UART_FR_TXFE ||| hw.UART_FR_BUSY)
            ≠ hw.UART_FR_TXFE then .error .hang
        else if HWREG (addrSendForced hw base x r) (base + hw.UART_O_FR) &&&
            (hw.UART_FR_TXFE ||| hw.UART_FR_BUSY) ≠ hw.UART_FR_TXFE then .error .hang
        else .ok (HWREG_set (addrSendForced hw base x r) (base + hw.UART_O_LCRH)
          (HWREG r (base + hw.UART_O_LCRH))) := rfl
    rw [hunf, hsecond]
    simp only [HWREG, hidle, ne_eq, not_true_eq_false, if_false]
  refine ⟨_, hret, ?_, ?_, ?_⟩
  · simp only [HWREG_set, if_true]
  · simp only [addrSendForced, HWREG_set, if_neg hdl2, if_true]
  · intro a ha
    simp only [addrSendForced, HWREG_set, HWREG, if_neg ha]
    split_ifs with h1
    · rw [h1]
    · rfl

/-- C13 from `LCRH = 0x7E` (8 data bits, FIFO on, two stop bits, even parity) with the
transmitter idle, sending the address `0xA5`. -/
theorem UART9BitAddrSend_restores_LCRH_witness :
    ∃ r1, UART9BitAddrSend cc2538Uart UART0_BASE 0xA5
        (HWREG_set (HWREG_set zeroRegs (UART0_BASE + cc2538Uart.UART_O_FR)
          cc2538Uart.UART_FR_TXFE) (UART0_BASE + cc2538Uart.UART_O_LCRH) 0x7E) = .ok r1 ∧
      r1 (UART0_BASE + cc2538Uart.UART_O_LCRH) = 0x7E ∧
      r1 (UART0_BASE + cc2538Uart.UART_O_DR) = 0xA5 := by
  obtain ⟨r1, h, hl, hdr, -⟩ := UART9BitAddrSend_restores_LCRH cc2538Uart (by decide)
    UART0_BASE 0xA5 (HWREG_set (HWREG_set zeroRegs (UART0_BASE + cc2538Uart.UART_O_FR)
      cc2538Uart.UART_FR_TXFE) (UART0_BASE + cc2538Uart.UART_O_LCRH) 0x7E) (by decide)
  exact ⟨r1, h, hl, hdr⟩

/-- C14: for every protocol word (so for every valid protocol constant), data width `w` in
4..16 and clock/bit-rate pair meeting the caller preconditions, `SSIConfigSetExpClk` returns
with a search result `SCR ≤ 255` and writes
`CR0 = (SCR << 8) | ((protocol & 3) << 6) | (protocol & 0x30) | (w - 1)`; the four fields sit in
the disjoint bit ranges 15:8, 7:6, 5:4 and 3:0, so each is recovered unchanged by mask and
shift, and `CR0 < 2^16`. -/
theorem SSI_CR0_assembly (hw : SsiHw) (hd : hw.OffsetsDistinct)
    (base f proto mode b w : Nat) (r : Regs)
    (hb : 1 ≤ b) (hM2 : 2 ≤ f / b) (hM : f / b ≤ 254 * 256) (hw4 : 4 ≤ w) (hw16 : w ≤ 16) :
    ∃ r2 p scr, SSIConfigSetExpClk hw base f proto mode b w r = .ok r2 ∧
      preDivLoop preDivFuel (f / b) 0 = .ok (p, scr) ∧ scr ≤ 255 ∧
      r2 (base + hw.SSI_O_CR0) =
        (scr <<< 8) ||| ((proto &&& 3) <<< 6) ||| (proto &&& 0x30) ||| (w - 1) ∧
      (r2 (base + hw.SSI_O_CR0) >>> 8) &&& 0xFF = scr ∧
      (r2 (base + hw.SSI_O_CR0) >>> 6) &&& 3 = proto &&& 3 ∧
      r2 (base + hw.SSI_O_CR0) &&& SSI_CR0_FRF_M = proto &&& 0x30 ∧
      r2 (base + hw.SSI_O_CR0) &&& SSI_CR0_DSS_M = w - 1 ∧
      r2 (base + hw.SSI_O_CR0) < 2 ^ 16 := by
  obtain ⟨p, scr, -, -, -, -, h5, -, -, h8⟩ := preDivLoop_result (f / b) hM2 hM
  obtain ⟨r2, hr, -, hc⟩ := SSIConfigSetExpClk_returns hw hd base f proto mode b w r p scr
    (by omega) h8
  obtain ⟨hf1, hf2, hf3, hf4⟩ := cr0_low_fields proto w hw4 hw16
  have hs : (scr <<< 8) % 2 ^ 32 = scr <<< 8 := by
    rw [Nat.shiftLeft_eq]; omega
  have h3 : proto &&& 3 < 4 := Nat.and_lt_two_pow _ (by norm_num : 3 < 2 ^ 2)
  have hsp : ((proto &&& 3) <<< 6) % 2 ^ 32 = (proto &&& 3) <<< 6 := by
    rw [Nat.shiftLeft_eq]; omega
  have hwd : (w + (2 ^ 32 - 1)) % 2 ^ 32 = w - 1 := by omega
  have hfrf : SSI_CR0_FRF_M = 0x30 := rfl
  rw [hs, hsp, hwd, hfrf] at hc
  have hassoc : r2 (base + hw.SSI_O_CR0) =
      (scr <<< 8) ||| (((proto &&& 3) <<< 6) ||| (proto &&& SSI_CR0_FRF_M) ||| (w - 1)) := by
    rw [hc, hfrf, Nat.lor_assoc, Nat.lor_assoc, ← Nat.lor_assoc ((proto &&& 3) <<< 6)]
  refine ⟨r2, p, scr, hr, h8, h5, hc, ?_, ?_, ?_, ?_, ?_⟩
  · rw [hassoc]; exact shl8_or_field scr _ h5 hf4
  · rw [hassoc, shl8_or_shr6]; exact hf1
  · rw [hassoc, shl8_or_low _ _ _ (by decide)]; exact hf2
  · rw [hassoc, shl8_or_low _ _ _ (by decide)]; exact hf3
  · rw [hassoc]
    have hA : scr <<< 8 < 2 ^ 16 := by rw [Nat.shiftLeft_eq]; omega
    exact Nat.or_lt_two_pow hA (by omega)

/-- C14, Motorola mode 3 (protocol word 3), 8 data bits, `f = 16_000_000`,
`b = 1_000_000`. -/
theorem SSI_CR0_assembly_witness :
    ∃ r2 p scr, SSIConfigSetExpClk cc2538Ssi SSI0_BASE 16000000 3 0 1000000 8 zeroRegs = .ok r2 ∧
      preDivLoop preDivFuel (16000000 / 1000000) 0 = .ok (p, scr) ∧ scr ≤ 255 ∧
      r2 (SSI0_BASE + cc2538Ssi.SSI_O_CR0) =
        (scr <<< 8) ||| ((3 &&& 3) <<< 6) ||| (3 &&& 0x30) ||| (8 - 1) ∧
      (r2 (SSI0_BASE + cc2538Ssi.SSI_O_CR0) >>> 8) &&& 0xFF = scr ∧
      (r2 (SSI0_BASE + cc2538Ssi.SSI_O_CR0) >>> 6) &&& 3 = 3 &&& 3 ∧
      r2 (SSI0_BASE + cc2538Ssi.SSI_O_CR0) &&& SSI_CR0_FRF_M = 3 &&& 0x30 ∧
      r2 (SSI0_BASE + cc2538Ssi.SSI_O_CR0) &&& SSI_CR0_DSS_M = 8 - 1 ∧
      r2 (SSI0_BASE + cc2538Ssi.SSI_O_CR0) < 2 ^ 16 :=
  SSI_CR0_assembly cc2538Ssi (by decide) SSI0_BASE 16000000 3 0 1000000 8 zeroRegs
    (by decide) (by decide) (by decide) (by decide) (by decide)

/-- C15: `SSIConfigSetExpClk` overwrites CR1 with exactly 0 for `SSI_MODE_MASTER`, exactly the
MS bit (bit 2) for `SSI_MODE_SLAVE` and exactly `MS | SOD` (bits 2 and 3) for
`SSI_MODE_SLAVE_OD`; the enable bit SSE (bit 1) is clear after every configuration, and a
following `SSIEnable` sets SSE and keeps the MS/SOD bits. -/
theorem SSI_mode_selection (hw : SsiHw) (hd : hw.OffsetsDistinct)
    (hms : hw.SSI_MODE_MASTER ≠ hw.SSI_MODE_SLAVE)
    (hmo : hw.SSI_MODE_MASTER ≠ hw.SSI_MODE_SLAVE_OD)
    (hso : hw.SSI_MODE_SLAVE ≠ hw.SSI_MODE_SLAVE_OD)
    (base f proto mode b w : Nat) (r : Regs)
    (hb : 1 ≤ b) (hM2 : 2 ≤ f / b) (hM : f / b ≤ 254 * 256) :
    ∃ r2, SSIConfigSetExpClk hw base f proto mode b w r = .ok r2 ∧
      (mode = hw.SSI_MODE_MASTER → r2 (base + hw.SSI_O_CR1) = 0) ∧
      (mode = hw.SSI_MODE_SLAVE → r2 (base + hw.SSI_O_CR1) = SSI_CR1_MS) ∧
      (mode = hw.SSI_MODE_SLAVE_OD → r2 (base + hw.SSI_O_CR1) = SSI_CR1_MS ||| SSI_CR1_SOD) ∧
      r2 (base + hw.SSI_O_CR1) &&& SSI_CR1_SSE = 0 ∧
      SSIEnable hw base r2 (base + hw.SSI_O_CR1) = r2 (base + hw.SSI_O_CR1) ||| SSI_CR1_SSE ∧
      SSIEnable hw base r2 (base + hw.SSI_O_CR1) &&& SSI_CR1_SSE = SSI_CR1_SSE ∧
      SSIEnable hw base r2 (base + hw.SSI_O_CR1) &&& (SSI_CR1_MS ||| SSI_CR1_SOD)
        = r2 (base + hw.SSI_O_CR1) ∧
      ∀ a, a ≠ base + hw.SSI_O_CR1 → SSIEnable hw base r2 a = r2 a := by
  obtain ⟨p, scr, -, -, -, -, -, -, -, h8⟩ := preDivLoop_result (f / b) hM2 hM
  obtain ⟨r2, hr, hc⟩ := SSIConfigSetExpClk_cr1 hw hd base f proto mode b w r p scr
    (by omega) h8
  have hen : SSIEnable hw base r2 (base + hw.SSI_O_CR1)
      = r2 (base + hw.SSI_O_CR1) ||| SSI_CR1_SSE := by
    simp only [SSIEnable, HWREG, HWREG_set_same]
  refine ⟨r2, hr, ?_, ?_, ?_, ?_, hen, ?_, ?_, ?_⟩
  · intro h
    rw [hc, h, if_neg hmo, if_pos rfl]; rfl
  · intro h
    rw [hc, h, if_neg hso, if_neg (Ne.symm hms)]; rfl
  · intro h
    rw [hc, h, if_pos rfl, if_neg (Ne.symm hmo)]; rfl
  · rw [hc]; split_ifs <;> decide
  · rw [hen]; exact or_and_self _ _
  · rw [hen, hc]; split_ifs <;> decide
  · intro a ha
    simp only [SSIEnable, HWREG_set, if_neg ha]

/-- C15 for the slave mode with output disabled at `f = 16_000_000`, `b = 1_000_000`. -/
theorem SSI_mode_selection_witness :
    ∃ r2, SSIConfigSetExpClk cc2538Ssi SSI0_BASE 16000000 0 cc2538Ssi.SSI_MODE_SLAVE_OD
        1000000 8 zeroRegs = .ok r2 ∧
      r2 (SSI0_BASE + cc2538Ssi.SSI_O_CR1) = SSI_CR1_MS ||| SSI_CR1_SOD ∧
      r2 (SSI0_BASE + cc2538Ssi.SSI_O_CR1) &&& SSI_CR1_SSE = 0 ∧
      SSIEnable cc2538Ssi SSI0_BASE r2 (SSI0_BASE + cc2538Ssi.SSI_O_CR1) &&& SSI_CR1_SSE
        = SSI_CR1_SSE := by
  obtain ⟨r2, hr, -, -, h3, h4, -, h6, -, -⟩ := SSI_mode_selection cc2538Ssi (by decide)
    (by decide) (by decide) (by decide) SSI0_BASE 16000000 0 cc2538Ssi.SSI_MODE_SLAVE_OD
    1000000 8 zeroRegs (by decide) (by decide) (by decide)
  exact ⟨r2, hr, h3 rfl, h4, h6⟩

/-- C16: `UARTCharGetNonBlocking` returns -1 and changes no register when the
receive-FIFO-empty flag `FR.RXFE` is set; when RXFE is clear it returns the value of the data
register DR (as an `int32_t`), again changing no register of the model.  It takes the read
branch exactly when `UARTCharsAvail` returns true, and whenever DR holds a value below `2^31`
the result is that value and -1 is returned only for no character available. -/
theorem UARTCharGetNonBlocking_result (hw : UartHw) (base : Nat) (r : Regs) :
    (r (base + hw.UART_O_FR) &&& hw.UART_FR_RXFE ≠ 0 →
      UARTCharGetNonBlocking hw base r = (r, -1)) ∧
    (r (base + hw.UART_O_FR) &&& hw.UART_FR_RXFE = 0 →
      UARTCharGetNonBlocking hw base r = (r, toInt32 (r (base + hw.UART_O_DR)))) ∧
    (UARTCharsAvail hw base r = true ↔ r (base + hw.UART_O_FR) &&& hw.UART_FR_RXFE = 0) ∧
    (r (base + hw.UART_O_DR) < 2 ^ 31 →
      (r (base + hw.UART_O_FR) &&& hw.UART_FR_RXFE = 0 →
        (UARTCharGetNonBlocking hw base r).2 = (r (base + hw.UART_O_DR) : Int)) ∧
      ((UARTCharGetNonBlocking hw base r).2 = -1 ↔
        r (base + hw.UART_O_FR) &&& hw.UART_FR_RXFE ≠ 0)) := by
  have hset : r (base + hw.UART_O_FR) &&& hw.UART_FR_RXFE ≠ 0 →
      UARTCharGetNonBlocking hw base r = (r, -1) := by
    intro h
    simp only [UARTCharGetNonBlocking, HWREG, h, not_true_eq_false, ne_eq, not_false_eq_true,
      if_false]
  have hclr : r (base + hw.UART_O_FR) &&& hw.UART_FR_RXFE = 0 →
      UARTCharGetNonBlocking hw base r = (r, toInt32 (r (base + hw.UART_O_DR))) := by
    intro h
    simp only [UARTCharGetNonBlocking, HWREG, h, ne_eq, not_true_eq_false, not_false_eq_true,
      if_true]
  have havail : UARTCharsAvail hw base r = true ↔
      r (base + hw.UART_O_FR) &&& hw.UART_FR_RXFE = 0 := by
    by_cases h : r (base + hw.UART_O_FR) &&& hw.UART_FR_RXFE = 0
    · simp [UARTCharsAvail, HWREG, h]
    · simp [UARTCharsAvail, HWREG, h]
  refine ⟨hset, hclr, havail, ?_⟩
  · intro hdr
    have hconv := toInt32_of_lt _ hdr
    refine ⟨fun h => by rw [hclr h, hconv], ?_⟩
    constructor
    · intro hres
      intro h
      rw [hclr h, hconv] at hres
      simp only at hres
      omega
    · intro h
      rw [hset h]

/-- C16 with a character `0x41` in DR: with RXFE clear the result is `0x41`, with RXFE set it
is -1. -/
theorem UARTCharGetNonBlocking_result_witness :
    UARTCharGetNonBlocking cc2538Uart UART0_BASE
        (HWREG_set zeroRegs (UART0_BASE + cc2538Uart.UART_O_DR) 0x41)
      = (HWREG_set zeroRegs (UART0_BASE + cc2538Uart.UART_O_DR) 0x41,
          toInt32 (HWREG_set zeroRegs (UART0_BASE + cc2538Uart.UART_O_DR) 0x41
            (UART0_BASE + cc2538Uart.UART_O_DR))) ∧
    UARTCharGetNonBlocking cc2538Uart UART0_BASE
        (HWREG_set (HWREG_set zeroRegs (UART0_BASE + cc2538Uart.UART_O_DR) 0x41)
          (UART0_BASE + cc2538Uart.UART_O_FR) cc2538Uart.UART_FR_RXFE)
      = (HWREG_set (HWREG_set zeroRegs (UART0_BASE + cc2538Uart.UART_O_DR) 0x41)
          (UART0_BASE + cc2538Uart.UART_O_FR) cc2538Uart.UART_FR_RXFE, -1) :=
  ⟨(UARTCharGetNonBlocking_result cc2538Uart UART0_BASE
      (HWREG_set zeroRegs (UART0_BASE + cc2538Uart.UART_O_DR) 0x41)).2.1 (by decide),
   (UARTCharGetNonBlocking_result cc2538Uart UART0_BASE
      (HWREG_set (HWREG_set zeroRegs (UART0_BASE + cc2538Uart.UART_O_DR) 0x41)
        (UART0_BASE + cc2538Uart.UART_O_FR) cc2538Uart.UART_FR_RXFE)).1 (by decide)⟩

/-- C17: `UARTCharPutNonBlocking(base, c)` returns true exactly when the transmit-FIFO-full
flag `FR.TXFF` is clear, that is exactly when `UARTSpaceAvail` returns true; in that case DR is
written with `c` and no other register changes, and when it returns false the whole register
file is unchanged. -/
theorem UARTCharPutNonBlocking_result (hw : UartHw) (base c : Nat) (r : Regs) :
    ((UARTCharPutNonBlocking hw base c r).2 = true ↔
      r (base + hw.UART_O_FR) &&& hw.UART_FR_TXFF = 0) ∧
    ((UARTCharPutNonBlocking hw base c r).2 = true ↔ UARTSpaceAvail hw base r = true) ∧
    ((UARTCharPutNonBlocking hw base c r).2 = true →
      (UARTCharPutNonBlocking hw base c r).1 (base + hw.UART_O_DR) = c ∧
      ∀ a, a ≠ base + hw.UART_O_DR → (UARTCharPutNonBlocking hw base c r).1 a = r a) ∧
    ((UARTCharPutNonBlocking hw base c r).2 = false →
      (UARTCharPutNonBlocking hw base c r).1 = r) := by
  by_cases h : r (base + hw.UART_O_FR) &&& hw.UART_FR_TXFF = 0
  · have hres : UARTCharPutNonBlocking hw base c r
        = (HWREG_set r (base + hw.UART_O_DR) c, true) := by
      simp only [UARTCharPutNonBlocking, HWREG, h, ne_eq, not_true_eq_false,
        not_false_eq_true, if_true]
    have hsp : UARTSpaceAvail hw base r = true := by
      simp [UARTSpaceAvail, HWREG, h]
    rw [hres]
    refine ⟨by simp [h], by simp [hsp], fun _ => ⟨HWREG_set_same _ _ _, ?_⟩, by simp⟩
    intro a ha
    exact HWREG_set_other _ _ _ _ ha
  · have hres : UARTCharPutNonBlocking hw base c r = (r, false) := by
      simp only [UARTCharPutNonBlocking, HWREG, h, ne_eq, not_false_eq_true,
        not_true_eq_false, if_false]
    have hsp : UARTSpaceAvail hw base r = false := by
      simp [UARTSpaceAvail, HWREG, h]
    rw [hres]
    refine ⟨by simp [h], by simp [hsp], by simp, fun _ => rfl⟩

/-- C17 on the all-zero register file (TXFF clear): the call returns true and DR holds the
character `0x41`. -/
theorem UARTCharPutNonBlocking_result_witness :
    (UARTCharPutNonBlocking cc2538Uart UART0_BASE 0x41 zeroRegs).2 = true ∧
    (UARTCharPutNonBlocking cc2538Uart UART0_BASE 0x41 zeroRegs).1
      (UART0_BASE + cc2538Uart.UART_O_DR) = 0x41 :=
  ⟨(UARTCharPutNonBlocking_result cc2538Uart UART0_BASE 0x41 zeroRegs).1.mpr (by decide),
   ((UARTCharPutNonBlocking_result cc2538Uart UART0_BASE 0x41 zeroRegs).2.2.1
      ((UARTCharPutNonBlocking_result cc2538Uart UART0_BASE 0x41 zeroRegs).1.mpr
        (by decide))).1⟩

/-- C18: SSI non-blocking I/O returns the number of elements transferred, 0 or 1.
`SSIDataPutNonBlocking` returns 1 and writes DR (and nothing else) exactly when the status flag
`SR.TNF` is set, otherwise it returns 0 with the register file unchanged;
`SSIDataGetNonBlocking` returns 1 and stores DR into the output exactly when `SR.RNE` is set,
otherwise it returns 0 and leaves the output location as it was. -/
theorem SSI_nonblocking_io (hw : SsiHw) (base d out : Nat) (r : Regs) :
    (r (base + hw.SSI_O_SR) &&& hw.SSI_SR_TNF ≠ 0 →
      SSIDataPutNonBlocking hw base d r = (HWREG_set r (base + hw.SSI_O_DR) d, 1)) ∧
    (r (base + hw.SSI_O_SR) &&& hw.SSI_SR_TNF = 0 →
      SSIDataPutNonBlocking hw base d r = (r, 0)) ∧
    ((SSIDataPutNonBlocking hw base d r).2 = 1 ↔
      r (base + hw.SSI_O_SR) &&& hw.SSI_SR_TNF ≠ 0) ∧
    ((SSIDataPutNonBlocking hw base d r).2 = 0 ∨ (SSIDataPutNonBlocking hw base d r).2 = 1) ∧
    (HWREG_set r (base + hw.SSI_O_DR) d (base + hw.SSI_O_DR) = d ∧
      ∀ a, a ≠ base + hw.SSI_O_DR → HWREG_set r (base + hw.SSI_O_DR) d a = r a) ∧
    (r (base + hw.SSI_O_SR) &&& hw.SSI_SR_RNE ≠ 0 →
      SSIDataGetNonBlocking hw base r out = (r, r (base + hw.SSI_O_DR), 1)) ∧
    (r (base + hw.SSI_O_SR) &&& hw.SSI_SR_RNE = 0 →
      SSIDataGetNonBlocking hw base r out = (r, out, 0)) ∧
    ((SSIDataGetNonBlocking hw base r out).2.2 = 1 ↔
      r (base + hw.SSI_O_SR) &&& hw.SSI_SR_RNE ≠ 0) ∧
    ((SSIDataGetNonBlocking hw base r out).2.2 = 0 ∨
      (SSIDataGetNonBlocking hw base r out).2.2 = 1) := by
  have hp1 : r (base + hw.SSI_O_SR) &&& hw.SSI_SR_TNF ≠ 0 →
      SSIDataPutNonBlocking hw base d r = (HWREG_set r (base + hw.SSI_O_DR) d, 1) := by
    intro h
    simp only [SSIDataPutNonBlocking, HWREG, ne_eq, h, not_false_eq_true, if_true]
  have hp0 : r (base + hw.SSI_O_SR) &&& hw.SSI_SR_TNF = 0 →
      SSIDataPutNonBlocking hw base d r = (r, 0) := by
    intro h
    simp only [SSIDataPutNonBlocking, HWREG, ne_eq, h, not_true_eq_false, if_false]
  have hg1 : r (base + hw.SSI_O_SR) &&& hw.SSI_SR_RNE ≠ 0 →
      SSIDataGetNonBlocking hw base r out = (r, r (base + hw.SSI_O_DR), 1) := by
    intro h
    simp only [SSIDataGetNonBlocking, HWREG, ne_eq, h, not_false_eq_true, if_true]
  have hg0 : r (base + hw.SSI_O_SR) &&& hw.SSI_SR_RNE = 0 →
      SSIDataGetNonBlocking hw base r out = (r, out, 0) := by
    intro h
    simp only [SSIDataGetNonBlocking, HWREG, ne_eq, h, not_true_eq_false, if_false]
  refine ⟨hp1, hp0, ?_, ?_, ⟨HWREG_set_same _ _ _, fun a ha => HWREG_set_other _ _ _ _ ha⟩,
    hg1, hg0, ?_, ?_⟩
  · by_cases h : r (base + hw.SSI_O_SR) &&& hw.SSI_SR_TNF = 0
    · rw [hp0 h]; simp [h]
    · rw [hp1 h]; simp [h]
  · by_cases h : r (base + hw.SSI_O_SR) &&& hw.SSI_SR_TNF = 0
    · rw [hp0 h]; simp
    · rw [hp1 h]; simp
  · by_cases h : r (base + hw.SSI_O_SR) &&& hw.SSI_SR_RNE = 0
    · rw [hg0 h]; simp [h]
    · rw [hg1 h]; simp [h]
  · by_cases h : r (base + hw.SSI_O_SR) &&& hw.SSI_SR_RNE = 0
    · rw [hg0 h]; simp
    · rw [hg1 h]; simp

/-- C18 with `SR = TNF | RNE` and `DR = 0x5A`: the put of `0x3C` returns 1 with DR written, the
get returns 1 with the output holding `0x5A`; on the all-zero register file both return 0 and
the output keeps its old content 7. -/
theorem SSI_nonblocking_io_witness :
    SSIDataPutNonBlocking cc2538Ssi SSI0_BASE 0x3C
        (HWREG_set (HWREG_set zeroRegs (SSI0_BASE + cc2538Ssi.SSI_O_DR) 0x5A)
          (SSI0_BASE + cc2538Ssi.SSI_O_SR) 0x06)
      = (HWREG_set (HWREG_set (HWREG_set zeroRegs (SSI0_BASE + cc2538Ssi.SSI_O_DR) 0x5A)
          (SSI0_BASE + cc2538Ssi.SSI_O_SR) 0x06) (SSI0_BASE + cc2538Ssi.SSI_O_DR) 0x3C, 1) ∧
    SSIDataGetNonBlocking cc2538Ssi SSI0_BASE
        (HWREG_set (HWREG_set zeroRegs (SSI0_BASE + cc2538Ssi.SSI_O_DR) 0x5A)
          (SSI0_BASE + cc2538Ssi.SSI_O_SR) 0x06) 7
      = (HWREG_set (HWREG_set zeroRegs (SSI0_BASE + cc2538Ssi.SSI_O_DR) 0x5A)
          (SSI0_BASE + cc2538Ssi.SSI_O_SR) 0x06, 0x5A, 1) ∧
    SSIDataPutNonBlocking cc2538Ssi SSI0_BASE 0x3C zeroRegs = (zeroRegs, 0) ∧
    SSIDataGetNonBlocking cc2538Ssi SSI0_BASE zeroRegs 7 = (zeroRegs, 7, 0) :=
  ⟨(SSI_nonblocking_io cc2538Ssi SSI0_BASE 0x3C 7
      (HWREG_set (HWREG_set zeroRegs (SSI0_BASE + cc2538Ssi.SSI_O_DR) 0x5A)
        (SSI0_BASE + cc2538Ssi.SSI_O_SR) 0x06)).1 (by decide),
   (SSI_nonblocking_io cc2538Ssi SSI0_BASE 0x3C 7
      (HWREG_set (HWREG_set zeroRegs (SSI0_BASE + cc2538Ssi.SSI_O_DR) 0x5A)
        (SSI0_BASE + cc2538Ssi.SSI_O_SR) 0x06)).2.2.2.2.2.1 (by decide),
   (SSI_nonblocking_io cc2538Ssi SSI0_BASE 0x3C 7 zeroRegs).2.1 (by decide),
   (SSI_nonblocking_io cc2538Ssi SSI0_BASE 0x3C 7 zeroRegs).2.2.2.2.2.2.1 (by decide)⟩

/-- C19: from any register file with `FR.BUSY` clear, `UARTDisable` returns and clears exactly
the FIFO-enable bit FEN of LCRH and the UARTEN, TXE and RXE bits of CTL: every other bit of the
32-bit LCRH and CTL words and every other register is unchanged.  `UARTEnable` sets exactly
those four bits.  Hence `UARTEnable` after `UARTDisable` ends with all four set, `UARTDisable`
after `UARTEnable` ends with all four clear, and each operation is idempotent. -/
theorem UART_disable_enable_effect (hw : UartHw) (hd : hw.OffsetsDistinct)
    (hM : hw.UART_CTL_UARTEN ||| hw.UART_CTL_TXE ||| hw.UART_CTL_RXE < 2 ^ 32)
    (base : Nat) (r : Regs)
    (hbusy : r (base + hw.UART_O_FR) &&& hw.UART_FR_BUSY = 0) :
    ∃ r1, UARTDisable hw base r = .ok r1 ∧
      (r1 (base + hw.UART_O_LCRH) &&& UART_LCRH_FEN = 0 ∧
        r1 (base + hw.UART_O_CTL) &&& hw.UART_CTL_UARTEN = 0 ∧
        r1 (base + hw.UART_O_CTL) &&& hw.UART_CTL_TXE = 0 ∧
        r1 (base + hw.UART_O_CTL) &&& hw.UART_CTL_RXE = 0) ∧
      (∀ i, i < 32 → UART_LCRH_FEN.testBit i = false →
        (r1 (base + hw.UART_O_LCRH)).testBit i = (r (base + hw.UART_O_LCRH)).testBit i) ∧
      (∀ i, i < 32 →
        (hw.UART_CTL_UARTEN ||| hw.UART_CTL_TXE ||| hw.UART_CTL_RXE).testBit i = false →
        (r1 (base + hw.UART_O_CTL)).testBit i = (r (base + hw.UART_O_CTL)).testBit i) ∧
      (∀ a, a ≠ base + hw.UART_O_LCRH → a ≠ base + hw.UART_O_CTL → r1 a = r a) ∧
      (UARTEnable hw base r (base + hw.UART_O_LCRH) &&& UART_LCRH_FEN = UART_LCRH_FEN ∧
        UARTEnable hw base r (base + hw.UART_O_CTL) &&& hw.UART_CTL_UARTEN
          = hw.UART_CTL_UARTEN ∧
        UARTEnable hw base r (base + hw.UART_O_CTL) &&& hw.UART_CTL_TXE = hw.UART_CTL_TXE ∧
        UARTEnable hw base r (base + hw.UART_O_CTL) &&& hw.UART_CTL_RXE = hw.UART_CTL_RXE) ∧
      (∀ i, UART_LCRH_FEN.testBit i = false →
        (UARTEnable hw base r (base + hw.UART_O_LCRH)).testBit i
          = (r (base + hw.UART_O_LCRH)).testBit i) ∧
      (∀ i, (hw.UART_CTL_UARTEN ||| hw.UART_CTL_TXE ||| hw.UART_CTL_RXE).testBit i = false →
        (UARTEnable hw base r (base + hw.UART_O_CTL)).testBit i
          = (r (base + hw.UART_O_CTL)).testBit i) ∧
      (∀ a, a ≠ base + hw.UART_O_LCRH → a ≠ base + hw.UART_O_CTL →
        UARTEnable hw base r a = r a) ∧
      (UARTEnable hw base r1 (base + hw.UART_O_LCRH) &&& UART_LCRH_FEN = UART_LCRH_FEN ∧
        UARTEnable hw base r1 (base + hw.UART_O_CTL) &&& hw.UART_CTL_UARTEN
          = hw.UART_CTL_UARTEN ∧
        UARTEnable hw base r1 (base + hw.UART_O_CTL) &&& hw.UART_CTL_TXE = hw.UART_CTL_TXE ∧
        UARTEnable hw base r1 (base + hw.UART_O_CTL) &&& hw.UART_CTL_RXE = hw.UART_CTL_RXE) ∧
      (∃ r3, UARTDisable hw base (UARTEnable hw base r) = .ok r3 ∧
        r3 (base + hw.UART_O_LCRH) &&& UART_LCRH_FEN = 0 ∧
        r3 (base + hw.UART_O_CTL) &&& hw.UART_CTL_UARTEN = 0 ∧
        r3 (base + hw.UART_O_CTL) &&& hw.UART_CTL_TXE = 0 ∧
        r3 (base + hw.UART_O_CTL) &&& hw.UART_CTL_RXE = 0) ∧
      UARTEnable hw base (UARTEnable hw base r) = UARTEnable hw base r ∧
      UARTDisable hw base r1 = .ok r1 := by
  obtain ⟨pU, pT, pR⟩ := or3_parts hw.UART_CTL_UARTEN hw.UART_CTL_TXE hw.UART_CTL_RXE
  have hcleared : ∀ s : Regs,
      afterDisable hw base s (base + hw.UART_O_LCRH) &&& UART_LCRH_FEN = 0 ∧
      afterDisable hw base s (base + hw.UART_O_CTL) &&& hw.UART_CTL_UARTEN = 0 ∧
      afterDisable hw base s (base + hw.UART_O_CTL) &&& hw.UART_CTL_TXE = 0 ∧
      afterDisable hw base s (base + hw.UART_O_CTL) &&& hw.UART_CTL_RXE = 0 := by
    intro s
    obtain ⟨hL, hC, -⟩ := afterDisable_regs hw hd base s
    rw [hL, hC]
    exact ⟨and_not32_and _ _ (by decide), and_not32_and_part _ _ _ hM pU,
      and_not32_and_part _ _ _ hM pT, and_not32_and_part _ _ _ hM pR⟩
  have hset : ∀ s : Regs,
      UARTEnable hw base s (base + hw.UART_O_LCRH) &&& UART_LCRH_FEN = UART_LCRH_FEN ∧
      UARTEnable hw base s (base + hw.UART_O_CTL) &&& hw.UART_CTL_UARTEN
        = hw.UART_CTL_UARTEN ∧
      UARTEnable hw base s (base + hw.UART_O_CTL) &&& hw.UART_CTL_TXE = hw.UART_CTL_TXE ∧
      UARTEnable hw base s (base + hw.UART_O_CTL) &&& hw.UART_CTL_RXE = hw.UART_CTL_RXE := by
    intro s
    obtain ⟨hL, hC, -⟩ := UARTEnable_regs hw hd base s
    rw [hL, hC]
    exact ⟨or_and_self _ _, or_and_part _ _ _ pU, or_and_part _ _ _ pT, or_and_part _ _ _ pR⟩
  obtain ⟨hL, hC, hO⟩ := afterDisable_regs hw hd base r
  obtain ⟨hLe, hCe, hOe⟩ := UARTEnable_regs hw hd base r
  obtain ⟨hfrE, hfrD⟩ := enable_disable_keep_FR hw hd base r
  refine ⟨afterDisable hw base r, UARTDisable_idle hw base r hbusy, hcleared r, ?_, ?_, hO,
    hset r, ?_, ?_, hOe, hset _, ?_, UARTEnable_idem hw hd base r, ?_⟩
  · intro i hi hbit
    rw [hL]; exact and_not32_testBit _ _ i (by decide) hi hbit
  · intro i hi hbit
    rw [hC]; exact and_not32_testBit _ _ i hM hi hbit
  · intro i hbit
    rw [hLe]; exact or_testBit _ _ i hbit
  · intro i hbit
    rw [hCe]; exact or_testBit _ _ i hbit
  · exact ⟨_, UARTDisable_idle hw base _ (by rw [hfrE]; exact hbusy), hcleared _⟩
  · rw [UARTDisable_idle hw base _ (by rw [hfrD]; exact hbusy), afterDisable_idem hw hd base r]

/-- C19 from `LCRH = 0x70`, `CTL = 0x321` (UARTEN, TXE, RXE and HSE set) with the transmitter
idle: after `UARTDisable` LCRH is `0x60` and CTL is `0x20`. -/
theorem UART_disable_enable_effect_witness :
    ∃ r1, UARTDisable cc2538Uart UART0_BASE
        (HWREG_set (HWREG_set zeroRegs (UART0_BASE + cc2538Uart.UART_O_LCRH) 0x70)
          (UART0_BASE + cc2538Uart.UART_O_CTL) 0x321) = .ok r1 ∧
      r1 (UART0_BASE + cc2538Uart.UART_O_LCRH) &&& UART_LCRH_FEN = 0 ∧
      r1 (UART0_BASE + cc2538Uart.UART_O_CTL) &&& cc2538Uart.UART_CTL_UARTEN = 0 ∧
      r1 (UART0_BASE + cc2538Uart.UART_O_CTL) &&& cc2538Uart.UART_CTL_TXE = 0 ∧
      r1 (UART0_BASE + cc2538Uart.UART_O_CTL) &&& cc2538Uart.UART_CTL_RXE = 0 ∧
      UARTDisable cc2538Uart UART0_BASE r1 = .ok r1 := by
  obtain ⟨r1, h, hc, -, -, -, -, -, -, -, -, -, -, hid⟩ :=
    UART_disable_enable_effect cc2538Uart (by decide) (by decide) UART0_BASE
      (HWREG_set (HWREG_set zeroRegs (UART0_BASE + cc2538Uart.UART_O_LCRH) 0x70)
        (UART0_BASE + cc2538Uart.UART_O_CTL) 0x321) (by decide)
  exact ⟨r1, h, hc.1, hc.2.1, hc.2.2.1, hc.2.2.2, hid⟩

/-- C20: for every register file `UARTRxErrorGet` returns the receive-status register masked to
its low four bits, so the result is below 16 and is the OR of those of `UART_RXERROR_FRAMING`
(1), `UART_RXERROR_PARITY` (2), `UART_RXERROR_BREAK` (4) and `UART_RXERROR_OVERRUN` (8) whose
bit is set in it; and when the error-clear register is the same word as the receive-status
register, `UARTRxErrorGet` directly after `UARTRxErrorClear` returns 0: all four flags are
cleared together. -/
theorem UARTRxError_readout (hw : UartHw) (base : Nat) (r : Regs) :
    UARTRxErrorGet hw base r = r (base + hw.UART_O_RSR) &&& 0xF ∧
    UARTRxErrorGet hw base r < 16 ∧
    UARTRxErrorGet hw base r =
      (if (UARTRxErrorGet hw base r).testBit 0 then UART_RXERROR_FRAMING else 0) |||
      (if (UARTRxErrorGet hw base r).testBit 1 then UART_RXERROR_PARITY else 0) |||
      (if (UARTRxErrorGet hw base r).testBit 2 then UART_RXERROR_BREAK else 0) |||
      (if (UARTRxErrorGet hw base r).testBit 3 then UART_RXERROR_OVERRUN else 0) ∧
    (∀ i, i < 4 → (UARTRxErrorGet hw base r).testBit i = (r (base + hw.UART_O_RSR)).testBit i) ∧
    (hw.UART_O_ECR = hw.UART_O_RSR →
      UARTRxErrorGet hw base (UARTRxErrorClear hw base r) = 0 ∧
      ∀ a, a ≠ base + hw.UART_O_RSR → UARTRxErrorClear hw base r a = r a) := by
  have hlt : UARTRxErrorGet hw base r < 16 := by
    simp only [UARTRxErrorGet]
    exact Nat.and_lt_two_pow _ (by norm_num : 0x0000000F < 2 ^ 4)
  refine ⟨rfl, hlt, ?_, ?_, ?_⟩
  · generalize UARTRxErrorGet hw base r = v at hlt
    interval_cases v <;> decide
  · intro i hi
    simp only [UARTRxErrorGet, HWREG, Nat.testBit_and]
    have h15 : Nat.testBit 0x0000000F i = true := by
      interval_cases i <;> decide
    rw [h15, Bool.and_true]
  · intro he
    refine ⟨?_, ?_⟩
    · simp only [UARTRxErrorGet, UARTRxErrorClear, HWREG, he, HWREG_set_same]
      decide
    · intro a ha
      simp only [UARTRxErrorClear, he, HWREG_set, if_neg ha]

/-- C20 on the CC2538 layout, where ECR and RSR share offset 4, with all four error flags and
some higher bits set in the receive-status word `0xFF`: the readout is 15, and 0 after the
clear. -/
theorem UARTRxError_readout_witness :
    UARTRxErrorGet cc2538Uart UART0_BASE
        (HWREG_set zeroRegs (UART0_BASE + cc2538Uart.UART_O_RSR) 0xFF) = 15 ∧
    UARTRxErrorGet cc2538Uart UART0_BASE (UARTRxErrorClear cc2538Uart UART0_BASE
        (HWREG_set zeroRegs (UART0_BASE + cc2538Uart.UART_O_RSR) 0xFF)) = 0 :=
  ⟨(UARTRxError_readout cc2538Uart UART0_BASE
      (HWREG_set zeroRegs (UART0_BASE + cc2538Uart.UART_O_RSR) 0xFF)).1,
   ((UARTRxError_readout cc2538Uart UART0_BASE
      (HWREG_set zeroRegs (UART0_BASE + cc2538Uart.UART_O_RSR) 0xFF)).2.2.2.2 rfl).1⟩

/-- C21: for `f` in {16 MHz, 32 MHz} and every baud `b ≥ 300`, `UARTConfigSetExpClk` (entered
with `FR.BUSY` clear) returns and the values it writes satisfy `IBRD < 2^16` and `FBRD < 2^6`;
the divider `D = 64*IBRD + FBRD` is below `2^22`. -/
theorem baud_divisor_fits_fields (hw : UartHw) (hd : hw.OffsetsDistinct)
    (base f b cfg : Nat) (r : Regs)
    (hbusy : r (base + hw.UART_O_FR) &&& hw.UART_FR_BUSY = 0)
    (hf : f = 16000000 ∨ f = 32000000) (hb : 300 ≤ b) :
    ∃ r2, UARTConfigSetExpClk hw base f b cfg r = .ok r2 ∧
      r2 (base + hw.UART_O_IBRD) < 2 ^ 16 ∧
      r2 (base + hw.UART_O_FBRD) < 2 ^ 6 ∧
      64 * r2 (base + hw.UART_O_IBRD) + r2 (base + hw.UART_O_FBRD) < 2 ^ 22 ∧
      64 * r2 (base + hw.UART_O_IBRD) + r2 (base + hw.UART_O_FBRD)
        = baudDiv f (effectiveBaud f b) := by
  have hf1 : 16000000 ≤ f := by rcases hf with rfl | rfl <;> norm_num
  have hf2 : f ≤ 32000000 := by rcases hf with rfl | rfl <;> norm_num
  have heb : 300 ≤ effectiveBaud f b := by
    simp only [effectiveBaud, highSpeed]
    split_ifs with h
    · simp only [decide_eq_true_eq, gt_iff_lt] at h
      omega
    · exact hb
  have hD : baudDiv f (effectiveBaud f b) < 2 ^ 22 := by
    have h8 : (f * 8) % 2 ^ 32 = f * 8 := Nat.mod_eq_of_lt (by omega)
    have hq : f * 8 / effectiveBaud f b ≤ f * 8 / 300 := Nat.div_le_div_left heb (by norm_num)
    have hq2 : f * 8 / 300 ≤ 853333 := by omega
    have h1 : (f * 8 / effectiveBaud f b + 1) % 2 ^ 32 = f * 8 / effectiveBaud f b + 1 :=
      Nat.mod_eq_of_lt (by omega)
    simp only [baudDiv, h8, h1]
    omega
  obtain ⟨hI, hF, -, -, -⟩ := afterConfig_regs hw hd base f b cfg r
  refine ⟨_, UARTConfigSetExpClk_returns hw base f b cfg r hbusy (by omega), ?_, ?_, ?_, ?_⟩
  · rw [hI]; omega
  · rw [hF]; omega
  · rw [hI, hF]; omega
  · rw [hI, hF]; omega

/-- C21 at the slowest rate of the range, `f = 32_000_000`, `b = 300`: `IBRD = 6666`,
`FBRD = 43`. -/
theorem baud_divisor_fits_fields_witness :
    ∃ r2, UARTConfigSetExpClk cc2538Uart UART0_BASE 32000000 300 0x60 zeroRegs = .ok r2 ∧
      r2 (UART0_BASE + cc2538Uart.UART_O_IBRD) < 2 ^ 16 ∧
      r2 (UART0_BASE + cc2538Uart.UART_O_FBRD) < 2 ^ 6 ∧
      64 * r2 (UART0_BASE + cc2538Uart.UART_O_IBRD) + r2 (UART0_BASE + cc2538Uart.UART_O_FBRD)
        < 2 ^ 22 ∧
      64 * r2 (UART0_BASE + cc2538Uart.UART_O_IBRD) + r2 (UART0_BASE + cc2538Uart.UART_O_FBRD)
        = 426667 :=
  baud_divisor_fits_fields cc2538Uart (by decide) UART0_BASE 32000000 300 0x60 zeroRegs
    (by decide) (by decide) (by decide)

/-- C22: on the tag machine of the AES entry points (`AESLoadKey`, `AESECBStart`,
`AESECBCheckResult`, `AESECBGetResult`), along every trace from every starting tag,
`g_ui8CurrentAESOp` never passes from one operation directly to a different one, so at most one
operation other than `AES_NONE` is held at a time; a call that starts a new operation is
accepted only when the tag is `AES_NONE` and otherwise fails fast without assigning the tag;
and every successful start followed by result checks and the result collection begins and ends
with the tag equal to `AES_NONE`. -/
theorem AES_single_operation :
    (∀ (t : AESOp) (cs : List AesCall),
      List.Chain (fun a b => a = AESOp.AES_NONE ∨ b = AESOp.AES_NONE ∨ a = b) t
        (aesTrace t cs)) ∧
    (∀ (c : AesCall) (t : AESOp), c.startsOperation = true → t ≠ AESOp.AES_NONE →
      (c.effect t).result = AesResult.failedFast ∧ (c.effect t).writes = [] ∧
      tagAfter t (c.effect t).writes = t) ∧
    (∀ (c : AesCall) (t : AESOp), c.startsOperation = true →
      (c.effect t).result ≠ AesResult.failedFast → t = AESOp.AES_NONE) ∧
    (∀ (t : AESOp) (st st2 : AesStatus) (avails : List Bool),
      (AESECBStart st t).result = AesResult.returned AES_SUCCESS →
      (AESECBGetResult st2 (tagAfter t (AESECBStart st t).writes)).result
        = AesResult.returned AES_SUCCESS →
      t = AESOp.AES_NONE ∧
      tagAfter t (AESECBStart st t).writes = AESOp.AES_ECB ∧
      aesFinalTag t (AesCall.ecbStart st :: (avails.map AesCall.ecbCheckResult ++
        [AesCall.ecbGetResult st2])) = AESOp.AES_NONE) ∧
    (∀ (cs : List AesCall), aesFinalTag AESOp.AES_NONE cs = AESOp.AES_NONE ∨
      aesFinalTag AESOp.AES_NONE cs = AESOp.AES_ECB) := by
  refine ⟨aesTrace_chain, ?_, ?_, ?_, ?_⟩
  · intro c t hs ht
    rcases c with st | st | av | st
    · simp [AesCall.effect, AESLoadKey, ht, tagAfter]
    · simp [AesCall.effect, AESECBStart, ht, tagAfter]
    · simp [AesCall.startsOperation] at hs
    · simp [AesCall.startsOperation] at hs
  · intro c t hs hres
    by_contra ht
    rcases c with st | st | av | st
    · simp [AesCall.effect, AESLoadKey, ht] at hres
    · simp [AesCall.effect, AESECBStart, ht] at hres
    · simp [AesCall.startsOperation] at hs
    · simp [AesCall.startsOperation] at hs
  · intro t st st2 avails hstart hget
    have ht : t = AESOp.AES_NONE := by
      by_contra ht
      simp [AESECBStart, ht] at hstart
    subst ht
    cases st
    · cases st2
      · refine ⟨rfl, rfl, ?_⟩
        simp only [aesFinalTag, AesCall.effect]
        rw [aesFinalTag_checks]
        rfl
      · simp [AESECBGetResult, AES_SUCCESS, AES_KEYSTORE_READ_ERROR] at hget
      · simp [AESECBGetResult, AES_SUCCESS, AES_DMA_BUS_ERROR] at hget
    · simp [AESECBStart, AES_SUCCESS, AES_KEYSTORE_READ_ERROR] at hstart
    · simp [AESECBStart, AES_SUCCESS, AES_DMA_BUS_ERROR] at hstart
  · intro cs
    have key : ∀ (cs : List AesCall) (t : AESOp),
        (t = AESOp.AES_NONE ∨ t = AESOp.AES_ECB) →
        (aesFinalTag t cs = AESOp.AES_NONE ∨ aesFinalTag t cs = AESOp.AES_ECB) := by
      intro cs
      induction cs with
      | nil => intro t ht; exact ht
      | cons c cs ih =>
        intro t ht
        simp only [aesFinalTag]
        apply ih
        rcases ht with rfl | rfl <;> rcases c with st | st | av | st <;> (try cases st) <;>
          simp [AesCall.effect, AESLoadKey, AESECBStart, AESECBCheckResult, AESECBGetResult,
            tagAfter]
    exact key cs _ (Or.inl rfl)

/-- C22 on a concrete run: a key load, an ECB start, a refused second start, two result checks
and the result collection; the tag takes the values key-load, none, ECB, none and ends at
`AES_NONE`. -/
theorem AES_single_operation_witness :
    aesTrace AESOp.AES_NONE
        [.loadKey .done, .ecbStart .done, .ecbStart .done, .ecbCheckResult false,
         .ecbCheckResult true, .ecbGetResult .done]
      = [.AES_KEYL0AD, .AES_NONE, .AES_ECB, .AES_NONE] ∧
    (AESECBStart .done .AES_ECB).result = AesResult.failedFast ∧
    aesFinalTag AESOp.AES_NONE
        (AesCall.ecbStart .done :: ([false, true].map AesCall.ecbCheckResult ++
          [AesCall.ecbGetResult .done])) = AESOp.AES_NONE :=
  ⟨by decide,
   (AES_single_operation.2.1 (.ecbStart .done) .AES_ECB rfl (by decide)).1,
   (AES_single_operation.2.2.2.1 .AES_NONE .done .done [false, true] rfl rfl).2.2⟩

/-- C23: under the caller preconditions (`b ≥ 1`, `b ≤ f/2`, `M = f/b ≤ 254*256`, data width
between 4 and 16) `SSIConfigSetExpClk` returns, and the prescaler `p` it writes to CPSR is the
least even integer `≥ 2` with `M/p ≤ 256`: the value in CR0 bits 15:8 is `SCR = M/p - 1 ≤ 255`,
and for every even `k` with `2 ≤ k < p`, `M/k - 1 > 255`. -/
theorem SSI_prescaler_least (hw : SsiHw) (hd : hw.OffsetsDistinct)
    (base f proto mode b w : Nat) (r : Regs)
    (hb : 1 ≤ b) (hrate : b ≤ f / 2) (hM : f / b ≤ 254 * 256) (hw4 : 4 ≤ w) (hw16 : w ≤ 16) :
    ∃ r2, SSIConfigSetExpClk hw base f proto mode b w r = .ok r2 ∧
      r2 (base + hw.SSI_O_CPSR) % 2 = 0 ∧ 2 ≤ r2 (base + hw.SSI_O_CPSR) ∧
      (f / b) / r2 (base + hw.SSI_O_CPSR) ≤ 256 ∧
      (r2 (base + hw.SSI_O_CR0) >>> 8) &&& 0xFF = (f / b) / r2 (base + hw.SSI_O_CPSR) - 1 ∧
      (f / b) / r2 (base + hw.SSI_O_CPSR) - 1 ≤ 255 ∧
      (∀ k, k % 2 = 0 → 2 ≤ k → k < r2 (base + hw.SSI_O_CPSR) → (f / b) / k - 1 > 255) ∧
      (∀ k, k % 2 = 0 → 2 ≤ k → (f / b) / k ≤ 256 → r2 (base + hw.SSI_O_CPSR) ≤ k) := by
  have hM2 : 2 ≤ f / b := by
    rw [Nat.le_div_iff_mul_le (by omega)]
    have := (Nat.le_div_iff_mul_le (by norm_num : 0 < 2)).1 hrate
    omega
  obtain ⟨p, scr, h1, h2, h3, h4, h5, h6, -, h8⟩ := preDivLoop_result (f / b) hM2 hM
  obtain ⟨r2, hr, hp, hs⟩ := SSIConfigSetExpClk_emits hw hd base f proto mode b w r p scr
    (by omega) h8 h5 hw4 hw16
  refine ⟨r2, hr, ?_⟩
  rw [hp, hs]
  refine ⟨h1, h2, by omega, by omega, by omega, ?_, ?_⟩
  · intro k hk1 hk2 hk3
    have := h6 k (by omega) hk3 hk1
    omega
  · intro k hk1 hk2 hk3
    by_contra hlt
    have := h6 k (by omega) (by omega) hk1
    omega

/-- C23 at `f = 32_000_000`, `b = 1000` (`M = 32_000`, `p = 126`, `SCR = 252`). -/
theorem SSI_prescaler_least_witness :
    ∃ r2, SSIConfigSetExpClk cc2538Ssi SSI0_BASE 32000000 0 0 1000 8 zeroRegs = .ok r2 ∧
      r2 (SSI0_BASE + cc2538Ssi.SSI_O_CPSR) % 2 = 0 ∧ 2 ≤ r2 (SSI0_BASE + cc2538Ssi.SSI_O_CPSR) ∧
      (32000000 / 1000) / r2 (SSI0_BASE + cc2538Ssi.SSI_O_CPSR) ≤ 256 ∧
      (r2 (SSI0_BASE + cc2538Ssi.SSI_O_CR0) >>> 8) &&& 0xFF
        = (32000000 / 1000) / r2 (SSI0_BASE + cc2538Ssi.SSI_O_CPSR) - 1 ∧
      (32000000 / 1000) / r2 (SSI0_BASE + cc2538Ssi.SSI_O_CPSR) - 1 ≤ 255 ∧
      (∀ k, k % 2 = 0 → 2 ≤ k → k < r2 (SSI0_BASE + cc2538Ssi.SSI_O_CPSR) →
        (32000000 / 1000) / k - 1 > 255) ∧
      (∀ k, k % 2 = 0 → 2 ≤ k → (32000000 / 1000) / k ≤ 256 →
        r2 (SSI0_BASE + cc2538Ssi.SSI_O_CPSR) ≤ k) :=
  SSI_prescaler_least cc2538Ssi (by decide) SSI0_BASE 32000000 0 0 1000 8 zeroRegs
    (by decide) (by decide) (by decide) (by decide) (by decide)

/-- C24: on a register file whose flags register reports transmit-FIFO-empty and not busy,
`UART9BitAddrSend(base, x)` returns after exactly three stores, in this order: LCRH :=
`(L & ~EPS) | SPS | PEN` for the initial LCRH value `L`, DR := `x`, LCRH := `L`.  Hence at every
store to DR in the run the byte stored is the given address `x`, and the value held in LCRH at
that moment (before and after the store) is `(L & ~EPS) | SPS | PEN`: its parity field (bits
7, 2, 1) equals `UART_CONFIG_PAR_ONE = 0x82` and all bits outside the parity field equal those
of `L`. -/
theorem UART9BitAddrSend_forces_parity_one (hw : UartHw) (hd : hw.OffsetsDistinct)
    (base x : Nat) (r : Regs)
    (hidle : r (base + hw.UART_O_FR) &&& (hw.UART_FR_TXFE ||| hw.UART_FR_BUSY)
      = hw.UART_FR_TXFE) :
    ∃ t, UART9BitAddrSendTraced hw base x ⟨r, []⟩ = .ok t ∧
      UART9BitAddrSend hw base x r = .ok t.regs ∧
      t.regs = replay r t.stores ∧
      t.stores =
        [(base + hw.UART_O_LCRH,
            (r (base + hw.UART_O_LCRH) &&& not32 UART_LCRH_EPS) ||| UART_LCRH_SPS |||
              UART_LCRH_PEN),
         (base + hw.UART_O_DR, x),
         (base + hw.UART_O_LCRH, r (base + hw.UART_O_LCRH))] ∧
      (∃ pre post, t.stores = pre ++ (base + hw.UART_O_DR, x) :: post) ∧
      (∀ pre v post, t.stores = pre ++ (base + hw.UART_O_DR, v) :: post →
        v = x ∧
        replay r pre (base + hw.UART_O_LCRH)
          = (r (base + hw.UART_O_LCRH) &&& not32 UART_LCRH_EPS) ||| UART_LCRH_SPS |||
              UART_LCRH_PEN ∧
        replay r (pre ++ [(base + hw.UART_O_DR, v)]) (base + hw.UART_O_LCRH)
          = replay r pre (base + hw.UART_O_LCRH) ∧
        replay r (pre ++ [(base + hw.UART_O_DR, v)]) (base + hw.UART_O_DR) = x ∧
        UARTParityModeGet hw base (replay r pre) = UART_CONFIG_PAR_ONE ∧
        UARTParityModeGet hw base (replay r (pre ++ [(base + hw.UART_O_DR, v)]))
          = UART_CONFIG_PAR_ONE ∧
        replay r pre (base + hw.UART_O_LCRH) &&& not32 UART_CONFIG_PAR_MASK
          = r (base + hw.UART_O_LCRH) &&& not32 UART_CONFIG_PAR_MASK ∧
        (∀ i, i < 32 → i ≠ 7 → i ≠ 2 → i ≠ 1 →
          (replay r pre (base + hw.UART_O_LCRH)).testBit i
            = (r (base + hw.UART_O_LCRH)).testBit i)) ∧
      UART_CONFIG_PAR_ONE = 0x82 := by
  obtain ⟨-, -, h3, -, -, -, -, -, -, -⟩ := hd.uart_config_regs
  obtain ⟨-, hdf, hdl, -⟩ := hd.uart_data_reg
  have hfl : base + hw.UART_O_FR ≠ base + hw.UART_O_LCRH := by omega
  have hfd : base + hw.UART_O_FR ≠ base + hw.UART_O_DR := by omega
  have hld : base + hw.UART_O_LCRH ≠ base + hw.UART_O_DR := by omega
  have hret : ∃ t, UART9BitAddrSendTraced hw base x ⟨r, []⟩ = .ok t := by
    simp only [UART9BitAddrSendTraced, Traced.store, HWREG, HWREG_set, if_neg hfl, if_neg hfd,
      hidle, ne_eq, not_true_eq_false, if_false]
    exact ⟨_, rfl⟩
  obtain ⟨t, ht⟩ := hret
  obtain ⟨hst, hregs⟩ := UART9BitAddrSendTraced_stores hw base x ⟨r, []⟩ t ht
  simp only [List.nil_append] at hst
  have hplain : UART9BitAddrSend hw base x r = .ok t.regs := by
    have := UART9BitAddrSendTraced_regs hw base x ⟨r, []⟩
    rw [ht] at this
    exact this.symm
  obtain ⟨hpar, hrest⟩ := forced_parity_word (r (base + hw.UART_O_LCRH))
  have hmask : UART_CONFIG_PAR_MASK = UART_LCRH_SPS ||| UART_LCRH_EPS ||| UART_LCRH_PEN := by
    decide
  refine ⟨t, ht, hplain, ?_, hst, ?_, ?_, rfl⟩
  · rw [hst]; exact hregs
  · exact ⟨[_], [_], by rw [hst]; rfl⟩
  · intro pre v post hsplit
    rw [hst] at hsplit
    have hpre : pre = [(base + hw.UART_O_LCRH,
        (r (base + hw.UART_O_LCRH) &&& not32 UART_LCRH_EPS) ||| UART_LCRH_SPS |||
          UART_LCRH_PEN)] ∧ v = x := by
      rcases pre with _ | ⟨a, _ | ⟨b, _ | ⟨c, pre⟩⟩⟩
      · simp only [List.nil_append, List.cons.injEq, Prod.mk.injEq] at hsplit
        exact absurd hsplit.1.1 hld
      · simp only [List.cons_append, List.nil_append, List.cons.injEq, Prod.mk.injEq]
          at hsplit
        exact ⟨by rw [← hsplit.1], hsplit.2.1.2.symm⟩
      · simp only [List.cons_append, List.nil_append, List.cons.injEq, Prod.mk.injEq]
          at hsplit
        exact absurd hsplit.2.2.1.1 hld
      · simp at hsplit
    obtain ⟨rfl, rfl⟩ := hpre
    have hL : replay r [(base + hw.UART_O_LCRH,
        (r (base + hw.UART_O_LCRH) &&& not32 UART_LCRH_EPS) ||| UART_LCRH_SPS |||
          UART_LCRH_PEN)] (base + hw.UART_O_LCRH)
        = (r (base + hw.UART_O_LCRH) &&& not32 UART_LCRH_EPS) ||| UART_LCRH_SPS |||
          UART_LCRH_PEN := by
      simp only [replay, HWREG_set, if_true]
    have hL2 : replay r ([(base + hw.UART_O_LCRH,
        (r (base + hw.UART_O_LCRH) &&& not32 UART_LCRH_EPS) ||| UART_LCRH_SPS |||
          UART_LCRH_PEN)] ++ [(base + hw.UART_O_DR, v)]) (base + hw.UART_O_LCRH)
        = (r (base + hw.UART_O_LCRH) &&& not32 UART_LCRH_EPS) ||| UART_LCRH_SPS |||
          UART_LCRH_PEN := by
      simp only [List.cons_append, List.nil_append, replay, HWREG_set, if_neg hld, if_true]
    refine ⟨rfl, hL, ?_, ?_, ?_, ?_, ?_, ?_⟩
    · rw [hL2, hL]
    · simp only [List.cons_append, List.nil_append, replay, HWREG_set, if_true]
    · simp only [UARTParityModeGet, HWREG]
      rw [hL]; exact hpar
    · simp only [UARTParityModeGet, HWREG]
      rw [hL2]; exact hpar
    · rw [hL, hmask]; exact hrest
    · intro i hi h7 h2 h1
      have hbit := congrArg (fun n => n.testBit i) hrest
      have hm : UART_LCRH_SPS ||| UART_LCRH_EPS ||| UART_LCRH_PEN = 0x86 := by decide
      have hmi : Nat.testBit 0x86 i = false := by
        by_cases h8 : i < 8
        · interval_cases i <;> first | decide | omega
        · exact testBit_byte_high 0x86 i (by norm_num) (by omega)
      simp only [hm, Nat.testBit_and, testBit_not32 0x86 i (by norm_num), hmi, hi, decide_True,
        Bool.not_false, Bool.and_true] at hbit
      rw [hL]; exact hbit

/-- C24 from `LCRH = 0x7E` (8 data bits, FIFO on, two stop bits, even parity) with the
transmitter idle, sending the address `0xA5`: the stores are LCRH := `0xFA`, DR := `0xA5`,
LCRH := `0x7E`. -/
theorem UART9BitAddrSend_forces_parity_one_witness :
    ∃ t, UART9BitAddrSendTraced cc2538Uart UART0_BASE 0xA5
        ⟨HWREG_set (HWREG_set zeroRegs (UART0_BASE + cc2538Uart.UART_O_FR)
          cc2538Uart.UART_FR_TXFE) (UART0_BASE + cc2538Uart.UART_O_LCRH) 0x7E, []⟩ = .ok t ∧
      t.stores = [(UART0_BASE + cc2538Uart.UART_O_LCRH, 0xFA),
        (UART0_BASE + cc2538Uart.UART_O_DR, 0xA5),
        (UART0_BASE + cc2538Uart.UART_O_LCRH, 0x7E)] := by
  obtain ⟨t, h, -, -, hst, -⟩ := UART9BitAddrSend_forces_parity_one cc2538Uart (by decide)
    UART0_BASE 0xA5 (HWREG_set (HWREG_set zeroRegs (UART0_BASE + cc2538Uart.UART_O_FR)
      cc2538Uart.UART_FR_TXFE) (UART0_BASE + cc2538Uart.UART_O_LCRH) 0x7E) (by decide)
  refine ⟨t, h, ?_⟩
  rw [hst]
  decide

/-- C25: under the caller preconditions (`b ≥ 1`, `b ≤ f/2`, `M = f/b ≤ 254*256`, data width
between 4 and 16) the pair emitted by `SSIConfigSetExpClk` (`p` in CPSR, `SCR` in CR0 bits
15:8) satisfies `M - p < p*(SCR+1) ≤ M`, hence `p*(SCR+1)*b ≤ f`, the divisor `p*(SCR+1)` is
not zero, and the effective rate `f/(p*(SCR+1))` is at least `b`. -/
theorem SSI_rate_not_below_request (hw : SsiHw) (hd : hw.OffsetsDistinct)
    (base f proto mode b w : Nat) (r : Regs)
    (hb : 1 ≤ b) (hrate : b ≤ f / 2) (hM : f / b ≤ 254 * 256) (hw4 : 4 ≤ w) (hw16 : w ≤ 16) :
    ∃ r2 p scr, SSIConfigSetExpClk hw base f proto mode b w r = .ok r2 ∧
      r2 (base + hw.SSI_O_CPSR) = p ∧
      (r2 (base + hw.SSI_O_CR0) >>> 8) &&& 0xFF = scr ∧
      f / b - p < p * (scr + 1) ∧ p * (scr + 1) ≤ f / b ∧
      p * (scr + 1) * b ≤ f ∧ 0 < p * (scr + 1) ∧ b ≤ f / (p * (scr + 1)) := by
  have hM2 : 2 ≤ f / b := by
    rw [Nat.le_div_iff_mul_le (by omega)]
    have := (Nat.le_div_iff_mul_le (by norm_num : 0 < 2)).1 hrate
    omega
  obtain ⟨p, scr, h1, h2, h3, h4, h5, h6, -, h8⟩ := preDivLoop_result (f / b) hM2 hM
  obtain ⟨r2, hr, hp, hs⟩ := SSIConfigSetExpClk_emits hw hd base f proto mode b w r p scr
    (by omega) h8 h5 hw4 hw16
  obtain ⟨hlo, hhi⟩ := mul_div_window (f / b) p (by omega) (by omega)
  rw [← h4] at hlo hhi
  have hpos : 0 < p * (scr + 1) := Nat.mul_pos (by omega) (by omega)
  have hfb : p * (scr + 1) * b ≤ f :=
    le_trans (Nat.mul_le_mul_right b hhi) (Nat.div_mul_le_self f b)
  refine ⟨r2, p, scr, hr, hp, hs, hlo, hhi, hfb, hpos, ?_⟩
  rw [Nat.le_div_iff_mul_le hpos, Nat.mul_comm]
  exact hfb

/-- C25 at `f = 32_000_000`, `b = 1000` (`M = 32_000`, `p = 126`, `SCR = 252`, effective rate
`32_000_000 / 31_878 = 1003`). -/
theorem SSI_rate_not_below_request_witness :
    ∃ r2 p scr, SSIConfigSetExpClk cc2538Ssi SSI0_BASE 32000000 0 0 1000 8 zeroRegs = .ok r2 ∧
      r2 (SSI0_BASE + cc2538Ssi.SSI_O_CPSR) = p ∧
      (r2 (SSI0_BASE + cc2538Ssi.SSI_O_CR0) >>> 8) &&& 0xFF = scr ∧
      32000000 / 1000 - p < p * (scr + 1) ∧ p * (scr + 1) ≤ 32000000 / 1000 ∧
      p * (scr + 1) * 1000 ≤ 32000000 ∧ 0 < p * (scr + 1) ∧
      1000 ≤ 32000000 / (p * (scr + 1)) :=
  SSI_rate_not_below_request cc2538Ssi (by decide) SSI0_BASE 32000000 0 0 1000 8 zeroRegs
    (by decide) (by decide) (by decide) (by decide) (by decide)

/-- C26: in `UARTConfigSetExpClk`, for a non-zero baud `b`, the divisor `b'` of `(f*8)/b'` (`b`
halved in high-speed mode) is non-zero if and only if `b ≥ 2` or `16*b ≤ f` (the product
reduced modulo `2^32`), and the function, entered with `FR.BUSY` clear, returns in exactly that
case; for `b = 1` with `f < 16` the halving yields `b' = 0` and the division is by zero. -/
theorem UART_divisor_nonzero_iff (hw : UartHw) (base f b cfg : Nat) (r : Regs)
    (hbusy : r (base + hw.UART_O_FR) &&& hw.UART_FR_BUSY = 0) (hb0 : b ≠ 0) :
    (effectiveBaud f b ≠ 0 ↔ (2 ≤ b ∨ (b * 16) % 2 ^ 32 ≤ f)) ∧
    ((∃ r2, UARTConfigSetExpClk hw base f b cfg r = .ok r2) ↔
      (2 ≤ b ∨ (b * 16) % 2 ^ 32 ≤ f)) ∧
    (UARTConfigSetExpClk hw base f b cfg r = .error .divByZero ↔
      ¬ (2 ≤ b ∨ (b * 16) % 2 ^ 32 ≤ f)) ∧
    (b = 1 → f < 16 → highSpeed f b = true ∧ effectiveBaud f b = 0 ∧
      UARTConfigSetExpClk hw base f b cfg r = .error .divByZero) := by
  have hiff := effectiveBaud_ne_zero_iff f b hb0
  refine ⟨hiff, ?_, ?_, ?_⟩
  · constructor
    · rintro ⟨r2, h2⟩
      by_contra hn
      have h0 : effectiveBaud f b = 0 := by
        by_contra h1; exact hn (hiff.1 h1)
      rw [UARTConfigSetExpClk_faults hw base f b cfg r hbusy h0] at h2
      cases h2
    · intro h
      exact ⟨_, UARTConfigSetExpClk_returns hw base f b cfg r hbusy (hiff.2 h)⟩
  · constructor
    · intro he hn
      rw [UARTConfigSetExpClk_returns hw base f b cfg r hbusy (hiff.2 hn)] at he
      cases he
    · intro hn
      have h0 : effectiveBaud f b = 0 := by
        by_contra h1; exact hn (hiff.1 h1)
      exact UARTConfigSetExpClk_faults hw base f b cfg r hbusy h0
  · intro h1 hf
    subst h1
    have hs : highSpeed f 1 = true := by
      simp only [highSpeed, decide_eq_true_eq]; omega
    have h0 : effectiveBaud f 1 = 0 := by
      simp only [effectiveBaud, hs, if_true]
    exact ⟨hs, h0, UARTConfigSetExpClk_faults hw base f 1 cfg r hbusy h0⟩

/-- C26 at `f = 15`, `b = 1`: the baud passes the assertion `b != 0`, the high-speed branch
halves it to 0, and the divider computation divides by zero. -/
theorem UART_divisor_nonzero_iff_witness :
    highSpeed 15 1 = true ∧ effectiveBaud 15 1 = 0 ∧
    UARTConfigSetExpClk cc2538Uart UART0_BASE 15 1 0x60 zeroRegs = .error .divByZero :=
  (UART_divisor_nonzero_iff cc2538Uart UART0_BASE 15 1 0x60 zeroRegs (by decide)
    (by decide)).2.2.2 rfl (by decide)

/-- C27: for every clock `f < 2^29` and effective baud `b' ≥ 1`, the divider `D` computed by
`UARTConfigSetExpClk` is zero if and only if `8*f < b'`, and `D = 64*IBRD + FBRD` of the
registers the function writes; in normal-speed mode (`b ≥ 1`, `16*b ≤ f`) `D ≥ 64`, so
`IBRD ≥ 1`, the 32-bit denominator `64*IBRD + FBRD` of `UARTConfigGetExpClk` is not zero and
the getter returns. -/
theorem getter_division_defined (hw : UartHw) (hd : hw.OffsetsDistinct)
    (base f b cfg : Nat) (r : Regs)
    (hbusy : r (base + hw.UART_O_FR) &&& hw.UART_FR_BUSY = 0) (hf : f < 2 ^ 29) :
    (∀ c, 1 ≤ c → (baudDiv f c = 0 ↔ 8 * f < c)) ∧
    (1 ≤ effectiveBaud f b →
      ∃ r2, UARTConfigSetExpClk hw base f b cfg r = .ok r2 ∧
        64 * r2 (base + hw.UART_O_IBRD) + r2 (base + hw.UART_O_FBRD)
          = baudDiv f (effectiveBaud f b) ∧
        (64 * r2 (base + hw.UART_O_IBRD) + r2 (base + hw.UART_O_FBRD) = 0 ↔
          8 * f < effectiveBaud f b)) ∧
    (1 ≤ b → 16 * b ≤ f →
      ∃ r2 g c, UARTConfigSetExpClk hw base f b cfg r = .ok r2 ∧
        64 ≤ 64 * r2 (base + hw.UART_O_IBRD) + r2 (base + hw.UART_O_FBRD) ∧
        1 ≤ r2 (base + hw.UART_O_IBRD) ∧
        ((64 * r2 (base + hw.UART_O_IBRD)) % 2 ^ 32 + r2 (base + hw.UART_O_FBRD)) % 2 ^ 32
          ≠ 0 ∧
        UARTConfigGetExpClk hw base f r2 = .ok (r2, g, c)) := by
  obtain ⟨hI, hF, -, -, -⟩ := afterConfig_regs hw hd base f b cfg r
  refine ⟨fun c hc => baudDiv_eq_zero_iff f c hf hc, ?_, ?_⟩
  · intro he
    have hsum : 64 * afterConfig hw base f b cfg r (base + hw.UART_O_IBRD) +
        afterConfig hw base f b cfg r (base + hw.UART_O_FBRD)
        = baudDiv f (effectiveBaud f b) := by
      rw [hI, hF]; omega
    refine ⟨_, UARTConfigSetExpClk_returns hw base f b cfg r hbusy (by omega), hsum, ?_⟩
    rw [hsum]
    exact baudDiv_eq_zero_iff f _ hf he
  · intro hb1 hb16
    obtain ⟨-, heb⟩ := normal_speed_facts f b hf hb16
    have hq : 128 ≤ f * 8 / b := by
      rw [Nat.le_div_iff_mul_le (by omega)]; omega
    have hD : 64 ≤ baudDiv f (effectiveBaud f b) := by
      rw [heb, baudDiv_eq f b hf]; omega
    have hlt := baudDiv_lt f (effectiveBaud f b)
    have hden : ((64 * afterConfig hw base f b cfg r (base + hw.UART_O_IBRD)) % 2 ^ 32 +
        afterConfig hw base f b cfg r (base + hw.UART_O_FBRD)) % 2 ^ 32 ≠ 0 := by
      rw [hI, hF]; omega
    refine ⟨_, _, _, UARTConfigSetExpClk_returns hw base f b cfg r hbusy (by omega), ?_, ?_,
      hden, UARTConfigGetExpClk_returns hw base f _ hden⟩
    · rw [hI, hF]; omega
    · rw [hI]; omega

/-- C27 at `f = 32_000_000`, `b = 2_000_000` (`16*b = f`, the fastest normal-speed rate):
`IBRD = 1`, `FBRD = 0`, and the getter returns the requested baud. -/
theorem getter_division_defined_witness :
    ∃ r2 g c, UARTConfigSetExpClk cc2538Uart UART0_BASE 32000000 2000000 0x60 zeroRegs
        = .ok r2 ∧
      64 ≤ 64 * r2 (UART0_BASE + cc2538Uart.UART_O_IBRD) +
        r2 (UART0_BASE + cc2538Uart.UART_O_FBRD) ∧
      1 ≤ r2 (UART0_BASE + cc2538Uart.UART_O_IBRD) ∧
      ((64 * r2 (UART0_BASE + cc2538Uart.UART_O_IBRD)) % 2 ^ 32 +
        r2 (UART0_BASE + cc2538Uart.UART_O_FBRD)) % 2 ^ 32 ≠ 0 ∧
      UARTConfigGetExpClk cc2538Uart UART0_BASE 32000000 r2 = .ok (r2, g, c) :=
  (getter_division_defined cc2538Uart (by decide) UART0_BASE 32000000 2000000 0x60 zeroRegs
    (by decide) (by decide)).2.2 (by decide) (by decide)

/-- C28: `UART9BitEnable` and `UART9BitAddrSet` do not commute.  With the enable bit
`UART_NINEBITADDR_NINEBITEN` not zero and outside the address field, for every address `a` and
mask `m` (bytes): after `UART9BitEnable` then `UART9BitAddrSet(a, m)` the NINEBITADDR register
holds `a` (in its field) with the enable bit clear; after `UART9BitAddrSet(a, m)` then
`UART9BitEnable` it holds `a` with the enable bit set; the two register files differ; and in
both orders NINEBITAMASK holds `m` (in its field). -/
theorem UART9Bit_enable_addrset_order (hw : UartHw) (hd : hw.OffsetsDistinct)
    (hen0 : hw.UART_NINEBITADDR_NINEBITEN ≠ 0)
    (hfield : ((0xFF <<< hw.UART_NINEBITADDR_ADDR_S) % 2 ^ 32) &&&
      hw.UART_NINEBITADDR_NINEBITEN = 0)
    (base a m : Nat) (r : Regs) (ha : a < 256) (hm : m < 256) :
    UART9BitAddrSet hw base a m (UART9BitEnable hw base r) (base + hw.UART_O_NINEBITADDR)
      = (a <<< hw.UART_NINEBITADDR_ADDR_S) % 2 ^ 32 ∧
    UART9BitAddrSet hw base a m (UART9BitEnable hw base r) (base + hw.UART_O_NINEBITADDR) &&&
      hw.UART_NINEBITADDR_NINEBITEN = 0 ∧
    UART9BitEnable hw base (UART9BitAddrSet hw base a m r) (base + hw.UART_O_NINEBITADDR)
      = ((a <<< hw.UART_NINEBITADDR_ADDR_S) % 2 ^ 32) ||| hw.UART_NINEBITADDR_NINEBITEN ∧
    UART9BitEnable hw base (UART9BitAddrSet hw base a m r) (base + hw.UART_O_NINEBITADDR) &&&
      hw.UART_NINEBITADDR_NINEBITEN = hw.UART_NINEBITADDR_NINEBITEN ∧
    UART9BitAddrSet hw base a m (UART9BitEnable hw base r)
      ≠ UART9BitEnable hw base (UART9BitAddrSet hw base a m r) ∧
    UART9BitAddrSet hw base a m (UART9BitEnable hw base r) (base + hw.UART_O_NINEBITAMASK)
      = (m <<< hw.UART_NINEBITAMASK_MASK_S) % 2 ^ 32 ∧
    UART9BitEnable hw base (UART9BitAddrSet hw base a m r) (base + hw.UART_O_NINEBITAMASK)
      = (m <<< hw.UART_NINEBITAMASK_MASK_S) % 2 ^ 32 ∧
    (hw.UART_NINEBITADDR_ADDR_S = 0 →
      UART9BitAddrSet hw base a m (UART9BitEnable hw base r) (base + hw.UART_O_NINEBITADDR)
        = a ∧
      UART9BitEnable hw base (UART9BitAddrSet hw base a m r) (base + hw.UART_O_NINEBITADDR)
        = a ||| hw.UART_NINEBITADDR_NINEBITEN) ∧
    (hw.UART_NINEBITAMASK_MASK_S = 0 →
      UART9BitAddrSet hw base a m (UART9BitEnable hw base r) (base + hw.UART_O_NINEBITAMASK)
        = m ∧
      UART9BitEnable hw base (UART9BitAddrSet hw base a m r) (base + hw.UART_O_NINEBITAMASK)
        = m) := by
  obtain ⟨h1, h2, h3, h4⟩ := nineBit_orders hw hd base a m r
  have hdis := shifted_byte_disjoint hw.UART_NINEBITADDR_ADDR_S hw.UART_NINEBITADDR_NINEBITEN a
    ha hfield
  have hclear : UART9BitAddrSet hw base a m (UART9BitEnable hw base r)
      (base + hw.UART_O_NINEBITADDR) &&& hw.UART_NINEBITADDR_NINEBITEN = 0 := by
    rw [h1]; exact hdis
  have hset : UART9BitEnable hw base (UART9BitAddrSet hw base a m r)
      (base + hw.UART_O_NINEBITADDR) &&& hw.UART_NINEBITADDR_NINEBITEN
      = hw.UART_NINEBITADDR_NINEBITEN := by
    rw [h3]; exact or_and_self _ _
  refine ⟨h1, hclear, h3, hset, ?_, h2, h4, ?_, ?_⟩
  · intro he
    rw [he, hset] at hclear
    exact hen0 hclear
  · intro hs
    have ha32 : a % 2 ^ 32 = a := Nat.mod_eq_of_lt (by omega)
    rw [h1, h3, hs, Nat.shiftLeft_zero, ha32]
    exact ⟨rfl, rfl⟩
  · intro hs
    have hm32 : m % 2 ^ 32 = m := Nat.mod_eq_of_lt (by omega)
    rw [h2, h4, hs, Nat.shiftLeft_zero, hm32]
    exact ⟨rfl, rfl⟩

/-- C28 with address `0xA5` and mask `0xFF` (scenario E6) from the all-zero register file:
enabling first leaves NINEBITADDR = `0xA5` (9-bit mode off), enabling last leaves `0x80A5`. -/
theorem UART9Bit_enable_addrset_order_witness :
    UART9BitAddrSet cc2538Uart UART0_BASE 0xA5 0xFF (UART9BitEnable cc2538Uart UART0_BASE
      zeroRegs) (UART0_BASE + cc2538Uart.UART_O_NINEBITADDR) = 0xA5 ∧
    UART9BitEnable cc2538Uart UART0_BASE (UART9BitAddrSet cc2538Uart UART0_BASE 0xA5 0xFF
      zeroRegs) (UART0_BASE + cc2538Uart.UART_O_NINEBITADDR)
        = 0xA5 ||| cc2538Uart.UART_NINEBITADDR_NINEBITEN :=
  (UART9Bit_enable_addrset_order cc2538Uart (by decide) (by decide) (by decide) UART0_BASE
    0xA5 0xFF zeroRegs (by decide) (by decide)).2.2.2.2.2.2.2.1 rfl

/-- C29: `UARTConfigSetExpClk` leaves the UART stopped.  From any register file with `FR.BUSY`
clear (and an effective baud that is not zero, so that the function returns), after the call
the UARTEN, TXE and RXE bits of CTL are clear, every bit of the 32-bit CTL word other than
those three and the high-speed bit is unchanged, and LCRH equals `config`, so its FIFO-enable
and break bits are those of `config`: both clear for every valid `config` (the OR of one
word-length, one stop-bit and one parity constant). -/
theorem UARTConfigSetExpClk_leaves_stopped (hw : UartHw) (hd : hw.OffsetsDistinct)
    (hM : hw.UART_CTL_UARTEN ||| hw.UART_CTL_TXE ||| hw.UART_CTL_RXE < 2 ^ 32)
    (hHSE : hw.UART_CTL_HSE < 2 ^ 32)
    (hdis : hw.UART_CTL_HSE &&& (hw.UART_CTL_UARTEN ||| hw.UART_CTL_TXE ||| hw.UART_CTL_RXE)
      = 0)
    (base f b cfg : Nat) (r : Regs)
    (hbusy : r (base + hw.UART_O_FR) &&& hw.UART_FR_BUSY = 0)
    (hb : effectiveBaud f b ≠ 0) :
    ∃ r2, UARTConfigSetExpClk hw base f b cfg r = .ok r2 ∧
      r2 (base + hw.UART_O_CTL) &&& hw.UART_CTL_UARTEN = 0 ∧
      r2 (base + hw.UART_O_CTL) &&& hw.UART_CTL_TXE = 0 ∧
      r2 (base + hw.UART_O_CTL) &&& hw.UART_CTL_RXE = 0 ∧
      (∀ i, i < 32 →
        (hw.UART_CTL_UARTEN ||| hw.UART_CTL_TXE ||| hw.UART_CTL_RXE).testBit i = false →
        hw.UART_CTL_HSE.testBit i = false →
        (r2 (base + hw.UART_O_CTL)).testBit i = (r (base + hw.UART_O_CTL)).testBit i) ∧
      r2 (base + hw.UART_O_LCRH) = cfg ∧
      r2 (base + hw.UART_O_LCRH) &&& UART_LCRH_FEN = cfg &&& UART_LCRH_FEN ∧
      r2 (base + hw.UART_O_LCRH) &&& UART_LCRH_BRK = cfg &&& UART_LCRH_BRK ∧
      (∀ wlen stop par,
        wlen ∈ [UART_CONFIG_WLEN_5, UART_CONFIG_WLEN_6, UART_CONFIG_WLEN_7,
          UART_CONFIG_WLEN_8] →
        stop ∈ [UART_CONFIG_STOP_ONE, UART_CONFIG_STOP_TWO] →
        par ∈ parityModes → cfg = wlen ||| stop ||| par →
        r2 (base + hw.UART_O_LCRH) &&& UART_LCRH_FEN = 0 ∧
        r2 (base + hw.UART_O_LCRH) &&& UART_LCRH_BRK = 0) := by
  obtain ⟨pU, pT, pR⟩ := or3_parts hw.UART_CTL_UARTEN hw.UART_CTL_TXE hw.UART_CTL_RXE
  obtain ⟨-, -, hL, -, hC⟩ := afterConfig_regs hw hd base f b cfg r
  obtain ⟨-, hCd, -⟩ := afterDisable_regs hw hd base r
  have hclear : ∀ k, k &&& (hw.UART_CTL_UARTEN ||| hw.UART_CTL_TXE ||| hw.UART_CTL_RXE) = k →
      afterConfig hw base f b cfg r (base + hw.UART_O_CTL) &&& k = 0 := by
    intro k hk
    obtain ⟨h1, h2⟩ := cleared_part_stays_clear (r (base + hw.UART_O_CTL)) _ hw.UART_CTL_HSE k
      hM hk hdis
    rw [hC]
    simp only [ctlAfterConfig, hCd]
    split_ifs
    · exact h1
    · exact h2
  refine ⟨_, UARTConfigSetExpClk_returns hw base f b cfg r hbusy hb, hclear _ pU, hclear _ pT,
    hclear _ pR, ?_, hL, by rw [hL], by rw [hL], ?_⟩
  · intro i hi hMi hHi
    obtain ⟨h1, h2⟩ := other_bits_kept (r (base + hw.UART_O_CTL)) _ hw.UART_CTL_HSE i hM hHSE
      hi hMi hHi
    rw [hC]
    simp only [ctlAfterConfig, hCd]
    split_ifs
    · exact h1
    · exact h2
  · intro wlen stop par hwlen hstop hpar hcfg
    rw [hL, hcfg]
    simp only [parityModes, List.mem_cons, List.mem_singleton, List.not_mem_nil, or_false]
      at hwlen hstop hpar
    rcases hwlen with rfl | rfl | rfl | rfl <;> rcases hstop with rfl | rfl <;>
      rcases hpar with rfl | rfl | rfl | rfl | rfl <;> decide

/-- C29 from `LCRH = 0x70`, `CTL = 0x3A1` (UARTEN, TXE, RXE, HSE and the loop-back bit 7 set)
with the transmitter idle, configuring 115 200 baud 8N1 at 32 MHz: CTL ends as `0x80` and
LCRH as `0x60`. -/
theorem UARTConfigSetExpClk_leaves_stopped_witness :
    ∃ r2, UARTConfigSetExpClk cc2538Uart UART0_BASE 32000000 115200 0x60
        (HWREG_set (HWREG_set zeroRegs (UART0_BASE + cc2538Uart.UART_O_LCRH) 0x70)
          (UART0_BASE + cc2538Uart.UART_O_CTL) 0x3A1) = .ok r2 ∧
      r2 (UART0_BASE + cc2538Uart.UART_O_CTL) &&& cc2538Uart.UART_CTL_UARTEN = 0 ∧
      r2 (UART0_BASE + cc2538Uart.UART_O_CTL) &&& cc2538Uart.UART_CTL_TXE = 0 ∧
      r2 (UART0_BASE + cc2538Uart.UART_O_CTL) &&& cc2538Uart.UART_CTL_RXE = 0 ∧
      (r2 (UART0_BASE + cc2538Uart.UART_O_CTL)).testBit 7 = true ∧
      r2 (UART0_BASE + cc2538Uart.UART_O_LCRH) = 0x60 := by
  obtain ⟨r2, h, hU, hT, hR, hbits, hL, -, -, -⟩ :=
    UARTConfigSetExpClk_leaves_stopped cc2538Uart (by decide) (by decide) (by decide)
      (by decide) UART0_BASE 32000000 115200 0x60
      (HWREG_set (HWREG_set zeroRegs (UART0_BASE + cc2538Uart.UART_O_LCRH) 0x70)
        (UART0_BASE + cc2538Uart.UART_O_CTL) 0x3A1) (by decide) (by decide)
  exact ⟨r2, h, hU, hT, hR, by rw [hbits 7 (by decide) (by decide) (by decide)]; decide, hL⟩

/-- C30: the argument assertion of `SSIDataPut` and `SSIDataPutNonBlocking`,
`(data & (0xfffffffe << d)) == 0` in 32-bit arithmetic with `d` the DSS value in CR0 bits 3:0
(so `0 ≤ d ≤ 15`), holds for a 32-bit `data` if and only if `data < 2^(d+1)`; and after
`SSIConfigSetExpClk` with data width `w` (`4 ≤ w ≤ 16`, under the caller preconditions on the
bit rate) it holds exactly for `data < 2^w`. -/
theorem SSIDataPut_assert_width (hw : SsiHw) (hd : hw.OffsetsDistinct)
    (base data : Nat) (r : Regs) (hdata : data < 2 ^ 32) :
    HWREG r (base + hw.SSI_O_CR0) &&& SSI_CR0_DSS_M ≤ 15 ∧
    (SSIDataPutAssert hw base data r = true ↔
      data < 2 ^ ((HWREG r (base + hw.SSI_O_CR0) &&& SSI_CR0_DSS_M) + 1)) ∧
    (∀ d, d ≤ 15 →
      (data &&& ((0xfffffffe <<< d) % 2 ^ 32) = 0 ↔ data < 2 ^ (d + 1))) ∧
    (∀ f proto mode b w, 1 ≤ b → 2 ≤ f / b → f / b ≤ 254 * 256 → 4 ≤ w → w ≤ 16 →
      ∃ r2, SSIConfigSetExpClk hw base f proto mode b w r = .ok r2 ∧
        r2 (base + hw.SSI_O_CR0) &&& SSI_CR0_DSS_M = w - 1 ∧
        (SSIDataPutAssert hw base data r2 = true ↔ data < 2 ^ w)) := by
  refine ⟨Nat.and_le_right, ?_, fun d _ => dataMask_and_eq_zero_iff data d hdata, ?_⟩
  · simp only [SSIDataPutAssert, decide_eq_true_eq]
    exact dataMask_and_eq_zero_iff data _ hdata
  · intro f proto mode b w hb hM2 hM hw4 hw16
    obtain ⟨p, scr, -, -, -, -, h5, -, -, h8⟩ := preDivLoop_result (f / b) hM2 hM
    obtain ⟨r2, hr, hdss⟩ := SSIConfigSetExpClk_dss hw hd base f proto mode b w r p scr
      (by omega) h8 h5 hw4 hw16
    refine ⟨r2, hr, hdss, ?_⟩
    simp only [SSIDataPutAssert, decide_eq_true_eq, HWREG, hdss]
    have hw1 : w - 1 + 1 = w := by omega
    rw [dataMask_and_eq_zero_iff data (w - 1) hdata, hw1]

/-- C30 for 8 data bits (`f = 16_000_000`, `b = 1_000_000`): `0xFF` passes the assertion and
`0x100` does not. -/
theorem SSIDataPut_assert_width_witness :
    (∃ r2, SSIConfigSetExpClk cc2538Ssi SSI0_BASE 16000000 3 0 1000000 8 zeroRegs = .ok r2 ∧
      r2 (SSI0_BASE + cc2538Ssi.SSI_O_CR0) &&& SSI_CR0_DSS_M = 8 - 1 ∧
      (SSIDataPutAssert cc2538Ssi SSI0_BASE 0xFF r2 = true ↔ 0xFF < 2 ^ 8)) ∧
    (∃ r2, SSIConfigSetExpClk cc2538Ssi SSI0_BASE 16000000 3 0 1000000 8 zeroRegs = .ok r2 ∧
      r2 (SSI0_BASE + cc2538Ssi.SSI_O_CR0) &&& SSI_CR0_DSS_M = 8 - 1 ∧
      (SSIDataPutAssert cc2538Ssi SSI0_BASE 0x100 r2 = true ↔ 0x100 < 2 ^ 8)) ∧
    SSIDataPutAssert cc2538Ssi SSI0_BASE 0xFF
      (HWREG_set zeroRegs (SSI0_BASE + cc2538Ssi.SSI_O_CR0) 0xC7) = true ∧
    SSIDataPutAssert cc2538Ssi SSI0_BASE 0x100
      (HWREG_set zeroRegs (SSI0_BASE + cc2538Ssi.SSI_O_CR0) 0xC7) = false :=
  ⟨(SSIDataPut_assert_width cc2538Ssi (by decide) SSI0_BASE 0xFF zeroRegs (by decide)).2.2.2
      16000000 3 0 1000000 8 (by decide) (by decide) (by decide) (by decide) (by decide),
   (SSIDataPut_assert_width cc2538Ssi (by decide) SSI0_BASE 0x100 zeroRegs (by decide)).2.2.2
      16000000 3 0 1000000 8 (by decide) (by decide) (by decide) (by decide) (by decide),
   by decide, by decide⟩

end Cc2538
